import Mathlib

/-!
The named-library cache manager of gutils (`tokentool/cachetool.go`).

A shallow embedding of `CacheManager` (Init, RegLib, Set, Get, Keys, Clear) and of the
token store it delegates to.

Modelling conventions

* A Go `map[string]T` field is `GoMap T`: `none` is the nil map, `some f` an allocated map
  with `f k = none` for an absent key.  Only lookups, stores and deletes are used by the
  source, never iteration, so a function is enough.
* `*TokenManager` values held in `clibs` are created inside `RegLib` and never handed out, so
  no two libraries alias one store; the pointer is modelled by the store value itself and a
  method call through the pointer by writing the updated store back under the same name.
* `interface{}` values are `Option V` for an arbitrary payload type `V` (`none` is Go's nil).
* `int64` seconds and clock readings are `Int`; the manager only stores and forwards them.
* A nil-pointer or nil-map panic is `Except.error`; the mutex itself is not modelled beyond
  being allocated or not (calls are atomic steps of the model).
* `error` results are `Option String`: `none` is nil, `some msg` is `errors.New(msg)`.
-/

namespace Gutils
namespace tokentool

/-! ## Go values -/

/-- Go map with string keys: `none` is the nil map. -/
abbrev GoMap (α : Type) := Option (String → Option α)

/-- Go slice of strings: `none` is the nil slice, `some xs` an allocated slice. -/
abbrev GoSlice := Option (List String)

/-- Go `error`: `none` is nil, `some msg` the value of `errors.New(msg)`. -/
abbrev GoError := Option String

/-- Run-time panics the manager can raise. -/
inductive Panic where
  | nilPointer
  | nilMapWrite
  deriving DecidableEq, Repr

/-- Comma-ok read `v, ok := m[k]`; a nil map reads as absent. -/
def GoMap.lookup {α : Type} (m : GoMap α) (k : String) : Option α :=
  match m with
  | none => none
  | some f => f k

/-- Assignment `m[k] = v` on an allocated map. -/
def GoMap.store {α : Type} (f : String → Option α) (k : String) (v : α) : String → Option α :=
  fun x => if x = k then some v else f x

/-- Builtin `delete(m, k)`; a no-op on the nil map. -/
def GoMap.delete {α : Type} (m : GoMap α) (k : String) : GoMap α :=
  match m with
  | none => none
  | some f => some (fun x => if x = k then none else f x)

/-! ## Token store -/

/-- Modelled from the spec: the Entry of the Token Store (`tokentool.go` is not among the
sources): a value, the TTL it was stored with, and `expiresAt` (`none` is "never"). -/
structure Entry (V : Type) where
  value : Option V
  ttl : Int
  expiresAt : Option Int

/-- Modelled from the spec: the Token Store `TokenManager` (`tokentool.go` is not among the
sources): a mapping from key to Entry, kept as an association list with one pair per key,
and whether `Init` has run. -/
structure TokenManager (V : Type) where
  tokens : List (String × Entry V)
  started : Bool

/-- Modelled from the spec: the zero value `&TokenManager{}` (type declared in the missing
`tokentool.go`): no mapping, not started. -/
def TokenManager.zero {V : Type} : TokenManager V := ⟨[], false⟩

/-- Modelled from the spec: `TokenManager.Init` (missing `tokentool.go`): allocates the
mapping and starts the sweep; only the first call has effect. -/
def TokenManager.Init {V : Type} (tm : TokenManager V) : TokenManager V :=
  if tm.started then tm else ⟨[], true⟩

/-- Modelled from the spec: expiry chosen by Put (missing `tokentool.go`): a negative TTL
never expires, otherwise `expiresAt = now + ttlSeconds` (already due when the TTL is 0). -/
def expiry (second now : Int) : Option Int :=
  if second < 0 then none else some (now + second)

/-- Modelled from the spec: insert-or-overwrite on the key to Entry mapping (missing
`tokentool.go`). -/
def putEntry {V : Type} (k : String) (e : Entry V) :
    List (String × Entry V) → List (String × Entry V)
  | [] => [(k, e)]
  | (k', e') :: rest => if k' = k then (k, e) :: rest else (k', e') :: putEntry k e rest

/-- Modelled from the spec: read of the key to Entry mapping (missing `tokentool.go`). -/
def findEntry {V : Type} (k : String) : List (String × Entry V) → Option (Entry V)
  | [] => none
  | (k', e') :: rest => if k' = k then some e' else findEntry k rest

/-- Modelled from the spec: `TokenManager.PutTokenBody` (missing `tokentool.go`), the
store's Put: inserts or overwrites the entry for the key and returns the key as handle. -/
def TokenManager.PutTokenBody {V : Type} (tm : TokenManager V) (token : String)
    (body : Option V) (second now : Int) : String × TokenManager V :=
  (token, { tm with tokens := putEntry token ⟨body, second, expiry second now⟩ tm.tokens })

/-- Modelled from the spec: `TokenManager.GetTokenBody` (missing `tokentool.go`), the
store's Get: the value and whether the key is present; no refresh. -/
def TokenManager.GetTokenBody {V : Type} (tm : TokenManager V) (token : String) :
    Option V × Bool :=
  match findEntry token tm.tokens with
  | some e => (e.value, true)
  | none => (none, false)

/-- Modelled from the spec: `TokenManager.ListTokens` (missing `tokentool.go`), the store's
List: a snapshot of the present keys. -/
def TokenManager.ListTokens {V : Type} (tm : TokenManager V) : GoSlice :=
  some (tm.tokens.map Prod.fst)

/-- Modelled from the spec: `TokenManager.Clear` (missing `tokentool.go`): removes all
entries at once. -/
def TokenManager.Clear {V : Type} (tm : TokenManager V) : TokenManager V :=
  { tm with tokens := [] }

/-- Modelled from the spec: one tick of the background sweep (missing `tokentool.go`):
removes the entries whose `expiresAt` is finite and `<= now`. -/
def TokenManager.sweep {V : Type} (tm : TokenManager V) (now : Int) : TokenManager V :=
  { tm with tokens := tm.tokens.filter (fun p =>
      match p.2.expiresAt with
      | none => true
      | some t => decide (now < t)) }

/-! ## Cache manager (`cachetool.go`) -/

/-- The struct `CacheManager`: `clibLock` records whether the `*sync.RWMutex` is non-nil. -/
structure CacheManager (V : Type) where
  libexp : GoMap Int
  clibs : GoMap (TokenManager V)
  clibLock : Bool

/-- The zero value `&CacheManager{}`. -/
def CacheManager.zero {V : Type} : CacheManager V := ⟨none, none, false⟩

/-- The method `CacheManager.Init`: returns the receiver untouched when `clibs` is non-nil, otherwise
allocates both maps and the lock. -/
def CacheManager.Init {V : Type} (cm : CacheManager V) : CacheManager V :=
  if cm.clibs.isSome then cm
  else { libexp := some (fun _ => none), clibs := some (fun _ => none), clibLock := true }

/-- The method `CacheManager.RegLib`: the empty name is refused before the lock is touched; an existing
name is refused; otherwise a new initialised store and the TTL are recorded. -/
def CacheManager.RegLib {V : Type} (cm : CacheManager V) (lib : String) (second : Int) :
    Except Panic (GoError × CacheManager V) :=
  if lib.length = 0 then .ok (some "lib is empty", cm)
  else if cm.clibLock = false then .error .nilPointer
  else match cm.clibs.lookup lib with
    | some _ => .ok (some "lib is exist", cm)
    | none =>
      match cm.clibs, cm.libexp with
      | some libs, some exps =>
        .ok (none, { cm with
          clibs := some (GoMap.store libs lib (TokenManager.zero.Init)),
          libexp := some (GoMap.store exps lib second) })
      | _, _ => .error .nilMapWrite

/-- The method `CacheManager.Set`: takes the lock first, then refuses the empty library name, an
unknown library, and a library without TTL record (dropping its store); otherwise calls
`PutTokenBody(key, tb, lx)` on the library's store.  `now` is the clock reading of that
call. -/
def CacheManager.Set {V : Type} (cm : CacheManager V) (lib key : String) (tb : Option V)
    (now : Int) : Except Panic (GoError × CacheManager V) :=
  if cm.clibLock = false then .error .nilPointer
  else if lib.length = 0 then .ok (some "lib is empty", cm)
  else match cm.clibs, cm.clibs.lookup lib with
    | some libs, some tm =>
      match cm.libexp.lookup lib with
      | none => .ok (some "lib not exist", { cm with clibs := cm.clibs.delete lib })
      | some lx =>
        .ok (none, { cm with clibs := some (GoMap.store libs lib (tm.PutTokenBody key tb lx now).2) })
    | _, _ => .ok (some "lib not exist", cm)

/-- The method `CacheManager.Get`: `(nil, false)` for an unknown library, otherwise the store's
`GetTokenBody(key)`. -/
def CacheManager.Get {V : Type} (cm : CacheManager V) (clib key : String) :
    Except Panic (Option V × Bool) :=
  if cm.clibLock = false then .error .nilPointer
  else match cm.clibs.lookup clib with
    | none => .ok (none, false)
    | some tm => .ok (tm.GetTokenBody key)

/-- The method `CacheManager.Keys`: `make([]string, 0)` for an unknown library, otherwise the store's
`ListTokens()`. -/
def CacheManager.Keys {V : Type} (cm : CacheManager V) (clib : String) :
    Except Panic GoSlice :=
  if cm.clibLock = false then .error .nilPointer
  else match cm.clibs.lookup clib with
    | none => .ok (some [])
    | some tm => .ok tm.ListTokens

/-- The method `CacheManager.Clear`: calls the store's `Clear()` when the library is known, nothing
otherwise. -/
def CacheManager.Clear {V : Type} (cm : CacheManager V) (clib : String) :
    Except Panic (CacheManager V) :=
  if cm.clibLock = false then .error .nilPointer
  else match cm.clibs, cm.clibs.lookup clib with
    | some libs, some tm => .ok { cm with clibs := some (GoMap.store libs clib tm.Clear) }
    | _, _ => .ok cm

/-- A sweep tick of the store of one library (each store runs its own sweep); nothing
happens for a name without store. -/
def CacheManager.tick {V : Type} (cm : CacheManager V) (lib : String) (now : Int) :
    CacheManager V :=
  match cm.clibs, cm.clibs.lookup lib with
  | some libs, some tm => { cm with clibs := some (GoMap.store libs lib (tm.sweep now)) }
  | _, _ => cm

/-! ## Histories -/

/-- One event in the life of a manager: a public call, or a background sweep tick. -/
inductive Op (V : Type) where
  | init
  | regLib (lib : String) (second : Int)
  | set (lib key : String) (tb : Option V) (now : Int)
  | get (clib key : String)
  | keys (clib : String)
  | clear (clib : String)
  | tick (lib : String) (now : Int)

/-- State after one event; results of the call are dropped, a panic aborts. -/
def step {V : Type} (op : Op V) (cm : CacheManager V) : Except Panic (CacheManager V) :=
  match op with
  | .init => .ok cm.Init
  | .regLib lib second => (cm.RegLib lib second).map Prod.snd
  | .set lib key tb now => (cm.Set lib key tb now).map Prod.snd
  | .get clib key => (cm.Get clib key).map (fun _ => cm)
  | .keys clib => (cm.Keys clib).map (fun _ => cm)
  | .clear clib => cm.Clear clib
  | .tick lib now => .ok (cm.tick lib now)

/-- State after a sequence of events, oldest first. -/
def run {V : Type} : List (Op V) → CacheManager V → Except Panic (CacheManager V)
  | [], cm => .ok cm
  | op :: ops, cm =>
    match step op cm with
    | .ok cm' => run ops cm'
    | .error e => .error e

/-- An initialized manager: any state reached from `(&CacheManager{}).Init()` by public
calls and sweep ticks. -/
def Reachable {V : Type} (cm : CacheManager V) : Prop :=
  ∃ ops : List (Op V), run ops CacheManager.zero.Init = .ok cm

/-- The library has a store in the registry (`_, ok := cm.clibs[lib]`). -/
def Registered {V : Type} (cm : CacheManager V) (lib : String) : Prop :=
  (cm.clibs.lookup lib).isSome = true

/-- What one event does to the store of library `lib`, registered with TTL `ttl`: a Set on
`lib` is a `PutTokenBody` with `ttl`, a Clear on `lib` a `Clear`, a sweep tick of `lib` a
sweep; every other event leaves that store alone. -/
def storeStep {V : Type} (lib : String) (ttl : Int) (op : Op V) (tm : TokenManager V) :
    TokenManager V :=
  match op with
  | .set l key tb now => if l = lib then (tm.PutTokenBody key tb ttl now).2 else tm
  | .clear l => if l = lib then tm.Clear else tm
  | .tick l now => if l = lib then tm.sweep now else tm
  | _ => tm

/-- What a sequence of events, oldest first, does to the store of library `lib`. -/
def storeTrace {V : Type} (lib : String) (ttl : Int) :
    List (Op V) → TokenManager V → TokenManager V
  | [], tm => tm
  | op :: ops, tm => storeTrace lib ttl ops (storeStep lib ttl op tm)

/-- Registry consistency: the lock and both maps are allocated, both maps hold the same
names, and the empty name is in neither. -/
def Consistent {V : Type} (cm : CacheManager V) : Prop :=
  cm.clibLock = true ∧ ∃ libs exps, cm.clibs = some libs ∧ cm.libexp = some exps ∧
    (∀ k, (libs k).isSome = (exps k).isSome) ∧ libs "" = none

instance {V : Type} (cm : CacheManager V) (lib : String) : Decidable (Registered cm lib) :=
  inferInstanceAs (Decidable ((cm.clibs.lookup lib).isSome = true))

/-- The state a history leads to from a fresh manager, or the fresh manager if it panics. -/
def after {V : Type} (ops : List (Op V)) : CacheManager V :=
  match run ops CacheManager.zero.Init with
  | .ok cm => cm
  | .error _ => CacheManager.zero.Init

/-- Sample history: one library `sessions` with TTL 5. -/
def sessionsOps : List (Op String) := [.regLib "sessions" 5]

/-- Sample events after a registration of `sessions`: another library, a refused second
registration of `sessions`, and a Set in the other library. -/
def mixedOps : List (Op String) :=
  [.regLib "tmp" 9, .regLib "sessions" 77, .set "tmp" "k" (some "x") 3]

/-- Sample history: `sessions` with TTL 5 holding `u1`, set at clock reading 100. -/
def aliceOps : List (Op String) :=
  [.regLib "sessions" 5, .set "sessions" "u1" (some "Alice") 100]

/-- Sample state outside the reachable ones: `orphan` has a store but no TTL record. -/
def orphanCm : CacheManager String :=
  ⟨some (fun _ => none), some (GoMap.store (fun _ => none) "orphan" TokenManager.zero.Init),
    true⟩

/-- Sample history: libraries `a` (TTL 5) and `b` (TTL 9), `b` holding `k`. -/
def twoLibsOps : List (Op String) :=
  [.regLib "a" 5, .regLib "b" 9, .set "b" "k" (some "in b") 100]

/-! ## Token store: refresh, minted tokens, histories -/

/-- Modelled from the spec: whether an entry is already expired at `now` (missing
`tokentool.go`); the test of the sweep, `expiresAt` finite and `<= now`. -/
def Entry.expired {V : Type} (e : Entry V) (now : Int) : Bool :=
  match e.expiresAt with
  | none => false
  | some t => decide (t ≤ now)

/-- Modelled from the spec: re-arming of the entry of one key (missing `tokentool.go`): its
expiry is computed anew from its original TTL, as Put does; value and TTL stay. -/
def refreshEntry {V : Type} (k : String) (now : Int) :
    List (String × Entry V) → List (String × Entry V)
  | [] => []
  | (k', e) :: rest =>
    if k' = k then (k', { e with expiresAt := expiry e.ttl now }) :: rest
    else (k', e) :: refreshEntry k now rest

/-- Modelled from the spec: `TokenManager.RefreshToken` (missing `tokentool.go`), the
store's Refresh: re-arms a present entry and reports true; a no-op reporting false when
the key is absent or the entry already expired. -/
def TokenManager.RefreshToken {V : Type} (tm : TokenManager V) (token : String) (now : Int) :
    Bool × TokenManager V :=
  match findEntry token tm.tokens with
  | none => (false, tm)
  | some e =>
    if e.expired now then (false, tm)
    else (true, { tm with tokens := refreshEntry token now tm.tokens })

/-- Modelled from the spec: `TokenManager.Destroy` (missing `tokentool.go`): stops the
sweep and releases the mapping. -/
def TokenManager.Destroy {V : Type} (_tm : TokenManager V) : TokenManager V := ⟨[], false⟩

/-- Modelled from the spec: `TokenManager.AskToken(body, second)` (missing `tokentool.go`,
called by the tests), the generated-handle variant of Put: an identifier is minted, the
body is stored under it by Put, and the identifier is returned.  The identifier minted at
the call is the parameter `minted`; nothing is assumed of how it is generated. -/
def TokenManager.AskToken {V : Type} (tm : TokenManager V) (minted : String)
    (body : Option V) (second now : Int) : String × TokenManager V :=
  tm.PutTokenBody minted body second now

/-- One event in the life of a store between Init and Destroy: a call, or a sweep tick. -/
inductive TOp (V : Type) where
  | put (token : String) (body : Option V) (second now : Int)
  | get (token : String)
  | refresh (token : String) (now : Int)
  | list
  | clear
  | sweep (now : Int)

/-- Store after one event; results of the call are dropped. -/
def TokenManager.apply {V : Type} (tm : TokenManager V) : TOp V → TokenManager V
  | .put token body second now => (tm.PutTokenBody token body second now).2
  | .get _ => tm
  | .refresh token now => (tm.RefreshToken token now).2
  | .list => tm
  | .clear => tm.Clear
  | .sweep now => tm.sweep now

/-- Store after a sequence of events, oldest first. -/
def TokenManager.runOps {V : Type} : TokenManager V → List (TOp V) → TokenManager V
  | tm, [] => tm
  | tm, op :: ops => TokenManager.runOps (tm.apply op) ops

/-- The store has one entry per key. -/
def TokenManager.WF {V : Type} (tm : TokenManager V) : Prop :=
  (tm.tokens.map Prod.fst).Nodup

instance {V : Type} (tm : TokenManager V) : Decidable tm.WF :=
  inferInstanceAs (Decidable (tm.tokens.map Prod.fst).Nodup)

/-- The store events that the manager events addressed to library `lib` (registered with
TTL `ttl`) amount to. -/
def storeOps {V : Type} (lib : String) (ttl : Int) : List (Op V) → List (TOp V)
  | [] => []
  | .set l key tb now :: ops =>
    if l = lib then .put key tb ttl now :: storeOps lib ttl ops else storeOps lib ttl ops
  | .clear l :: ops =>
    if l = lib then .clear :: storeOps lib ttl ops else storeOps lib ttl ops
  | .tick l now :: ops =>
    if l = lib then .sweep now :: storeOps lib ttl ops else storeOps lib ttl ops
  | _ :: ops => storeOps lib ttl ops

/-- A schedule that keeps the entry of key `k` (original TTL `t`, current deadline `d`)
alive: every sweep tick comes before the deadline in force, every Refresh of `k` comes
before the deadline in force and moves it to `r + t`, and `k` is neither re-set nor
cleared. -/
def keepsAlive {V : Type} (k : String) (t : Int) : Int → List (TOp V) → Bool
  | _, [] => true
  | d, .sweep s :: ops => decide (s < d) && keepsAlive k t d ops
  | d, .refresh k' r :: ops =>
    if k' = k then decide (r < d) && keepsAlive k t (r + t) ops else keepsAlive k t d ops
  | d, .put k' _ _ _ :: ops => decide (k' ≠ k) && keepsAlive k t d ops
  | _, .clear :: _ => false
  | d, _ :: ops => keepsAlive k t d ops

/-- Tokens handed out by a run of AskToken calls (identifier minted, body, TTL, clock
reading), with the store after the run. -/
def askAll {V : Type} :
    TokenManager V → List (String × Option V × Int × Int) → List String × TokenManager V
  | tm, [] => ([], tm)
  | tm, (minted, body, second, now) :: rest =>
    let r := tm.AskToken minted body second now
    let rs := askAll r.2 rest
    (r.1 :: rs.1, rs.2)

/-- Store after a run of Put calls (key, body, TTL, clock reading). -/
def putAll {V : Type} :
    TokenManager V → List (String × Option V × Int × Int) → TokenManager V
  | tm, [] => tm
  | tm, (key, body, second, now) :: rest =>
    putAll (tm.PutTokenBody key body second now).2 rest

/-- Sample store: `k` put at clock reading 100 with TTL 5, so due at 105. -/
def dueStore : TokenManager String :=
  (TokenManager.zero.Init.PutTokenBody "k" (some "v") 5 100).2

/-- Sample store: `k` put with TTL 5 and `pin` put with TTL -1, both at clock reading 100. -/
def pinStore : TokenManager String :=
  ((TokenManager.zero.Init.PutTokenBody "k" (some "v") 5 100).2.PutTokenBody
    "pin" (some "w") (-1) 100).2

/-- Sample schedule for `k` (TTL 5, put at 100): swept at 103, refreshed at 104, swept at
108, refreshed at 108, swept at 112. -/
def refreshOps : List (TOp String) :=
  [.sweep 103, .refresh "k" 104, .sweep 108, .refresh "k" 108, .sweep 112, .get "k"]

/-- Sample events in `sessions` (TTL 5): `u1` set at 100, sweep tick at 104. -/
def aliveOps : List (Op String) :=
  [.set "sessions" "u1" (some "Alice") 100, .tick "sessions" 104]

/-- Sample events in `sessions` (TTL 5): `u1` set at 100, sweep ticks at 104 and 105. -/
def goneOps : List (Op String) :=
  [.set "sessions" "u1" (some "Alice") 100, .tick "sessions" 104, .tick "sessions" 105]

/-- Sample run of three Put calls with distinct keys. -/
def threePuts : List (String × Option String × Int × Int) :=
  [("a", some "x", -1, 0), ("b", some "y", 5, 0), ("c", none, -1, 1)]

/-- Sample run of three AskToken calls, the identifiers minted being `t1`, `t2`, `t3`. -/
def threeAsks : List (String × Option String × Int × Int) :=
  [("t1", some "x", -1, 0), ("t2", some "y", 5, 0), ("t3", none, -1, 1)]

/-- Sample events in `sessions` (TTL 5): `u1` set at 100, Clear of the library, then a
sweep tick at 102. -/
def clearedOps : List (Op String) :=
  [.set "sessions" "u1" (some "Alice") 100, .clear "sessions", .tick "sessions" 102]

end tokentool

namespace hstool

/-! ## URL router (`hstool/hstool_router.go`)

Modelling conventions

* A request is its `r.URL.Path`, the only part of it the router reads.
* Values of the func types `HandlersFunc` and `FilterFunc` are `Option H` and `Option F`
  for arbitrary types `H` and `F` of functions: `none` is the nil func, whose call panics.
  Handlers and filters are taken not to change the router while a request is served.
* The `regexp.MatchString(pattern, s)` of the Go library is a parameter `matchString`
  (its boolean result; an invalid pattern gives false).
* What a filter does with a request is a script of its own steps and of calls of its
  `next` argument, given by a parameter `behave`.
* Debug printing is left out.
-/

/-- The struct `ServiceRouter`. -/
structure ServiceRouter (H F : Type) where
  isDebug : Bool
  defaultHandler : Option H
  urlHandlersMap : tokentool.GoMap (Option H)
  regexpHandlersMap : tokentool.GoMap (Option H)
  regexpHandlersIndex : tokentool.GoSlice
  urlFiltersMap : tokentool.GoMap (Option F)
  regexpFiltersMap : tokentool.GoMap (Option F)
  regexpFiltersIndex : tokentool.GoSlice
  filterWhitelist : tokentool.GoMap String
  globalFileter : Option F

/-- The zero value `&ServiceRouter{}`. -/
def ServiceRouter.zero {H F : Type} : ServiceRouter H F :=
  ⟨false, none, none, none, none, none, none, none, none, none⟩

/-- The call `strings.Index(key, ":")` together with the slices `key[:i]` and `key[i+1:]`
around the first colon; `none` when the index is -1. -/
def splitColon : List Char → Option (List Char × List Char)
  | [] => none
  | c :: cs =>
    if c = ':' then some ([], cs)
    else match splitColon cs with
      | none => none
      | some (a, b) => some (c :: a, b)

/-- The test one index key goes through in the loops of `doHandle` and `doFilter`: it has
a colon, the text before it starts the path, and the pattern made of the texts before and
after the colon matches the path. -/
def keyMatches (matchString : String → String → Bool) (key path : String) : Bool :=
  match splitColon key.data with
  | none => false
  | some (baseURL, rest) =>
    if baseURL.isPrefixOf path.data then matchString (String.mk (baseURL ++ rest)) path
    else false

/-- The loop `for _, key := range index`: the first key that passes the test. -/
def firstMatch (matchString : String → String → Bool) (path : String) :
    List String → Option String
  | [] => none
  | key :: rest =>
    if keyMatches matchString key path then some key else firstMatch matchString path rest

/-- What `doHandle` does with a request: the call it makes (with the func value called,
nil included), or the 404 status. -/
inductive Dispatch (H : Type) where
  | urlHandler (h : Option H)
  | regexpHandler (key : String) (h : Option H)
  | defaultHandler (h : H)
  | notFound

/-- Whether the call made is the call of a nil func, which panics. -/
def Dispatch.panics {H : Type} : Dispatch H → Bool
  | .urlHandler none => true
  | .regexpHandler _ none => true
  | _ => false

/-- The method `ServiceRouter.doHandle`: exact table, then the regexp index in order, then
the default handler, then 404. -/
def ServiceRouter.doHandle {H F : Type} (matchString : String → String → Bool)
    (sr : ServiceRouter H F) (path : String) : Dispatch H :=
  match sr.urlHandlersMap.lookup path with
  | some h => .urlHandler h
  | none =>
    match firstMatch matchString path (sr.regexpHandlersIndex.getD []) with
    | some key => .regexpHandler key ((sr.regexpHandlersMap.lookup key).getD none)
    | none =>
      match sr.defaultHandler with
      | some h => .defaultHandler h
      | none => .notFound

/-- One step of a filter serving a request: something of its own, or a call of `next`. -/
inductive FilterAct where
  | work (note : String)
  | next
  deriving DecidableEq

/-- The filter `doFilter` hands the request to, with the func value called. -/
inductive Choice (F : Type) where
  | urlFilter (f : Option F)
  | regexpFilter (key : String) (f : Option F)
  | globalFilter (f : F)

/-- What is observed while a request is served. -/
inductive Event (H F : Type) where
  | filter (c : Choice F)
  | work (note : String)
  | handle (d : Dispatch H)
  | panic

/-- The event a filter step gives rise to when `doHandle` dispatches as `d`. -/
def toEvent {H F : Type} (d : Dispatch H) : FilterAct → Event H F
  | .work note => .work note
  | .next => .handle d

/-- The call `serviceRouter.doHandle(w, r)`: the dispatch, then a panic if it called a nil
func. -/
def handleEvents {H F : Type} (d : Dispatch H) : List (Event H F) :=
  if d.panics then [.handle d, .panic] else [.handle d]

/-- The run of a filter body: each `next` is a call of the closure
`func() { serviceRouter.doHandle(w, r) }`; a panic ends the run. -/
def runScript {H F : Type} (d : Dispatch H) : List FilterAct → List (Event H F)
  | [] => []
  | .work note :: rest => .work note :: runScript d rest
  | .next :: rest => if d.panics then [.handle d, .panic] else .handle d :: runScript d rest

/-- The call `h(w, r, func() { ... })` of the chosen filter. -/
def callFilter {H F : Type} (behave : F → String → List FilterAct) (d : Dispatch H)
    (path : String) (c : Choice F) (f : Option F) : List (Event H F) :=
  .filter c :: (match f with
    | none => [.panic]
    | some g => runScript d (behave g path))

/-- The method `ServiceRouter.doFilter`: exact filter table, then the regexp filter index in
order, then the global filter, then `doHandle` directly. -/
def ServiceRouter.doFilter {H F : Type} (matchString : String → String → Bool)
    (behave : F → String → List FilterAct) (sr : ServiceRouter H F) (path : String) :
    List (Event H F) :=
  match sr.urlFiltersMap.lookup path with
  | some f => callFilter behave (sr.doHandle matchString path) path (.urlFilter f) f
  | none =>
    match firstMatch matchString path (sr.regexpFiltersIndex.getD []) with
    | some key =>
      callFilter behave (sr.doHandle matchString path) path
        (.regexpFilter key ((sr.regexpFiltersMap.lookup key).getD none))
        ((sr.regexpFiltersMap.lookup key).getD none)
    | none =>
      match sr.globalFileter with
      | some f => callFilter behave (sr.doHandle matchString path) path (.globalFilter f) (some f)
      | none => handleEvents (sr.doHandle matchString path)

/-- The method `ServiceRouter.ServeHTTP`: filtering before handling. -/
def ServiceRouter.ServeHTTP {H F : Type} (matchString : String → String → Bool)
    (behave : F → String → List FilterAct) (sr : ServiceRouter H F) (path : String) :
    List (Event H F) :=
  sr.doFilter matchString behave path

/-- The method `ServiceRouter.SetDefaultHandler`. -/
def ServiceRouter.SetDefaultHandler {H F : Type} (sr : ServiceRouter H F)
    (defaultHandler : Option H) : ServiceRouter H F :=
  { sr with defaultHandler := defaultHandler }

/-- The method `ServiceRouter.SetGlobalFilter`. -/
def ServiceRouter.SetGlobalFilter {H F : Type} (sr : ServiceRouter H F)
    (globalFilter : Option F) : ServiceRouter H F :=
  { sr with globalFileter := globalFilter }

/-- The method `ServiceRouter.AddHandler`: nothing for the empty url; allocates the tables
when nil; a url with a colon goes to the regexp table and to the end of the index, any
other url to the exact table. -/
def ServiceRouter.AddHandler {H F : Type} (sr : ServiceRouter H F) (url : String)
    (handler : Option H) : ServiceRouter H F :=
  if url.length = 0 then sr
  else
    let sr1 : ServiceRouter H F :=
      if sr.regexpHandlersMap.isNone then
        { sr with regexpHandlersMap := some (fun _ => none), regexpHandlersIndex := some [] }
      else sr
    let sr2 : ServiceRouter H F :=
      if sr1.urlHandlersMap.isNone then { sr1 with urlHandlersMap := some (fun _ => none) }
      else sr1
    if (splitColon url.data).isSome then
      { sr2 with
        regexpHandlersMap :=
          some (tokentool.GoMap.store (sr2.regexpHandlersMap.getD (fun _ => none)) url handler),
        regexpHandlersIndex := some (sr2.regexpHandlersIndex.getD [] ++ [url]) }
    else
      { sr2 with
        urlHandlersMap :=
          some (tokentool.GoMap.store (sr2.urlHandlersMap.getD (fun _ => none)) url handler) }

/-- The method `ServiceRouter.AddURLFilter`: nothing for the empty url; allocates the
filter tables when nil; a url with a colon goes to the regexp filter table and to the end
of the filter index, any other url to the exact filter table. -/
def ServiceRouter.AddURLFilter {H F : Type} (sr : ServiceRouter H F) (url : String)
    (filter : Option F) : ServiceRouter H F :=
  if url.length = 0 then sr
  else
    let sr1 : ServiceRouter H F :=
      if sr.urlFiltersMap.isNone then { sr with urlFiltersMap := some (fun _ => none) }
      else sr
    let sr2 : ServiceRouter H F :=
      if sr1.regexpFiltersMap.isNone then { sr1 with regexpFiltersMap := some (fun _ => none) }
      else sr1
    let sr3 : ServiceRouter H F :=
      if sr2.regexpFiltersIndex.isNone then { sr2 with regexpFiltersIndex := some [] }
      else sr2
    if (splitColon url.data).isSome then
      { sr3 with
        regexpFiltersMap :=
          some (tokentool.GoMap.store (sr3.regexpFiltersMap.getD (fun _ => none)) url filter),
        regexpFiltersIndex := some (sr3.regexpFiltersIndex.getD [] ++ [url]) }
    else
      { sr3 with
        urlFiltersMap :=
          some (tokentool.GoMap.store (sr3.urlFiltersMap.getD (fun _ => none)) url filter) }

/-- From the words of the priority rule: the key contains a colon, its text before the
(first) colon is a prefix of the path, and the pattern made of the text before the colon
followed by the text after it matches the path. -/
def RouteMatches (matchString : String → String → Bool) (key p : String) : Prop :=
  ∃ base rest : List Char, key.data = base ++ ':' :: rest ∧ ':' ∉ base ∧
    base <+: p.data ∧ matchString (String.mk (base ++ rest)) p = true

/-- Sample matcher standing in for `regexp.MatchString`: the pattern, read literally,
starts the text. -/
def literalMatch (pattern s : String) : Bool := pattern.data.isPrefixOf s.data

/-- Sample filters: `auth` checks and goes on, `deny` answers itself, `twice` calls `next`
two times. -/
def sampleBehave (f : String) (_path : String) : List FilterAct :=
  if f = "auth" then [.work "check", .next]
  else if f = "deny" then [.work "403"]
  else if f = "twice" then [.next, .work "between", .next]
  else []

/-- Sample router: exact route `/home`, regexp routes `/api/:v` and `/api/:v2` in that
order, no default handler, no filter. -/
def plainRouter : ServiceRouter String String :=
  ((ServiceRouter.zero.AddHandler "/home" (some "home")).AddHandler "/api/:v"
    (some "api")).AddHandler "/api/:v2" (some "api2")

/-- Sample router: `plainRouter` with a default handler, an exact filter on `/home`, a
regexp filter on `/api/:v2` and a global filter. -/
def guardedRouter : ServiceRouter String String :=
  (((plainRouter.SetDefaultHandler (some "static")).AddURLFilter "/home"
    (some "auth")).AddURLFilter "/api/:v2" (some "deny")).SetGlobalFilter (some "twice")

end hstool

namespace hstool

/-! ## Removal of routes and filters (`hstool/hstool_router.go`) -/

/-- Run-time panic of a slice expression `s[low:]` whose `low` exceeds `len(s)`. -/
inductive RouterPanic where
  | sliceBounds
  deriving DecidableEq, Repr

/-- The `i` at which the loop `for i, key := range index` first finds `key == url`. -/
def indexOfKey (url : String) : List String → Option Nat
  | [] => none
  | key :: rest => if key = url then some 0 else (indexOfKey url rest).map (fun i => i + 1)

/-- The statement `index = append(index[:i], index[i+i:]...)` of the two index-removal
methods: the slice expression `index[i+i:]` panics when `i+i` exceeds the length. -/
def spliceIndex (i : Nat) (index : List String) : Except RouterPanic (List String) :=
  if i + i ≤ index.length then .ok (index.take i ++ index.drop (i + i))
  else .error .sliceBounds

/-- The method `ServiceRouter.removeHandlerIndex`. -/
def ServiceRouter.removeHandlerIndex {H F : Type} (sr : ServiceRouter H F) (url : String) :
    Except RouterPanic (ServiceRouter H F) :=
  if url.length > 0 then
    match indexOfKey url (sr.regexpHandlersIndex.getD []) with
    | none => .ok sr
    | some i =>
      match spliceIndex i (sr.regexpHandlersIndex.getD []) with
      | .ok index => .ok { sr with regexpHandlersIndex := some index }
      | .error e => .error e
  else .ok sr

/-- The method `ServiceRouter.RemoveHandler`. -/
def ServiceRouter.RemoveHandler {H F : Type} (sr : ServiceRouter H F) (url : String) :
    Except RouterPanic (ServiceRouter H F) :=
  if url.length = 0 then .ok sr
  else
    let regexpDone : Except RouterPanic (ServiceRouter H F) :=
      if sr.regexpHandlersMap.isSome then
        match sr.regexpHandlersMap.lookup url with
        | some _ =>
          ({ sr with regexpHandlersMap := sr.regexpHandlersMap.delete url } :
            ServiceRouter H F).removeHandlerIndex url
        | none => .ok sr
      else .ok sr
    match regexpDone with
    | .error e => .error e
    | .ok sr1 =>
      if sr1.urlHandlersMap.isSome then
        match sr1.urlHandlersMap.lookup url with
        | some _ => .ok { sr1 with urlHandlersMap := sr1.urlHandlersMap.delete url }
        | none => .ok sr1
      else .ok sr1

/-- The method `ServiceRouter.removeFilterIndex`. -/
def ServiceRouter.removeFilterIndex {H F : Type} (sr : ServiceRouter H F) (url : String) :
    Except RouterPanic (ServiceRouter H F) :=
  if url.length > 0 then
    match indexOfKey url (sr.regexpFiltersIndex.getD []) with
    | none => .ok sr
    | some i =>
      match spliceIndex i (sr.regexpFiltersIndex.getD []) with
      | .ok index => .ok { sr with regexpFiltersIndex := some index }
      | .error e => .error e
  else .ok sr

/-- The method `ServiceRouter.RemoveFilter`; the nil test before the regexp part is on
`regexpHandlersMap`, as in the source. -/
def ServiceRouter.RemoveFilter {H F : Type} (sr : ServiceRouter H F) (url : String) :
    Except RouterPanic (ServiceRouter H F) :=
  if url.length = 0 then .ok sr
  else
    let regexpDone : Except RouterPanic (ServiceRouter H F) :=
      if sr.regexpHandlersMap.isSome then
        match sr.regexpFiltersMap.lookup url with
        | some _ =>
          ({ sr with regexpFiltersMap := sr.regexpFiltersMap.delete url } :
            ServiceRouter H F).removeFilterIndex url
        | none => .ok sr
      else .ok sr
    match regexpDone with
    | .error e => .error e
    | .ok sr1 =>
      if sr1.urlFiltersMap.isSome then
        match sr1.urlFiltersMap.lookup url with
        | some _ => .ok { sr1 with urlFiltersMap := sr1.urlFiltersMap.delete url }
        | none => .ok sr1
      else .ok sr1

/-- Sample router: one regexp route `/a/:x`. -/
def oneRoute : ServiceRouter String String :=
  ServiceRouter.zero.AddHandler "/a/:x" (some "a")

/-- Sample router: regexp routes `/a/:x`, `/b/:x`, `/c/:x` in that order. -/
def threeRoutes : ServiceRouter String String :=
  (oneRoute.AddHandler "/b/:x" (some "b")).AddHandler "/c/:x" (some "c")

/-- Sample router: regexp routes `/a/:x`, `/b/:x`, `/c/:x`, `/d/:x` in that order. -/
def fourRoutes : ServiceRouter String String :=
  threeRoutes.AddHandler "/d/:x" (some "d")

/-- Sample router: no handler ever added, one regexp filter `/a/:x`. -/
def filterOnly : ServiceRouter String String :=
  ServiceRouter.zero.AddURLFilter "/a/:x" (some "auth")

end hstool

namespace conftool

/-! ## JSON configuration (`conftool/jsonconfig.go`)

The value tree that `json.Unmarshal` builds in a `map[string]interface{}`: `null` is the
nil interface, an `object` a `map[string]interface{}` (an association list with one pair
per key, read and written like the Go map).  Maps are reference values: the variable
`temp` of the two loops is modelled by the path of keys that leads from the root map to
the map it points to.  The file write of `writeFileAsJSON` is outside the model; its error
result is a parameter.
-/

/-- A value of type `interface{}` produced by `json.Unmarshal`, or stored by `SetConfig`. -/
inductive JSON where
  | null
  | bool (b : Bool)
  | number (text : String)
  | string (s : String)
  | array (items : List JSON)
  | object (members : List (String × JSON))

/-- Run-time panics of the configuration code. -/
inductive CfgPanic where
  | nilPointer
  | nilMapWrite
  | typeAssertion
  deriving DecidableEq, Repr

/-- Comma-ok read `tp, ok := m[k]`. -/
def mapGet (m : List (String × JSON)) (k : String) : Option JSON :=
  match m with
  | [] => none
  | (k', v) :: rest => if k' = k then some v else mapGet rest k

/-- Assignment `m[k] = v`. -/
def mapSet (m : List (String × JSON)) (k : String) (v : JSON) : List (String × JSON) :=
  match m with
  | [] => [(k, v)]
  | (k', v') :: rest => if k' = k then (k, v) :: rest else (k', v') :: mapSet rest k v

/-- The map found by following a path of keys from the root map. -/
def mapAt (root : List (String × JSON)) : List String → Option (List (String × JSON))
  | [] => some root
  | k :: ks =>
    match mapGet root k with
    | some (.object m) => mapAt m ks
    | _ => none

/-- In-place change of the map found by following a path of keys from the root map. -/
def updateAt (root : List (String × JSON)) :
    List String → (List (String × JSON) → List (String × JSON)) → List (String × JSON)
  | [], f => f root
  | k :: ks, f =>
    match mapGet root k with
    | some (.object m) => mapSet root k (.object (updateAt m ks f))
    | _ => root

/-- The variable `temp` of the loops: nil, a map (given by its path from the root), or a
value that is not a map. -/
inductive Temp where
  | nil
  | map (path : List String)
  | other (v : JSON)

/-- The value `tp` read under key `k` from the map at `path`, as a value of `temp`. -/
def asTemp (path : List String) (k : String) : JSON → Temp
  | .null => .nil
  | .object _ => .map (path ++ [k])
  | v => .other v

/-- The call `strings.Split(key, ".")`, on the characters of the key. -/
def splitDots : List Char → List (List Char)
  | [] => [[]]
  | c :: cs =>
    if c = '.' then [] :: splitDots cs
    else match splitDots cs with
      | [] => [[c]]
      | seg :: rest => (c :: seg) :: rest

/-- The struct `JSONCFG`; `l` records whether the lock is allocated. -/
structure JSONCFG where
  jsonObject : Option (List (String × JSON))
  configPath : String
  l : Bool

/-- The loop of `SetConfig` from index `i` on (`first` is `i == 0`), on the root map. -/
def setLoop (value : String) :
    Bool → Temp → List String → List (String × JSON) → Except CfgPanic (List (String × JSON))
  | _, _, [], root => .ok root
  | first, temp, [k], root =>
    if first then .ok (mapSet root k (.string value))
    else match temp with
      | .nil => .ok root
      | .map path => .ok (updateAt root path (fun m => mapSet m k (.string value)))
      | .other _ => .error .typeAssertion
  | _, temp, k :: k2 :: ks, root =>
    match temp with
    | .nil =>
      match mapGet root k with
      | some tp =>
        (match asTemp [] k tp with
          | .nil => setLoop value false temp (k2 :: ks) root
          | t => setLoop value false t (k2 :: ks) root)
      | none => setLoop value false (.map [k]) (k2 :: ks) (mapSet root k (.object []))
    | .map path =>
      match mapAt root path with
      | none => .error .typeAssertion
      | some m =>
        match mapGet m k with
        | some tp =>
          (match asTemp path k tp with
            | .nil => setLoop value false temp (k2 :: ks) root
            | t => setLoop value false t (k2 :: ks) root)
        | none =>
          setLoop value false (.map (path ++ [k])) (k2 :: ks)
            (updateAt root path (fun m2 => mapSet m2 k (.object [])))
    | .other _ => .error .typeAssertion

/-- The method `JSONCFG.SetConfig`; `writeErr` is what `writeFileAsJSON` returns. -/
def JSONCFG.SetConfig (writeErr : Option String) (cfg : JSONCFG) (key value : String) :
    Except CfgPanic (Option String × JSONCFG) :=
  if key.length = 0 ∨ value.length = 0 then .ok (some "key or value is empty", cfg)
  else if cfg.l = false then .error .nilPointer
  else match cfg.jsonObject with
    | none => .error .nilMapWrite
    | some root =>
      match setLoop value true .nil ((splitDots key.data).map String.mk) root with
      | .ok root2 => .ok (writeErr, { cfg with jsonObject := some root2 })
      | .error e => .error e

/-- The loop of `GetConfig` from index `i` on (`first` is `i == 0`); the result is the `O`
of the Object returned, `null` for the zero Object. -/
def getLoop : Bool → Temp → List String → List (String × JSON) → Except CfgPanic JSON
  | _, _, [], _ => .ok .null
  | first, temp, [k], root =>
    if first then .ok ((mapGet root k).getD .null)
    else match temp with
      | .nil => .ok .null
      | .map path =>
        (match mapAt root path with
          | none => .error .typeAssertion
          | some m => .ok ((mapGet m k).getD .null))
      | .other _ => .error .typeAssertion
  | _, temp, k :: k2 :: ks, root =>
    match temp with
    | .nil =>
      (match mapGet root k with
        | some tp =>
          (match asTemp [] k tp with
            | .nil => .ok .null
            | t => getLoop false t (k2 :: ks) root)
        | none => .ok .null)
    | .map path =>
      (match mapAt root path with
        | none => .error .typeAssertion
        | some m =>
          match mapGet m k with
          | some tp =>
            (match asTemp path k tp with
              | .nil => .ok .null
              | t => getLoop false t (k2 :: ks) root)
          | none => .ok .null)
    | .other _ => .error .typeAssertion

/-- The method `JSONCFG.GetConfig`. -/
def JSONCFG.GetConfig (cfg : JSONCFG) (key : String) : Except CfgPanic JSON :=
  if cfg.l = false then .error .nilPointer
  else match cfg.jsonObject with
    | none => .ok .null
    | some root =>
      if key.length = 0 ∨ root.length = 0 then .ok .null
      else getLoop true .nil ((splitDots key.data).map String.mk) root

/-- The method `Object.ToString` of `types/object.go`, on the `O` of the Object. -/
def ToString (o : JSON) (d : String) : String :=
  match o with
  | .string s => s
  | _ => d

/-- The method `jsonrecorder.GetValue` of `mloader_demo.go`. -/
def GetValue (cfg : JSONCFG) (key : String) : Except CfgPanic String :=
  (cfg.GetConfig key).map (fun o => ToString o "")

/-- The method `jsonrecorder.SetValue` of `mloader_demo.go`. -/
def SetValue (writeErr : Option String) (cfg : JSONCFG) (key value : String) :
    Except CfgPanic (Option String × JSONCFG) :=
  cfg.SetConfig writeErr key value

/-- Sample configuration: the file content `{"a": null}`. -/
def nullCfg : JSONCFG := ⟨some [("a", .null)], "conf.json", true⟩

/-- Sample configuration: the file content `{"a": {"b": null}}`. -/
def deepNullCfg : JSONCFG := ⟨some [("a", .object [("b", .null)])], "conf.json", true⟩

/-- Sample configuration: the file content `{"m": {"SetupVer": "1.00"}}`. -/
def plainCfg : JSONCFG := ⟨some [("m", .object [("SetupVer", .string "1.00")])], "conf.json", true⟩

/-- The state after `SetConfig` when it returns, the given state when it panics. -/
def afterSet (cfg : JSONCFG) (key value : String) : JSONCFG :=
  match cfg.SetConfig none key value with
  | .ok r => r.2
  | .error _ => cfg

end conftool

namespace hctool

/-! ## URL building (`hctool/hctool.go`) -/

/-- The loop of `BuildURLWithArray` from index `i` on; `lenP` is `len(params)`. -/
def buildLoop (lenP : Nat) : Nat → List (List String) → String → String
  | _, [], result => result
  | i, p :: rest, result =>
    match p with
    | key :: val :: _ =>
      buildLoop lenP (i + 1) rest
        (if i < lenP - 1 then result ++ (key ++ "=" ++ val) ++ "&"
          else result ++ (key ++ "=" ++ val))
    | _ => buildLoop lenP (i + 1) rest result

/-- The function `BuildURLWithArray`; `none` is the nil slice. -/
def BuildURLWithArray (url : String) (params : Option (List (List String))) : String :=
  match params with
  | none => url
  | some ps => if ps.length > 0 then buildLoop ps.length 0 ps (url ++ "?") else url

end hctool

namespace strtool

/-! ## Path helpers (`strtool/strtool.go`)

Strings are handled by characters; the two separators are one-byte characters, so cutting
at their byte index is cutting at their character position.
-/

/-- Run-time panic of the slice expression `path[:-1]`. -/
inductive StrPanic where
  | sliceBounds
  deriving DecidableEq, Repr

/-- The call `strings.LastIndex(path, sep)` for a one-character separator; `none` is -1. -/
def lastIndexOf (c : Char) : List Char → Option Nat
  | [] => none
  | x :: xs =>
    match lastIndexOf c xs with
    | some i => some (i + 1)
    | none => if x = c then some 0 else none

/-- The function `GetPathParent`. -/
def GetPathParent (path : String) : Except StrPanic String :=
  if '\\' ∈ path.data then
    match lastIndexOf '\\' path.data with
    | some i => .ok (String.mk (path.data.take i))
    | none => .error .sliceBounds
  else
    match lastIndexOf '/' path.data with
    | some i => .ok (String.mk (path.data.take i))
    | none => .error .sliceBounds

/-- The call `binary.BigEndian.PutUint64` (`n = 8`) or `PutUint32` (`n = 4`) after the
conversion to the unsigned type: the `n` bytes of `v` modulo `256^n`, most significant
first. -/
def bigEndian : Nat → Nat → List Nat
  | 0, _ => []
  | n + 1, v => (v / 256 ^ n) % 256 :: bigEndian n v

/-- One digit of `hex.EncodeToString`. -/
def hexDigit (d : Nat) : Char := "0123456789abcdef".data.getD d '0'

/-- The call `hex.EncodeToString` on a list of bytes. -/
def encodeHex : List Nat → List Char
  | [] => []
  | b :: bs => hexDigit (b / 16 % 16) :: hexDigit (b % 16) :: encodeHex bs

/-- The function `GetUUID` of `strtool/uuidtool.go`: `machine` is the number whose four
big-endian bytes are `machineByte[0:4]`, `nano` the reading `time.Now().UnixNano()` and
`rnd` the draw `rand.Int31()`. -/
def GetUUID (machine nano rnd : Nat) : String :=
  let id := encodeHex (bigEndian 4 machine ++ bigEndian 8 nano ++ bigEndian 4 rnd)
  String.mk (id.take 8 ++ '-' :: (id.drop 8).take 4 ++ '-' :: (id.drop 12).take 4 ++
    '-' :: (id.drop 16).take 4 ++ '-' :: id.drop 20)

/-- The function `GetPathName`. -/
def GetPathName (path : String) : String :=
  if '\\' ∈ path.data then
    match lastIndexOf '\\' path.data with
    | some i => String.mk (path.data.drop (i + 1))
    | none => path
  else
    match lastIndexOf '/' path.data with
    | some i => String.mk (path.data.drop (i + 1))
    | none => path

end strtool

namespace mloader

/-! ## Module loader (`mloader/mloader.go`)

Modelling conventions

* A module version is a value of an arbitrary type `Ver` (a `float64` in the source); the
  two `strconv` calls made on it are parameters: `formatFloat` is
  `strconv.FormatFloat(v, 'f', 2, 64)` and `parseFloat` is `strconv.ParseFloat(s, 64)`,
  `none` when it returns an error.
* The recorder (`mrecorder`) is any state type with `GetValue` and `SetValue`; the error
  that `SetValue` returns is dropped by the loader and left out.
* A callback field of `Opts` records whether the func is non-nil; calling it is an event
  of the trace that `Load` returns.  Callbacks are taken not to touch the recorder.
* The clock text written under `SetupDate` is a parameter of each call.
* The loader fields that `Load` and `GetModuleByName` do not use are left out, and a
  module (a `Template`) is identified with the `Opts` it returns.
-/

/-- The struct `Opts`. -/
structure Opts (Ver : Type) where
  Name : String
  Version : Ver
  Description : String
  OnReady : Bool
  OnSetup : Bool
  OnUpdate : Bool
  OnInit : Bool

/-- A call of one of the callbacks of a module. -/
inductive Call (Ver : Type) where
  | OnReady
  | OnSetup
  | OnUpdate (cv : Ver)
  | OnInit

/-- What the loader uses from outside: the recorder and the two `strconv` calls. -/
structure Deps (Ver σ : Type) where
  GetValue : σ → String → String
  SetValue : σ → String → String → σ
  formatFloat : Ver → String
  parseFloat : String → Option Ver

/-- The struct `Loader`: the module table and the recorder. -/
structure Loader (Ver σ : Type) where
  modules : String → Option (Opts Ver)
  mrecord : σ

/-- The `panic(err)` of `doCheckVersion`. -/
inductive LoadPanic where
  | parseError
  deriving DecidableEq, Repr

/-- The method `Loader.getInstalledVersion`. -/
def Loader.getInstalledVersion {Ver σ : Type} (deps : Deps Ver σ) (ld : Loader Ver σ)
    (opts : Opts Ver) : String :=
  deps.GetValue ld.mrecord (opts.Name ++ ".SetupVer")

/-- The method `Loader.setVersion`; `stamp` is the clock text. -/
def Loader.setVersion {Ver σ : Type} (deps : Deps Ver σ) (ld : Loader Ver σ)
    (opts : Opts Ver) (stamp : String) : Loader Ver σ :=
  { ld with mrecord := (deps.SetValue
      (deps.SetValue ld.mrecord (opts.Name ++ ".SetupVer") (deps.formatFloat opts.Version))
      (opts.Name ++ ".SetupDate") stamp) }

/-- The method `Loader.doReady`. -/
def Loader.doReady {Ver : Type} (opts : Opts Ver) : List (Call Ver) :=
  if opts.OnReady then [.OnReady] else []

/-- The method `Loader.doSetup`. -/
def Loader.doSetup {Ver σ : Type} (deps : Deps Ver σ) (ld : Loader Ver σ) (opts : Opts Ver)
    (stamp : String) : List (Call Ver) × Loader Ver σ :=
  if (ld.getInstalledVersion deps opts).length = 0 then
    ((if opts.OnSetup then [.OnSetup] else []), ld.setVersion deps opts stamp)
  else ([], ld)

/-- The method `Loader.doCheckVersion`. -/
def Loader.doCheckVersion {Ver σ : Type} (deps : Deps Ver σ) (ld : Loader Ver σ)
    (opts : Opts Ver) (stamp : String) : Except LoadPanic (List (Call Ver) × Loader Ver σ) :=
  if ld.getInstalledVersion deps opts ≠ deps.formatFloat opts.Version then
    if opts.OnUpdate then
      match deps.parseFloat (ld.getInstalledVersion deps opts) with
      | none => .error .parseError
      | some hv => .ok ([.OnUpdate hv], ld.setVersion deps opts stamp)
    else .ok ([], ld.setVersion deps opts stamp)
  else .ok ([], ld)

/-- The method `Loader.doInit`. -/
def Loader.doInit {Ver : Type} (opts : Opts Ver) : List (Call Ver) :=
  if opts.OnInit then [.OnInit] else []

/-- The method `Loader.doEnd`. -/
def Loader.doEnd {Ver σ : Type} (ld : Loader Ver σ) (opts : Opts Ver) (mt : Opts Ver) :
    Loader Ver σ :=
  { ld with modules := fun name => if name = opts.Name then some mt else ld.modules name }

/-- The method `Loader.Load`: the callbacks called, in order, and the loader afterwards;
`stamp1` and `stamp2` are the clock texts of the two places that may record the version. -/
def Loader.Load {Ver σ : Type} (deps : Deps Ver σ) (ld : Loader Ver σ) (mt : Opts Ver)
    (stamp1 stamp2 : String) : Except LoadPanic (List (Call Ver) × Loader Ver σ) :=
  match (ld.doSetup deps mt stamp1).2.doCheckVersion deps mt stamp2 with
  | .error e => .error e
  | .ok r =>
    .ok (Loader.doReady mt ++ (ld.doSetup deps mt stamp1).1 ++ r.1 ++ Loader.doInit mt,
      r.2.doEnd mt mt)

/-- The method `Loader.GetModuleByName`. -/
def Loader.GetModuleByName {Ver σ : Type} (ld : Loader Ver σ) (name : String) :
    Option (Opts Ver) × Bool :=
  (ld.modules name, (ld.modules name).isSome)

/-- A recorder that returns for each key the value last stored by `SetValue`. -/
def Faithful {Ver σ : Type} (deps : Deps Ver σ) : Prop :=
  (∀ s k v, deps.GetValue (deps.SetValue s k v) k = v) ∧
  (∀ s k k2 v, k2 ≠ k → deps.GetValue (deps.SetValue s k v) k2 = deps.GetValue s k2)

/-- Sample dependencies: the recorder is the table of the values last stored, versions are
counted in hundredths and only `1.00` and `2.00` are printed and read exactly. -/
def tableDeps : Deps Nat (String → String) where
  GetValue := fun s k => s k
  SetValue := fun s k v => fun x => if x = k then v else s x
  formatFloat := fun v => if v = 100 then "1.00" else if v = 200 then "2.00" else "0.00"
  parseFloat := fun s =>
    if s = "1.00" then some 100 else if s = "2.00" then some 200 else none

/-- Sample module `m` in version 1.00 with all four callbacks. -/
def moduleV1 : Opts Nat := ⟨"m", 100, "demo", true, true, true, true⟩

/-- Sample module `m` in version 2.00 with all four callbacks. -/
def moduleV2 : Opts Nat := ⟨"m", 200, "demo", true, true, true, true⟩

/-- Sample loader: no module loaded, nothing recorded. -/
def emptyLoader : Loader Nat (String → String) := ⟨fun _ => none, fun _ => ""⟩

/-- The loader after `Load` when it returns, the given loader when it panics. -/
def afterLoad (ld : Loader Nat (String → String)) (mt : Opts Nat) (stamp : String) :
    Loader Nat (String → String) :=
  match ld.Load tableDeps mt stamp stamp with
  | .ok r => r.2
  | .error _ => ld

end mloader

namespace tokentool

/-! ## Auxiliary facts -/

theorem length_eq_zero_iff (s : String) : s.length = 0 ↔ s = "" := by
  constructor
  · intro h
    cases s with
    | mk d =>
      cases d with
      | nil => rfl
      | cons c cs => exact absurd h (by simp [String.length])
  · rintro rfl; rfl

theorem consistent_init {V : Type} : Consistent (CacheManager.zero.Init : CacheManager V) :=
  ⟨rfl, fun _ => none, fun _ => none, rfl, rfl, fun _ => rfl, rfl⟩

/-- RegLib on a manager whose maps and lock are allocated. -/
theorem RegLib_alloc {V : Type} (exps : String → Option Int)
    (libs : String → Option (TokenManager V)) (lib : String) (second : Int) :
    CacheManager.RegLib ⟨some exps, some libs, true⟩ lib second =
      if lib = "" then .ok (some "lib is empty", ⟨some exps, some libs, true⟩)
      else match libs lib with
        | some _ => .ok (some "lib is exist", ⟨some exps, some libs, true⟩)
        | none => .ok (none, ⟨some (GoMap.store exps lib second),
            some (GoMap.store libs lib TokenManager.zero.Init), true⟩) := by
  by_cases h1 : lib = ""
  · simp [CacheManager.RegLib, h1]
  · cases h2 : libs lib <;>
      simp [CacheManager.RegLib, GoMap.lookup, length_eq_zero_iff, h1, h2]

/-- Set on a manager whose maps and lock are allocated. -/
theorem Set_alloc {V : Type} (exps : String → Option Int)
    (libs : String → Option (TokenManager V)) (lib key : String) (tb : Option V) (now : Int) :
    CacheManager.Set ⟨some exps, some libs, true⟩ lib key tb now =
      if lib = "" then .ok (some "lib is empty", ⟨some exps, some libs, true⟩)
      else match libs lib with
        | none => .ok (some "lib not exist", ⟨some exps, some libs, true⟩)
        | some tm =>
          match exps lib with
          | none => .ok (some "lib not exist",
              ⟨some exps, some (fun x => if x = lib then none else libs x), true⟩)
          | some lx => .ok (none, ⟨some exps,
              some (GoMap.store libs lib (tm.PutTokenBody key tb lx now).2), true⟩) := by
  by_cases h1 : lib = ""
  · simp [CacheManager.Set, h1]
  · cases h2 : libs lib with
    | none => simp [CacheManager.Set, GoMap.lookup, length_eq_zero_iff, h1, h2]
    | some tm =>
      cases h3 : exps lib <;>
        simp [CacheManager.Set, GoMap.lookup, GoMap.delete, length_eq_zero_iff, h1, h2, h3]

/-- Get on a manager whose maps and lock are allocated. -/
theorem Get_alloc {V : Type} (exps : String → Option Int)
    (libs : String → Option (TokenManager V)) (clib key : String) :
    CacheManager.Get ⟨some exps, some libs, true⟩ clib key =
      match libs clib with
      | none => .ok (none, false)
      | some tm => .ok (tm.GetTokenBody key) := by
  simp [CacheManager.Get, GoMap.lookup]

/-- Keys on a manager whose maps and lock are allocated. -/
theorem Keys_alloc {V : Type} (exps : String → Option Int)
    (libs : String → Option (TokenManager V)) (clib : String) :
    CacheManager.Keys ⟨some exps, some libs, true⟩ clib =
      match libs clib with
      | none => .ok (some [])
      | some tm => .ok tm.ListTokens := by
  simp [CacheManager.Keys, GoMap.lookup]

/-- Clear on a manager whose maps and lock are allocated. -/
theorem Clear_alloc {V : Type} (exps : String → Option Int)
    (libs : String → Option (TokenManager V)) (clib : String) :
    CacheManager.Clear ⟨some exps, some libs, true⟩ clib =
      match libs clib with
      | none => .ok ⟨some exps, some libs, true⟩
      | some tm => .ok ⟨some exps, some (GoMap.store libs clib tm.Clear), true⟩ := by
  simp only [CacheManager.Clear, GoMap.lookup]
  cases libs clib <;> simp

/-- A sweep tick on a manager whose maps and lock are allocated. -/
theorem tick_alloc {V : Type} (exps : String → Option Int)
    (libs : String → Option (TokenManager V)) (lib : String) (now : Int) :
    CacheManager.tick ⟨some exps, some libs, true⟩ lib now =
      match libs lib with
      | none => ⟨some exps, some libs, true⟩
      | some tm => ⟨some exps, some (GoMap.store libs lib (tm.sweep now)), true⟩ := by
  simp only [CacheManager.tick, GoMap.lookup]
  cases libs lib <;> simp

/-- A consistent manager is an allocated one with matching maps. -/
theorem Consistent.alloc {V : Type} {cm : CacheManager V} (h : Consistent cm) :
    ∃ exps libs, cm = ⟨some exps, some libs, true⟩ ∧
      (∀ k, (libs k).isSome = (exps k).isSome) ∧ libs "" = none := by
  obtain ⟨hl, libs, exps, hc, he, hdom, hemp⟩ := h
  cases cm with
  | mk le cl lk =>
    simp only at hl hc he
    subst hl hc he
    exact ⟨exps, libs, rfl, hdom, hemp⟩

theorem consistent_mk {V : Type} {exps : String → Option Int}
    {libs : String → Option (TokenManager V)}
    (hdom : ∀ k, (libs k).isSome = (exps k).isSome) (hemp : libs "" = none) :
    Consistent (⟨some exps, some libs, true⟩ : CacheManager V) :=
  ⟨rfl, libs, exps, rfl, rfl, hdom, hemp⟩

/-- Overwriting the store of a registered name keeps the registry consistent. -/
theorem consistent_restore {V : Type} {exps : String → Option Int}
    {libs : String → Option (TokenManager V)} {lib : String}
    (hdom : ∀ k, (libs k).isSome = (exps k).isSome) (hemp : libs "" = none)
    (hreg : (libs lib).isSome = true) (tm' : TokenManager V) :
    Consistent (⟨some exps, some (GoMap.store libs lib tm'), true⟩ : CacheManager V) := by
  have hne : lib ≠ "" := by
    rintro rfl
    simp [hemp] at hreg
  refine consistent_mk ?_ ?_
  · intro k
    by_cases hk : k = lib
    · subst hk
      simp [GoMap.store, ← hdom, hreg]
    · simp [GoMap.store, hk, hdom]
  · simp [GoMap.store, Ne.symm hne, hemp]

theorem consistent_step {V : Type} {op : Op V} {cm cm' : CacheManager V}
    (h : Consistent cm) (hs : step op cm = .ok cm') : Consistent cm' := by
  obtain ⟨exps, libs, rfl, hdom, hemp⟩ := h.alloc
  cases op with
  | init =>
    simp [step, CacheManager.Init] at hs
    subst hs
    exact h
  | regLib lib second =>
    simp only [step, RegLib_alloc] at hs
    by_cases h1 : lib = ""
    · simp [h1, Except.map] at hs
      subst hs
      exact h
    · cases h2 : libs lib with
      | some tm =>
        simp [h1, h2, Except.map] at hs
        subst hs
        exact h
      | none =>
        simp [h1, h2, Except.map] at hs
        subst hs
        refine consistent_mk ?_ ?_
        · intro k
          by_cases hk : k = lib
          · subst hk
            simp [GoMap.store]
          · simp [GoMap.store, hk, hdom]
        · simp [GoMap.store, Ne.symm h1, hemp]
  | set lib key tb now =>
    simp only [step, Set_alloc] at hs
    by_cases h1 : lib = ""
    · simp [h1, Except.map] at hs
      subst hs
      exact h
    · cases h2 : libs lib with
      | none =>
        simp [h1, h2, Except.map] at hs
        subst hs
        exact h
      | some tm =>
        have h3 : (exps lib).isSome = true := by rw [← hdom, h2]; rfl
        obtain ⟨lx, h4⟩ := Option.isSome_iff_exists.mp h3
        simp [h1, h2, h4, Except.map] at hs
        subst hs
        exact consistent_restore hdom hemp (by simp [h2]) _
  | get clib key =>
    simp only [step, Get_alloc] at hs
    cases h2 : libs clib <;> simp [h2, Except.map] at hs <;> subst hs <;> exact h
  | keys clib =>
    simp only [step, Keys_alloc] at hs
    cases h2 : libs clib <;> simp [h2, Except.map] at hs <;> subst hs <;> exact h
  | clear clib =>
    simp only [step, Clear_alloc] at hs
    cases h2 : libs clib with
    | none =>
      simp [h2] at hs
      subst hs
      exact h
    | some tm =>
      simp [h2] at hs
      subst hs
      exact consistent_restore hdom hemp (by simp [h2]) _
  | tick lib now =>
    simp only [step, tick_alloc] at hs
    cases h2 : libs lib with
    | none =>
      simp [h2] at hs
      subst hs
      exact h
    | some tm =>
      simp [h2] at hs
      subst hs
      exact consistent_restore hdom hemp (by simp [h2]) _

theorem consistent_run {V : Type} (ops : List (Op V)) {cm cm' : CacheManager V}
    (h : Consistent cm) (hr : run ops cm = .ok cm') : Consistent cm' := by
  induction ops generalizing cm with
  | nil =>
    simp [run] at hr
    subst hr
    exact h
  | cons op ops ih =>
    simp only [run] at hr
    cases hs : step op cm with
    | error e => simp [hs] at hr
    | ok c =>
      simp only [hs] at hr
      exact ih (consistent_step h hs) hr

/-- Every initialized manager is consistent. -/
theorem Reachable.consistent {V : Type} {cm : CacheManager V} (h : Reachable cm) :
    Consistent cm := by
  obtain ⟨ops, hr⟩ := h
  exact consistent_run ops consistent_init hr

theorem findEntry_putEntry_self {V : Type} (k : String) (e : Entry V)
    (l : List (String × Entry V)) : findEntry k (putEntry k e l) = some e := by
  induction l with
  | nil => simp [putEntry, findEntry]
  | cons p rest ih =>
    obtain ⟨k', e'⟩ := p
    by_cases hk : k' = k
    · simp [putEntry, findEntry, hk]
    · simp [putEntry, findEntry, hk, ih]

/-- No event panics on a consistent manager. -/
theorem step_ok {V : Type} (op : Op V) {cm : CacheManager V} (h : Consistent cm) :
    ∃ cm', step op cm = .ok cm' := by
  obtain ⟨exps, libs, rfl, hdom, hemp⟩ := h.alloc
  cases op with
  | init => exact ⟨_, rfl⟩
  | regLib lib second =>
    simp only [step, RegLib_alloc]
    by_cases h1 : lib = ""
    · simp [h1, Except.map]
    · cases h2 : libs lib <;> simp [h1, Except.map]
  | set lib key tb now =>
    simp only [step, Set_alloc]
    by_cases h1 : lib = ""
    · simp [h1, Except.map]
    · cases h2 : libs lib with
      | none => simp [h1, Except.map]
      | some tm => cases h3 : exps lib <;> simp [h1, Except.map]
  | get clib key =>
    simp only [step, Get_alloc]
    cases h2 : libs clib <;> simp [Except.map]
  | keys clib =>
    simp only [step, Keys_alloc]
    cases h2 : libs clib <;> simp [Except.map]
  | clear clib =>
    simp only [step, Clear_alloc]
    cases h2 : libs clib <;> simp
  | tick lib now => exact ⟨_, rfl⟩

/-- No history panics on a consistent manager. -/
theorem run_ok {V : Type} (ops : List (Op V)) {cm : CacheManager V} (h : Consistent cm) :
    ∃ cm', run ops cm = .ok cm' := by
  induction ops generalizing cm with
  | nil => exact ⟨cm, rfl⟩
  | cons op ops ih =>
    obtain ⟨c, hc⟩ := step_ok op h
    obtain ⟨c', hc'⟩ := ih (consistent_step h hc)
    exact ⟨c', by simp [run, hc, hc']⟩

/-- One event acts on the store of a registered library as `storeStep` says and keeps its
TTL record. -/
theorem step_tracks {V : Type} {op : Op V} {cm cm' : CacheManager V} {lib : String}
    {ttl : Int} {tm : TokenManager V} (h : Consistent cm)
    (hs : cm.clibs.lookup lib = some tm) (ht : cm.libexp.lookup lib = some ttl)
    (hstep : step op cm = .ok cm') :
    cm'.clibs.lookup lib = some (storeStep lib ttl op tm) ∧
      cm'.libexp.lookup lib = some ttl := by
  obtain ⟨exps, libs, rfl, hdom, hemp⟩ := h.alloc
  have hs' : libs lib = some tm := by simpa [GoMap.lookup] using hs
  have ht' : exps lib = some ttl := by simpa [GoMap.lookup] using ht
  cases op with
  | init =>
    simp [step, CacheManager.Init] at hstep
    subst hstep
    exact ⟨hs, ht⟩
  | regLib l second =>
    simp only [step, RegLib_alloc] at hstep
    by_cases h1 : l = ""
    · simp [h1, Except.map] at hstep
      subst hstep
      exact ⟨hs, ht⟩
    · cases h2 : libs l with
      | some t =>
        simp [h1, h2, Except.map] at hstep
        subst hstep
        exact ⟨hs, ht⟩
      | none =>
        have hne : lib ≠ l := by
          rintro rfl
          simp [h2] at hs'
        simp [h1, h2, Except.map] at hstep
        subst hstep
        simp [GoMap.lookup, GoMap.store, hne, hs', ht', storeStep]
  | set l key tb now =>
    simp only [step, Set_alloc] at hstep
    by_cases h1 : l = ""
    · have hne : l ≠ lib := by
        rintro rfl
        simp [h1, hemp] at hs'
      simp [h1, Except.map] at hstep
      subst hstep
      simp [GoMap.lookup, hs', ht', storeStep, ← h1, hne]
    · by_cases h0 : l = lib
      · subst h0
        simp [h1, hs', ht', Except.map] at hstep
        subst hstep
        simp [GoMap.lookup, GoMap.store, ht', storeStep]
      · have hne : lib ≠ l := fun e => h0 e.symm
        cases h2 : libs l with
        | none =>
          simp [h1, h2, Except.map] at hstep
          subst hstep
          simp [GoMap.lookup, hs', ht', storeStep, h0]
        | some t =>
          have h3 : (exps l).isSome = true := by rw [← hdom, h2]; rfl
          obtain ⟨lx, h4⟩ := Option.isSome_iff_exists.mp h3
          simp [h1, h2, h4, Except.map] at hstep
          subst hstep
          simp [GoMap.lookup, GoMap.store, hne, hs', ht', storeStep, h0]
  | get clib key =>
    simp only [step, Get_alloc] at hstep
    cases h2 : libs clib <;> simp [h2, Except.map] at hstep <;> subst hstep <;>
      exact ⟨hs, ht⟩
  | keys clib =>
    simp only [step, Keys_alloc] at hstep
    cases h2 : libs clib <;> simp [h2, Except.map] at hstep <;> subst hstep <;>
      exact ⟨hs, ht⟩
  | clear l =>
    simp only [step, Clear_alloc] at hstep
    by_cases h0 : l = lib
    · subst h0
      simp [hs'] at hstep
      subst hstep
      simp [GoMap.lookup, GoMap.store, ht', storeStep]
    · have hne : lib ≠ l := fun e => h0 e.symm
      cases h2 : libs l with
      | none =>
        simp [h2] at hstep
        subst hstep
        simp [GoMap.lookup, hs', ht', storeStep, h0]
      | some t =>
        simp [h2] at hstep
        subst hstep
        simp [GoMap.lookup, GoMap.store, hne, hs', ht', storeStep, h0]
  | tick l now =>
    simp only [step, tick_alloc] at hstep
    by_cases h0 : l = lib
    · subst h0
      simp [hs'] at hstep
      subst hstep
      simp [GoMap.lookup, GoMap.store, ht', storeStep]
    · have hne : lib ≠ l := fun e => h0 e.symm
      cases h2 : libs l with
      | none =>
        simp [h2] at hstep
        subst hstep
        simp [GoMap.lookup, hs', ht', storeStep, h0]
      | some t =>
        simp [h2] at hstep
        subst hstep
        simp [GoMap.lookup, GoMap.store, hne, hs', ht', storeStep, h0]

/-- A history acts on the store of a registered library as `storeTrace` says and keeps its
TTL record. -/
theorem run_tracks {V : Type} (ops : List (Op V)) {cm cm' : CacheManager V} {lib : String}
    {ttl : Int} {tm : TokenManager V} (h : Consistent cm)
    (hs : cm.clibs.lookup lib = some tm) (ht : cm.libexp.lookup lib = some ttl)
    (hrun : run ops cm = .ok cm') :
    cm'.clibs.lookup lib = some (storeTrace lib ttl ops tm) ∧
      cm'.libexp.lookup lib = some ttl := by
  induction ops generalizing cm tm with
  | nil =>
    simp [run] at hrun
    subst hrun
    exact ⟨hs, ht⟩
  | cons op ops ih =>
    simp only [run] at hrun
    cases hstep : step op cm with
    | error e => simp [hstep] at hrun
    | ok c =>
      simp only [hstep] at hrun
      obtain ⟨h1, h2⟩ := step_tracks h hs ht hstep
      exact ih (consistent_step h hstep) h1 h2 hrun

/-- A successful RegLib leaves a consistent manager holding the new store and TTL. -/
theorem RegLib_success {V : Type} {cm cm1 : CacheManager V} {lib : String} {ttl : Int}
    (h : Consistent cm) (hreg : cm.RegLib lib ttl = .ok (none, cm1)) :
    Consistent cm1 ∧ ¬ Registered cm lib ∧
      cm1.clibs.lookup lib = some TokenManager.zero.Init ∧
      cm1.libexp.lookup lib = some ttl := by
  have hc : Consistent cm1 :=
    @consistent_step V (Op.regLib lib ttl) cm cm1 h (by simp [step, hreg, Except.map])
  obtain ⟨exps, libs, rfl, hdom, hemp⟩ := h.alloc
  rw [RegLib_alloc] at hreg
  by_cases h1 : lib = ""
  · simp [h1] at hreg
  · cases h2 : libs lib with
    | some t => simp [h1, h2] at hreg
    | none =>
      simp [h1, h2] at hreg
      subst hreg
      exact ⟨hc, by simp [Registered, GoMap.lookup, h2], by simp [GoMap.lookup, GoMap.store],
        by simp [GoMap.lookup, GoMap.store]⟩

theorem mem_keys_putEntry {V : Type} (k : String) (e : Entry V)
    (l : List (String × Entry V)) : k ∈ (putEntry k e l).map Prod.fst := by
  induction l with
  | nil => simp [putEntry]
  | cons p rest ih =>
    obtain ⟨k0, e0⟩ := p
    by_cases h0 : k0 = k
    · simp [putEntry, h0]
    · simp only [putEntry, h0, if_false, List.map_cons, List.mem_cons]
      exact Or.inr ih

theorem findEntry_putEntry_ne {V : Type} {k k' : String} (hne : k ≠ k') (e : Entry V)
    (l : List (String × Entry V)) : findEntry k (putEntry k' e l) = findEntry k l := by
  induction l with
  | nil => simp [putEntry, findEntry, Ne.symm hne]
  | cons p rest ih =>
    obtain ⟨k0, e0⟩ := p
    by_cases h0 : k0 = k'
    · subst h0
      simp [putEntry, findEntry, Ne.symm hne]
    · by_cases h1 : k0 = k
      · subst h1
        simp [putEntry, findEntry, h0]
      · simp [putEntry, findEntry, h0, h1, ih]

theorem findEntry_filter_none {V : Type} {k : String} (p : String × Entry V → Bool)
    {l : List (String × Entry V)} (h : findEntry k l = none) :
    findEntry k (l.filter p) = none := by
  induction l with
  | nil => simp [findEntry]
  | cons q rest ih =>
    obtain ⟨k0, e0⟩ := q
    by_cases h0 : k0 = k
    · simp [findEntry, h0] at h
    · simp only [findEntry, h0, if_false] at h
      by_cases hp : p (k0, e0) = true
      · simp [List.filter, hp, findEntry, h0, ih h]
      · simp [List.filter, hp, ih h]

/-- A key absent from a store stays absent under every event other than a Set of that key
in that library. -/
theorem storeStep_absent {V : Type} {lib key : String} (ttl : Int) {op : Op V}
    {tm : TokenManager V} (h : findEntry key tm.tokens = none)
    (hop : ∀ tb now, op ≠ Op.set lib key tb now) :
    findEntry key (storeStep lib ttl op tm).tokens = none := by
  cases op with
  | set l k tb now =>
    by_cases h0 : l = lib
    · have hk : key ≠ k := by
        rintro rfl
        exact hop tb now (by rw [h0])
      simp [storeStep, h0, TokenManager.PutTokenBody, findEntry_putEntry_ne hk, h]
    · simp [storeStep, h0, h]
  | clear l =>
    by_cases h0 : l = lib
    · simp [storeStep, h0, TokenManager.Clear, findEntry]
    · simp [storeStep, h0, h]
  | tick l now =>
    by_cases h0 : l = lib
    · simp [storeStep, h0, TokenManager.sweep, findEntry_filter_none _ h]
    · simp [storeStep, h0, h]
  | init => simpa [storeStep] using h
  | regLib l second => simpa [storeStep] using h
  | get clib k => simpa [storeStep] using h
  | keys clib => simpa [storeStep] using h

theorem storeTrace_absent {V : Type} {lib key : String} (ttl : Int) (ops : List (Op V))
    {tm : TokenManager V} (h : findEntry key tm.tokens = none)
    (hops : ∀ tb now, Op.set lib key tb now ∉ ops) :
    findEntry key (storeTrace lib ttl ops tm).tokens = none := by
  induction ops generalizing tm with
  | nil => simpa [storeTrace] using h
  | cons op ops ih =>
    simp only [storeTrace]
    refine ih (storeStep_absent ttl h ?_) ?_
    · intro tb now e
      exact hops tb now (by simp [e])
    · intro tb now hm
      exact hops tb now (List.mem_cons_of_mem _ hm)

/-- Get on a consistent manager is the store's `GetTokenBody` for a registered library. -/
theorem Get_registered {V : Type} {cm : CacheManager V} (h : Consistent cm) {lib : String}
    {tm : TokenManager V} (hs : cm.clibs.lookup lib = some tm) (key : String) :
    cm.Get lib key = .ok (tm.GetTokenBody key) := by
  obtain ⟨exps, libs, rfl, hdom, hemp⟩ := h.alloc
  have hs' : libs lib = some tm := by simpa [GoMap.lookup] using hs
  simp [Get_alloc, hs']

/-! ## RegLib -/

/-- C1: on an initialized manager RegLib returns an error exactly when the name is empty or
already registered; when it returns nil the name is registered afterwards with a newly
initialised, empty store (no keys, no key found) and the given TTL as its default TTL. -/
theorem RegLib_contract {V : Type} (cm : CacheManager V) (h : Reachable cm)
    (name : String) (ttl : Int) :
    ∃ err cm', cm.RegLib name ttl = .ok (err, cm') ∧
      (err ≠ none ↔ (name = "" ∨ Registered cm name)) ∧
      (err = none →
        Registered cm' name ∧
        cm'.clibs.lookup name = some TokenManager.zero.Init ∧
        cm'.Keys name = .ok (some []) ∧
        (∀ key, cm'.Get name key = .ok (none, false)) ∧
        cm'.libexp.lookup name = some ttl) := by
  obtain ⟨exps, libs, rfl, hdom, hemp⟩ := h.consistent.alloc
  rw [RegLib_alloc]
  by_cases h1 : name = ""
  · exact ⟨some "lib is empty", ⟨some exps, some libs, true⟩, by simp [h1], by simp [h1],
      by simp⟩
  · cases h2 : libs name with
    | some tm =>
      refine ⟨some "lib is exist", ⟨some exps, some libs, true⟩, by simp [h1], ?_, by simp⟩
      simp [Registered, GoMap.lookup, h2]
    | none =>
      refine ⟨none, ⟨some (GoMap.store exps name ttl),
        some (GoMap.store libs name TokenManager.zero.Init), true⟩, by simp [h1], ?_, ?_⟩
      · simp [Registered, GoMap.lookup, h1, h2]
      · intro _
        refine ⟨?_, ?_, ?_, ?_, ?_⟩
        · simp [Registered, GoMap.lookup, GoMap.store]
        · simp [GoMap.lookup, GoMap.store]
        · simp [Keys_alloc, GoMap.store, TokenManager.ListTokens, TokenManager.Init,
            TokenManager.zero]
        · intro key
          simp [Get_alloc, GoMap.store, TokenManager.GetTokenBody, TokenManager.Init,
            TokenManager.zero, findEntry]
        · simp [GoMap.lookup, GoMap.store]

/-- Witness of C1: registering `tmp` on the manager that holds only `sessions`. -/
theorem RegLib_contract_witness :
    Reachable (after sessionsOps) ∧
    (after sessionsOps).RegLib "tmp" 7 =
      .ok (none, after (sessionsOps ++ [Op.regLib "tmp" 7])) ∧
    ∃ err cm', (after sessionsOps).RegLib "tmp" 7 = .ok (err, cm') ∧
      (err ≠ none ↔ ("tmp" = "" ∨ Registered (after sessionsOps) "tmp")) ∧
      (err = none →
        Registered cm' "tmp" ∧
        cm'.clibs.lookup "tmp" = some TokenManager.zero.Init ∧
        cm'.Keys "tmp" = .ok (some []) ∧
        (∀ key, cm'.Get "tmp" key = .ok (none, false)) ∧
        cm'.libexp.lookup "tmp" = some 7) :=
  ⟨⟨sessionsOps, rfl⟩, rfl, RegLib_contract (after sessionsOps) ⟨sessionsOps, rfl⟩ "tmp" 7⟩

/-- C2: when the name is already registered with TTL `t1` and store `tm`, RegLib with any
TTL `t2` returns an error and the manager is unchanged: the name keeps `t1` and `tm`, and Get
answers as before for every key. -/
theorem RegLib_twice {V : Type} (cm : CacheManager V) (h : Reachable cm)
    (name : String) (t1 t2 : Int) (tm : TokenManager V)
    (hs : cm.clibs.lookup name = some tm) (ht : cm.libexp.lookup name = some t1) :
    ∃ msg cm', cm.RegLib name t2 = .ok (some msg, cm') ∧ cm' = cm ∧
      cm'.libexp.lookup name = some t1 ∧ cm'.clibs.lookup name = some tm ∧
      ∀ key, cm'.Get name key = cm.Get name key := by
  obtain ⟨exps, libs, rfl, hdom, hemp⟩ := h.consistent.alloc
  have h2 : libs name = some tm := by simpa [GoMap.lookup] using hs
  have h1 : name ≠ "" := by
    rintro rfl
    simp [hemp] at h2
  exact ⟨"lib is exist", ⟨some exps, some libs, true⟩, by simp [RegLib_alloc, h1, h2], rfl,
    ht, hs, fun _ => rfl⟩

/-- Witness of C2: registering `sessions` a second time, with TTL 9 instead of 5. -/
theorem RegLib_twice_witness :
    Reachable (after aliceOps) ∧
    (after aliceOps).clibs.lookup "sessions" =
      some ⟨[("u1", ⟨some "Alice", 5, some 105⟩)], true⟩ ∧
    (after aliceOps).libexp.lookup "sessions" = some 5 ∧
    ∃ msg cm', (after aliceOps).RegLib "sessions" 9 = .ok (some msg, cm') ∧
      cm' = after aliceOps ∧
      cm'.libexp.lookup "sessions" = some 5 ∧
      cm'.clibs.lookup "sessions" = some ⟨[("u1", ⟨some "Alice", 5, some 105⟩)], true⟩ ∧
      ∀ key, cm'.Get "sessions" key = (after aliceOps).Get "sessions" key :=
  ⟨⟨aliceOps, rfl⟩, rfl, rfl,
    RegLib_twice (after aliceOps) ⟨aliceOps, rfl⟩ "sessions" 5 9 _ rfl rfl⟩

/-! ## Set and Get -/

/-- C3: on an initialized manager, Set with an empty or unregistered library returns an
error and leaves the whole manager (registry and every store) as it was; Set on a registered
library (whose name is then non-empty) returns nil. -/
theorem Set_contract {V : Type} (cm : CacheManager V) (h : Reachable cm)
    (lib key : String) (tb : Option V) (now : Int) :
    ((lib = "" ∨ ¬ Registered cm lib) → ∃ msg, cm.Set lib key tb now = .ok (some msg, cm)) ∧
    (Registered cm lib → lib ≠ "" ∧ ∃ cm', cm.Set lib key tb now = .ok (none, cm')) := by
  obtain ⟨exps, libs, rfl, hdom, hemp⟩ := h.consistent.alloc
  constructor
  · rintro (h1 | h1)
    · exact ⟨"lib is empty", by simp [Set_alloc, h1]⟩
    · have h2 : libs lib = none := by simpa [Registered, GoMap.lookup] using h1
      by_cases h0 : lib = ""
      · exact ⟨"lib is empty", by simp [Set_alloc, h0]⟩
      · exact ⟨"lib not exist", by simp [Set_alloc, h0, h2]⟩
  · intro hreg
    have h2 : (libs lib).isSome = true := by simpa [Registered, GoMap.lookup] using hreg
    have h1 : lib ≠ "" := by
      rintro rfl
      simp [hemp] at h2
    obtain ⟨tm, h3⟩ := Option.isSome_iff_exists.mp h2
    obtain ⟨lx, h4⟩ := Option.isSome_iff_exists.mp ((hdom lib) ▸ h2)
    exact ⟨h1, ⟨some exps, some (GoMap.store libs lib (tm.PutTokenBody key tb lx now).2), true⟩,
      by simp [Set_alloc, h1, h3, h4]⟩

/-- Witness of C3: on the manager that holds only `sessions`, Set in the unregistered `tmp`
fails without effect and Set in `sessions` returns nil. -/
theorem Set_contract_witness :
    Reachable (after sessionsOps) ∧ ¬ Registered (after sessionsOps) "tmp" ∧
    Registered (after sessionsOps) "sessions" ∧
    (∃ msg, (after sessionsOps).Set "tmp" "u1" (some "Alice") 100 =
      .ok (some msg, after sessionsOps)) ∧
    (("sessions" : String) ≠ "" ∧
      ∃ cm', (after sessionsOps).Set "sessions" "u1" (some "Alice") 100 = .ok (none, cm')) :=
  ⟨⟨sessionsOps, rfl⟩, by decide, by decide,
    (Set_contract (after sessionsOps) ⟨sessionsOps, rfl⟩ "tmp" "u1" (some "Alice") 100).1
      (Or.inr (by decide)),
    (Set_contract (after sessionsOps) ⟨sessionsOps, rfl⟩ "sessions" "u1" (some "Alice") 100).2
      (by decide)⟩

/-- C4: Set/Get round trip: when Set on a registered library returns nil, Get of the same
library and key in the resulting state (no sweep tick or other call in between) returns the
value with found = true. -/
theorem Set_Get_roundtrip {V : Type} (cm cm' : CacheManager V) (h : Reachable cm)
    (lib key : String) (value : Option V) (now : Int) (hreg : Registered cm lib)
    (hset : cm.Set lib key value now = .ok (none, cm')) :
    cm'.Get lib key = .ok (value, true) := by
  obtain ⟨exps, libs, rfl, hdom, hemp⟩ := h.consistent.alloc
  have h2 : (libs lib).isSome = true := by simpa [Registered, GoMap.lookup] using hreg
  have h1 : lib ≠ "" := by
    rintro rfl
    simp [hemp] at h2
  obtain ⟨tm, h3⟩ := Option.isSome_iff_exists.mp h2
  obtain ⟨lx, h4⟩ := Option.isSome_iff_exists.mp ((hdom lib) ▸ h2)
  simp [Set_alloc, h1, h3, h4] at hset
  subst hset
  simp [Get_alloc, GoMap.store, TokenManager.GetTokenBody, TokenManager.PutTokenBody,
    findEntry_putEntry_self]

/-- Witness of C4: the scenario `RegLib("sessions", 5)`, `Set("sessions", "u1", "Alice")`,
`Get("sessions", "u1")`. -/
theorem Set_Get_roundtrip_witness :
    Reachable (after sessionsOps) ∧ Registered (after sessionsOps) "sessions" ∧
    (after sessionsOps).Set "sessions" "u1" (some "Alice") 100 = .ok (none, after aliceOps) ∧
    (after aliceOps).Get "sessions" "u1" = .ok (some "Alice", true) :=
  ⟨⟨sessionsOps, rfl⟩, rfl, rfl,
    Set_Get_roundtrip (after sessionsOps) (after aliceOps) ⟨sessionsOps, rfl⟩
      "sessions" "u1" (some "Alice") 100 rfl rfl⟩

/-- C5: after `RegLib(lib, ttl)` returned nil, and whatever events follow (further
registrations, Sets, Clears, sweep ticks, in any library), the store of `lib` is the one
created at registration as changed by the events addressed to `lib`, and `Set(lib, key,
value)` returns nil with exactly the effect of `PutTokenBody(key, value, ttl)` on that
store: every other library's store, the TTL records and the lock are untouched. -/
theorem Set_delegates {V : Type} (cm cm1 cm2 : CacheManager V) (h : Reachable cm)
    (lib : String) (ttl : Int) (hreg : cm.RegLib lib ttl = .ok (none, cm1))
    (ops : List (Op V)) (hrun : run ops cm1 = .ok cm2)
    (key : String) (value : Option V) (now : Int) :
    ∃ cm3, cm2.Set lib key value now = .ok (none, cm3) ∧
      cm2.clibs.lookup lib = some (storeTrace lib ttl ops TokenManager.zero.Init) ∧
      cm3.clibs.lookup lib =
        some ((storeTrace lib ttl ops TokenManager.zero.Init).PutTokenBody key value ttl now).2 ∧
      (∀ other, other ≠ lib → cm3.clibs.lookup other = cm2.clibs.lookup other) ∧
      cm3.libexp = cm2.libexp ∧ cm3.clibLock = cm2.clibLock := by
  obtain ⟨hc1, -, hs1, ht1⟩ := RegLib_success h.consistent hreg
  obtain ⟨hs2, ht2⟩ := run_tracks ops hc1 hs1 ht1 hrun
  have hc2 := consistent_run ops hc1 hrun
  obtain ⟨exps, libs, rfl, hdom, hemp⟩ := hc2.alloc
  have hs' : libs lib = some (storeTrace lib ttl ops TokenManager.zero.Init) := by
    simpa [GoMap.lookup] using hs2
  have ht' : exps lib = some ttl := by simpa [GoMap.lookup] using ht2
  have h1 : lib ≠ "" := by
    rintro rfl
    simp [hemp] at hs'
  refine ⟨⟨some exps, some (GoMap.store libs lib
    ((storeTrace lib ttl ops TokenManager.zero.Init).PutTokenBody key value ttl now).2), true⟩,
    by simp [Set_alloc, h1, hs', ht'], hs2, by simp [GoMap.lookup, GoMap.store], ?_, rfl, rfl⟩
  intro other hne
  simp [GoMap.lookup, GoMap.store, hne]

/-- Witness of C5: `sessions` registered with TTL 5 on a fresh manager, then `mixedOps`
(which tries to re-register it with TTL 77), then a Set in `sessions`. -/
theorem Set_delegates_witness :
    Reachable (after ([] : List (Op String))) ∧
    (after ([] : List (Op String))).RegLib "sessions" 5 = .ok (none, after sessionsOps) ∧
    run mixedOps (after sessionsOps) = .ok (after (sessionsOps ++ mixedOps)) ∧
    ∃ cm3, (after (sessionsOps ++ mixedOps)).Set "sessions" "u1" (some "Alice") 100 =
        .ok (none, cm3) ∧
      (after (sessionsOps ++ mixedOps)).clibs.lookup "sessions" =
        some (storeTrace "sessions" 5 mixedOps TokenManager.zero.Init) ∧
      cm3.clibs.lookup "sessions" =
        some ((storeTrace "sessions" 5 mixedOps TokenManager.zero.Init).PutTokenBody
          "u1" (some "Alice") 5 100).2 ∧
      (∀ other, other ≠ "sessions" →
        cm3.clibs.lookup other = (after (sessionsOps ++ mixedOps)).clibs.lookup other) ∧
      cm3.libexp = (after (sessionsOps ++ mixedOps)).libexp ∧
      cm3.clibLock = (after (sessionsOps ++ mixedOps)).clibLock :=
  ⟨⟨[], rfl⟩, rfl, rfl,
    Set_delegates (after []) (after sessionsOps) (after (sessionsOps ++ mixedOps)) ⟨[], rfl⟩
      "sessions" 5 rfl mixedOps rfl "u1" (some "Alice") 100⟩

/-- C6: on an initialized manager Get never panics; it returns `(nil, false)` for an
unregistered library; and it reports found = false for a key that no Set has stored in the
library since the library was registered, or since the library was cleared. -/
theorem Get_soft {V : Type} (cm : CacheManager V) (h : Reachable cm) (library key : String) :
    (∃ r, cm.Get library key = .ok r) ∧
    (¬ Registered cm library → cm.Get library key = .ok (none, false)) ∧
    (∀ ttl cm1 ops cm2, cm.RegLib library ttl = .ok (none, cm1) → run ops cm1 = .ok cm2 →
      (∀ tb now, Op.set library key tb now ∉ ops) →
      ∃ v, cm2.Get library key = .ok (v, false)) ∧
    (∀ cm1 ops cm2, Registered cm library → cm.Clear library = .ok cm1 →
      run ops cm1 = .ok cm2 → (∀ tb now, Op.set library key tb now ∉ ops) →
      ∃ v, cm2.Get library key = .ok (v, false)) := by
  have hc := h.consistent
  refine ⟨?_, ?_, ?_, ?_⟩
  · obtain ⟨exps, libs, rfl, hdom, hemp⟩ := hc.alloc
    rw [Get_alloc]
    cases libs library <;> simp
  · intro hreg
    obtain ⟨exps, libs, rfl, hdom, hemp⟩ := hc.alloc
    have h2 : libs library = none := by simpa [Registered, GoMap.lookup] using hreg
    simp [Get_alloc, h2]
  · intro ttl cm1 ops cm2 hreg hrun hops
    obtain ⟨hc1, -, hs1, ht1⟩ := RegLib_success hc hreg
    obtain ⟨hs2, -⟩ := run_tracks ops hc1 hs1 ht1 hrun
    have habs := @storeTrace_absent V library key ttl ops TokenManager.zero.Init rfl hops
    rw [Get_registered (consistent_run ops hc1 hrun) hs2]
    exact ⟨none, by simp [TokenManager.GetTokenBody, habs]⟩
  · intro cm1 ops cm2 hreg hclear hrun hops
    have hc1 : Consistent cm1 := @consistent_step V (Op.clear library) cm cm1 hc hclear
    obtain ⟨exps, libs, rfl, hdom, hemp⟩ := hc.alloc
    have h2 : (libs library).isSome = true := by simpa [Registered, GoMap.lookup] using hreg
    obtain ⟨tm, h3⟩ := Option.isSome_iff_exists.mp h2
    obtain ⟨lx, h4⟩ := Option.isSome_iff_exists.mp ((hdom library) ▸ h2)
    simp [Clear_alloc, h3] at hclear
    subst hclear
    obtain ⟨hs2, -⟩ := @run_tracks V ops _ cm2 library lx tm.Clear hc1
      (by simp [GoMap.lookup, GoMap.store]) (by simp [GoMap.lookup, h4]) hrun
    have habs := @storeTrace_absent V library key lx ops tm.Clear rfl hops
    rw [Get_registered (consistent_run ops hc1 hrun) hs2]
    exact ⟨none, by simp [TokenManager.GetTokenBody, habs]⟩

/-- Witness of C6: `tmp` is unregistered; `u1` was never set in `sessions` during
`mixedOps`; and `u1` is gone after a Clear of `sessions` followed by `mixedOps`. -/
theorem Get_soft_witness :
    Reachable (after sessionsOps) ∧
    (after sessionsOps).Get "tmp" "u1" = .ok (none, false) ∧
    (∃ v, (after (sessionsOps ++ mixedOps)).Get "sessions" "u1" = .ok (v, false)) ∧
    (∃ v, (after (aliceOps ++ Op.clear "sessions" :: mixedOps)).Get "sessions" "u1" =
      .ok (v, false)) :=
  ⟨⟨sessionsOps, rfl⟩,
    (Get_soft (after sessionsOps) ⟨sessionsOps, rfl⟩ "tmp" "u1").2.1 (by decide),
    (Get_soft (after []) ⟨[], rfl⟩ "sessions" "u1").2.2.1 5 (after sessionsOps) mixedOps
      (after (sessionsOps ++ mixedOps)) rfl rfl
      (by intro tb now hm; simp [mixedOps] at hm),
    (Get_soft (after aliceOps) ⟨aliceOps, rfl⟩ "sessions" "u1").2.2.2
      (after (aliceOps ++ [Op.clear "sessions"])) mixedOps
      (after (aliceOps ++ Op.clear "sessions" :: mixedOps)) (by decide) (by rfl) (by rfl)
      (by intro tb now hm; simp [mixedOps] at hm)⟩

/-! ## Keys, Clear and Init -/

/-- C7: on an initialized manager Keys of an unregistered library returns the allocated
empty slice and the manager stays as it was; Keys of a registered library returns the
`ListTokens()` of that library's store. -/
theorem Keys_contract {V : Type} (cm : CacheManager V) (h : Reachable cm) (library : String) :
    (¬ Registered cm library →
      cm.Keys library = .ok (some []) ∧ step (Op.keys library) cm = .ok cm) ∧
    (∀ tm, cm.clibs.lookup library = some tm → cm.Keys library = .ok tm.ListTokens) := by
  obtain ⟨exps, libs, rfl, hdom, hemp⟩ := h.consistent.alloc
  constructor
  · intro hreg
    have h2 : libs library = none := by simpa [Registered, GoMap.lookup] using hreg
    simp [step, Keys_alloc, h2, Except.map]
  · intro tm hs
    have h2 : libs library = some tm := by simpa [GoMap.lookup] using hs
    simp [Keys_alloc, h2]

/-- Witness of C7: the unregistered `tmp` and the registered `sessions` holding `u1`. -/
theorem Keys_contract_witness :
    Reachable (after aliceOps) ∧ ¬ Registered (after aliceOps) "tmp" ∧
    ((after aliceOps).Keys "tmp" = .ok (some []) ∧
      step (Op.keys "tmp") (after aliceOps) = .ok (after aliceOps)) ∧
    (after aliceOps).Keys "sessions" = .ok (some ["u1"]) :=
  ⟨⟨aliceOps, rfl⟩, by decide,
    (Keys_contract (after aliceOps) ⟨aliceOps, rfl⟩ "tmp").1 (by decide),
    (Keys_contract (after aliceOps) ⟨aliceOps, rfl⟩ "sessions").2
      ⟨[("u1", ⟨some "Alice", 5, some 105⟩)], true⟩ rfl⟩

/-- C8: on an initialized manager Clear of an unregistered library leaves the manager as it
was; Clear of a registered library empties its store (no keys, no key found) and keeps the
registration: the same store, now empty, the same default TTL, RegLib of the name still
fails and Set in it still returns nil. -/
theorem Clear_contract {V : Type} (cm : CacheManager V) (h : Reachable cm)
    (library : String) :
    (¬ Registered cm library → cm.Clear library = .ok cm) ∧
    (Registered cm library →
      ∃ cm' tm ttl, cm.clibs.lookup library = some tm ∧ cm.libexp.lookup library = some ttl ∧
        cm.Clear library = .ok cm' ∧
        cm'.Keys library = .ok (some []) ∧
        (∀ k, ∃ v, cm'.Get library k = .ok (v, false)) ∧
        cm'.clibs.lookup library = some tm.Clear ∧
        cm'.libexp.lookup library = some ttl ∧
        (∀ other, other ≠ library → cm'.clibs.lookup other = cm.clibs.lookup other) ∧
        cm'.libexp = cm.libexp ∧
        (∀ t, ∃ msg, cm'.RegLib library t = .ok (some msg, cm')) ∧
        (∀ k v now, ∃ cmNext, cm'.Set library k v now = .ok (none, cmNext))) := by
  obtain ⟨exps, libs, rfl, hdom, hemp⟩ := h.consistent.alloc
  constructor
  · intro hreg
    have h2 : libs library = none := by simpa [Registered, GoMap.lookup] using hreg
    simp [Clear_alloc, h2]
  · intro hreg
    have h2 : (libs library).isSome = true := by simpa [Registered, GoMap.lookup] using hreg
    have h1 : library ≠ "" := by
      rintro rfl
      simp [hemp] at h2
    obtain ⟨tm, h3⟩ := Option.isSome_iff_exists.mp h2
    obtain ⟨lx, h4⟩ := Option.isSome_iff_exists.mp ((hdom library) ▸ h2)
    refine ⟨⟨some exps, some (GoMap.store libs library tm.Clear), true⟩, tm, lx,
      by simp [GoMap.lookup, h3], by simp [GoMap.lookup, h4], by simp [Clear_alloc, h3],
      ?_, ?_, by simp [GoMap.lookup, GoMap.store], by simp [GoMap.lookup, h4], ?_, rfl, ?_, ?_⟩
    · simp [Keys_alloc, GoMap.store, TokenManager.ListTokens, TokenManager.Clear]
    · intro k
      exact ⟨none, by simp [Get_alloc, GoMap.store, TokenManager.GetTokenBody,
        TokenManager.Clear, findEntry]⟩
    · intro other hne
      simp [GoMap.lookup, GoMap.store, hne]
    · intro t
      exact ⟨"lib is exist", by simp [RegLib_alloc, h1, GoMap.store]⟩
    · intro k v now
      exact ⟨⟨some exps, some (GoMap.store (GoMap.store libs library tm.Clear) library
        (tm.Clear.PutTokenBody k v lx now).2), true⟩,
        by simp [Set_alloc, h1, GoMap.store, h4]⟩

/-- Witness of C8: Clear of the unregistered `tmp` and of `sessions`, which holds `u1`. -/
theorem Clear_contract_witness :
    Reachable (after aliceOps) ∧ ¬ Registered (after aliceOps) "tmp" ∧
    Registered (after aliceOps) "sessions" ∧
    (after aliceOps).Clear "tmp" = .ok (after aliceOps) ∧
    (after aliceOps).Keys "sessions" = .ok (some ["u1"]) ∧
    ∃ cm' tm ttl, (after aliceOps).clibs.lookup "sessions" = some tm ∧
      (after aliceOps).libexp.lookup "sessions" = some ttl ∧
      (after aliceOps).Clear "sessions" = .ok cm' ∧
      cm'.Keys "sessions" = .ok (some []) ∧
      (∀ k, ∃ v, cm'.Get "sessions" k = .ok (v, false)) ∧
      cm'.clibs.lookup "sessions" = some tm.Clear ∧
      cm'.libexp.lookup "sessions" = some ttl ∧
      (∀ other, other ≠ "sessions" →
        cm'.clibs.lookup other = (after aliceOps).clibs.lookup other) ∧
      cm'.libexp = (after aliceOps).libexp ∧
      (∀ t, ∃ msg, cm'.RegLib "sessions" t = .ok (some msg, cm')) ∧
      (∀ k v now, ∃ cmNext, cm'.Set "sessions" k v now = .ok (none, cmNext)) :=
  ⟨⟨aliceOps, rfl⟩, by decide, by decide,
    (Clear_contract (after aliceOps) ⟨aliceOps, rfl⟩ "tmp").1 (by decide), rfl,
    (Clear_contract (after aliceOps) ⟨aliceOps, rfl⟩ "sessions").2 (by decide)⟩

/-- C9: Init on an initialized manager (any state reached through RegLib, Set, Clear and
the other events) returns that manager with registry, TTL records and stores as they
were. -/
theorem Init_idempotent {V : Type} (cm : CacheManager V) (h : Reachable cm) :
    cm.Init = cm ∧ step Op.init cm = .ok cm := by
  obtain ⟨exps, libs, rfl, hdom, hemp⟩ := h.consistent.alloc
  simp [step, CacheManager.Init]

/-- Witness of C9: Init on the manager that holds `sessions` with `u1`. -/
theorem Init_idempotent_witness :
    Reachable (after aliceOps) ∧
    ((after aliceOps).Init = after aliceOps ∧ step Op.init (after aliceOps) = .ok (after aliceOps)) :=
  ⟨⟨aliceOps, rfl⟩, Init_idempotent (after aliceOps) ⟨aliceOps, rfl⟩⟩

/-! ## The key is not validated -/

/-- C10 fails as stated: with `sessions` registered, `Set("sessions", "", "Alice")` does not
return an error; it returns nil, after passing the empty key on to the store of the
library. -/
theorem Set_empty_key_counterexample :
    Reachable (after sessionsOps) ∧ Registered (after sessionsOps) "sessions" ∧
    (¬ ∃ msg cm', (after sessionsOps).Set "sessions" "" (some "Alice") 100 =
      .ok (some msg, cm')) ∧
    ((after sessionsOps).Set "sessions" "" (some "Alice") 100).map Prod.fst = .ok none := by
  refine ⟨⟨sessionsOps, rfl⟩, by decide, ?_, rfl⟩
  rintro ⟨msg, cm', hset⟩
  have hnil : ((after sessionsOps).Set "sessions" "" (some "Alice") 100).map Prod.fst =
      .ok none := rfl
  rw [hset] at hnil
  simp [Except.map] at hnil

/-- C10 as the code has it: Set does not inspect the key. On an initialized manager with
`lib` registered, `Set(lib, "", value)` returns nil, and what it does is the call
`PutTokenBody("", value, ttl)` on the store of `lib` with the TTL of `lib`: the store of
`lib` afterwards is the store that call leaves, every other store and every TTL is as
before. -/
theorem Set_ignores_key {V : Type} (cm : CacheManager V) (h : Reachable cm) (lib : String)
    (value : Option V) (now : Int) (hreg : Registered cm lib) :
    ∃ cm' tm ttl, cm.clibs.lookup lib = some tm ∧ cm.libexp.lookup lib = some ttl ∧
      cm.Set lib "" value now = .ok (none, cm') ∧
      cm'.clibs.lookup lib = some (tm.PutTokenBody "" value ttl now).2 ∧
      (∀ other, other ≠ lib → cm'.clibs.lookup other = cm.clibs.lookup other) ∧
      cm'.libexp = cm.libexp := by
  obtain ⟨exps, libs, rfl, hdom, hemp⟩ := h.consistent.alloc
  have h2 : (libs lib).isSome = true := by simpa [Registered, GoMap.lookup] using hreg
  have h1 : lib ≠ "" := by
    rintro rfl
    simp [hemp] at h2
  obtain ⟨tm, h3⟩ := Option.isSome_iff_exists.mp h2
  obtain ⟨lx, h4⟩ := Option.isSome_iff_exists.mp ((hdom lib) ▸ h2)
  refine ⟨⟨some exps, some (GoMap.store libs lib (tm.PutTokenBody "" value lx now).2), true⟩,
    tm, lx, by simp [GoMap.lookup, h3], by simp [GoMap.lookup, h4],
    by simp [Set_alloc, h1, h3, h4], by simp [GoMap.lookup, GoMap.store], ?_, rfl⟩
  intro other hne
  simp [GoMap.lookup, GoMap.store, hne]

/-- Witness of C10 as amended: the empty key in `sessions`. -/
theorem Set_ignores_key_witness :
    Reachable (after sessionsOps) ∧ Registered (after sessionsOps) "sessions" ∧
    ∃ cm' tm ttl, (after sessionsOps).clibs.lookup "sessions" = some tm ∧
      (after sessionsOps).libexp.lookup "sessions" = some ttl ∧
      (after sessionsOps).Set "sessions" "" (some "Alice") 100 = .ok (none, cm') ∧
      cm'.clibs.lookup "sessions" = some (tm.PutTokenBody "" (some "Alice") ttl 100).2 ∧
      (∀ other, other ≠ "sessions" →
        cm'.clibs.lookup other = (after sessionsOps).clibs.lookup other) ∧
      cm'.libexp = (after sessionsOps).libexp :=
  ⟨⟨sessionsOps, rfl⟩, by decide,
    Set_ignores_key (after sessionsOps) ⟨sessionsOps, rfl⟩ "sessions" (some "Alice") 100
      (by decide)⟩

/-! ## Errors of Set, registry monotonicity, isolation -/

/-- C11 fails as stated: in a state where `orphan` has a store but no TTL record and `ghost`
has no store, Set returns the same error message `lib not exist` for both. -/
theorem Set_same_message_counterexample :
    orphanCm.clibs.lookup "ghost" = none ∧
    (orphanCm.clibs.lookup "orphan").isSome = true ∧
    orphanCm.libexp.lookup "orphan" = none ∧
    (orphanCm.Set "ghost" "k" (some "v") 0).map Prod.fst = .ok (some "lib not exist") ∧
    (orphanCm.Set "orphan" "k" (some "v") 0).map Prod.fst = .ok (some "lib not exist") :=
  ⟨rfl, rfl, rfl, rfl, rfl⟩

/-- C11 as the code has it: for every manager state with the lock allocated and every
non-empty library name, Set returns the one message `lib not exist` both when the library
has no store and when it has a store but no TTL record; the two cases differ only in
effect (nothing changes in the first, the store is deleted from the registry in the
second). Only the empty name has a message of its own. -/
theorem Set_not_exist_twice {V : Type} (cm : CacheManager V) (hlock : cm.clibLock = true)
    (lib key : String) (tb : Option V) (now : Int) (hne : lib ≠ "") :
    (cm.clibs.lookup lib = none → cm.Set lib key tb now = .ok (some "lib not exist", cm)) ∧
    (∀ tm, cm.clibs.lookup lib = some tm → cm.libexp.lookup lib = none →
      cm.Set lib key tb now =
        .ok (some "lib not exist", { cm with clibs := cm.clibs.delete lib }) ∧
      (cm.clibs.delete lib).lookup lib = none) ∧
    cm.Set "" key tb now = .ok (some "lib is empty", cm) := by
  cases cm with
  | mk le cl lk =>
    simp only at hlock
    subst hlock
    refine ⟨?_, ?_, ?_⟩
    · intro h
      cases cl with
      | none => simp [CacheManager.Set, GoMap.lookup, length_eq_zero_iff, hne]
      | some libs =>
        have h2 : libs lib = none := by simpa [GoMap.lookup] using h
        simp [CacheManager.Set, GoMap.lookup, length_eq_zero_iff, hne, h2]
    · intro tm hs ht
      cases cl with
      | none => simp [GoMap.lookup] at hs
      | some libs =>
        have h2 : libs lib = some tm := by simpa [GoMap.lookup] using hs
        constructor
        · simp [CacheManager.Set, length_eq_zero_iff, hne, ht, show
            GoMap.lookup (some libs) lib = some tm from hs]
        · simp [GoMap.lookup, GoMap.delete]
    · simp [CacheManager.Set]

/-- Witness of C11 as amended: `ghost` and `orphan` in the sample state. -/
theorem Set_not_exist_twice_witness :
    orphanCm.clibLock = true ∧ ("ghost" : String) ≠ "" ∧ ("orphan" : String) ≠ "" ∧
    orphanCm.clibs.lookup "ghost" = none ∧
    orphanCm.clibs.lookup "orphan" = some TokenManager.zero.Init ∧
    orphanCm.libexp.lookup "orphan" = none ∧
    orphanCm.Set "ghost" "k" (some "v") 0 = .ok (some "lib not exist", orphanCm) ∧
    (orphanCm.Set "orphan" "k" (some "v") 0 =
        .ok (some "lib not exist",
          { orphanCm with clibs := orphanCm.clibs.delete "orphan" }) ∧
      (orphanCm.clibs.delete "orphan").lookup "orphan" = none) :=
  ⟨rfl, by decide, by decide, rfl, rfl, rfl,
    (Set_not_exist_twice orphanCm rfl "ghost" "k" (some "v") 0 (by decide)).1 rfl,
    (Set_not_exist_twice orphanCm rfl "orphan" "k" (some "v") 0 (by decide)).2.1
      TokenManager.zero.Init rfl rfl⟩

/-- C12: once `RegLib(name, t)` has returned nil on an initialized manager, every later
sequence of events (Init, RegLib, Set, Get, Keys, Clear, sweep ticks) runs without panic
and leaves `name` registered: its store is still the one created at registration, changed
only by the events addressed to `name`, its default TTL is still `t`, and a further RegLib
of `name` is refused without effect. -/
theorem registry_monotone {V : Type} (cm cm1 : CacheManager V) (h : Reachable cm)
    (name : String) (t : Int) (hreg : cm.RegLib name t = .ok (none, cm1))
    (ops : List (Op V)) :
    ∃ cm2, run ops cm1 = .ok cm2 ∧ Registered cm2 name ∧
      cm2.clibs.lookup name = some (storeTrace name t ops TokenManager.zero.Init) ∧
      cm2.libexp.lookup name = some t ∧
      ∀ t2, ∃ msg, cm2.RegLib name t2 = .ok (some msg, cm2) := by
  obtain ⟨hc1, -, hs1, ht1⟩ := RegLib_success h.consistent hreg
  obtain ⟨cm2, hrun⟩ := run_ok ops hc1
  obtain ⟨hs2, ht2⟩ := run_tracks ops hc1 hs1 ht1 hrun
  have hc2 := consistent_run ops hc1 hrun
  refine ⟨cm2, hrun, by simp [Registered, hs2], hs2, ht2, ?_⟩
  intro t2
  obtain ⟨exps, libs, rfl, hdom, hemp⟩ := hc2.alloc
  have hs' : libs name = some (storeTrace name t ops TokenManager.zero.Init) := by
    simpa [GoMap.lookup] using hs2
  have h1 : name ≠ "" := by
    rintro rfl
    simp [hemp] at hs'
  exact ⟨"lib is exist", by simp [RegLib_alloc, h1, hs']⟩

/-- Witness of C12: `sessions` registered with TTL 5 on a fresh manager, followed by
`mixedOps`, which tries to register it again with TTL 77. -/
theorem registry_monotone_witness :
    Reachable (after ([] : List (Op String))) ∧
    (after ([] : List (Op String))).RegLib "sessions" 5 = .ok (none, after sessionsOps) ∧
    ∃ cm2, run mixedOps (after sessionsOps) = .ok cm2 ∧ Registered cm2 "sessions" ∧
      cm2.clibs.lookup "sessions" =
        some (storeTrace "sessions" 5 mixedOps TokenManager.zero.Init) ∧
      cm2.libexp.lookup "sessions" = some 5 ∧
      ∀ t2, ∃ msg, cm2.RegLib "sessions" t2 = .ok (some msg, cm2) :=
  ⟨⟨[], rfl⟩, rfl,
    registry_monotone (after []) (after sessionsOps) ⟨[], rfl⟩ "sessions" 5 rfl mixedOps⟩

/-- C13: on an initialized manager with distinct registered libraries `A` and `B`, neither
`Set(A, k, v)` nor `Clear(A)` changes `Keys(B)`, `Get(B, k2)` for any key, or the default
TTL of `B`; and the same key can hold different values in `A` and `B`. -/
theorem library_isolation {V : Type} (cm : CacheManager V) (h : Reachable cm)
    (A B : String) (hAB : A ≠ B) (hA : Registered cm A) (hB : Registered cm B) :
    (∀ k v now, ∃ cm1, cm.Set A k v now = .ok (none, cm1) ∧
      cm1.Keys B = cm.Keys B ∧ (∀ k2, cm1.Get B k2 = cm.Get B k2) ∧
      cm1.libexp.lookup B = cm.libexp.lookup B ∧
      cm1.clibs.lookup B = cm.clibs.lookup B) ∧
    (∃ cm1, cm.Clear A = .ok cm1 ∧
      cm1.Keys B = cm.Keys B ∧ (∀ k2, cm1.Get B k2 = cm.Get B k2) ∧
      cm1.libexp.lookup B = cm.libexp.lookup B ∧
      cm1.clibs.lookup B = cm.clibs.lookup B) ∧
    (∀ k v1 v2 now1 now2, ∃ cm1 cm2, cm.Set A k v1 now1 = .ok (none, cm1) ∧
      cm1.Set B k v2 now2 = .ok (none, cm2) ∧
      cm2.Get A k = .ok (v1, true) ∧ cm2.Get B k = .ok (v2, true)) := by
  obtain ⟨exps, libs, rfl, hdom, hemp⟩ := h.consistent.alloc
  have hA2 : (libs A).isSome = true := by simpa [Registered, GoMap.lookup] using hA
  have hB2 : (libs B).isSome = true := by simpa [Registered, GoMap.lookup] using hB
  have hA1 : A ≠ "" := by
    rintro rfl
    simp [hemp] at hA2
  have hB1 : B ≠ "" := by
    rintro rfl
    simp [hemp] at hB2
  obtain ⟨tmA, hA3⟩ := Option.isSome_iff_exists.mp hA2
  obtain ⟨lxA, hA4⟩ := Option.isSome_iff_exists.mp ((hdom A) ▸ hA2)
  obtain ⟨tmB, hB3⟩ := Option.isSome_iff_exists.mp hB2
  obtain ⟨lxB, hB4⟩ := Option.isSome_iff_exists.mp ((hdom B) ▸ hB2)
  have hBA : B ≠ A := fun e => hAB e.symm
  refine ⟨?_, ?_, ?_⟩
  · intro k v now
    refine ⟨⟨some exps, some (GoMap.store libs A (tmA.PutTokenBody k v lxA now).2), true⟩,
      by simp [Set_alloc, hA1, hA3, hA4], ?_, ?_, rfl, ?_⟩
    · simp [Keys_alloc, GoMap.store, hBA]
    · intro k2
      simp [Get_alloc, GoMap.store, hBA]
    · simp [GoMap.lookup, GoMap.store, hBA]
  · refine ⟨⟨some exps, some (GoMap.store libs A tmA.Clear), true⟩,
      by simp [Clear_alloc, hA3], ?_, ?_, rfl, ?_⟩
    · simp [Keys_alloc, GoMap.store, hBA]
    · intro k2
      simp [Get_alloc, GoMap.store, hBA]
    · simp [GoMap.lookup, GoMap.store, hBA]
  · intro k v1 v2 now1 now2
    refine ⟨⟨some exps, some (GoMap.store libs A (tmA.PutTokenBody k v1 lxA now1).2), true⟩,
      ⟨some exps, some (GoMap.store (GoMap.store libs A (tmA.PutTokenBody k v1 lxA now1).2) B
        (tmB.PutTokenBody k v2 lxB now2).2), true⟩,
      by simp [Set_alloc, hA1, hA3, hA4], ?_, ?_, ?_⟩
    · simp [Set_alloc, hB1, GoMap.store, hBA, hB3, hB4]
    · simp [Get_alloc, GoMap.store, hAB, TokenManager.GetTokenBody,
        TokenManager.PutTokenBody, findEntry_putEntry_self]
    · simp [Get_alloc, GoMap.store, TokenManager.GetTokenBody,
        TokenManager.PutTokenBody, findEntry_putEntry_self]

/-- Witness of C13: libraries `a` and `b` of the sample history, `b` holding `k`. -/
theorem library_isolation_witness :
    Reachable (after twoLibsOps) ∧ ("a" : String) ≠ "b" ∧
    Registered (after twoLibsOps) "a" ∧ Registered (after twoLibsOps) "b" ∧
    (after twoLibsOps).Get "b" "k" = .ok (some "in b", true) ∧
    (∀ k v now, ∃ cm1, (after twoLibsOps).Set "a" k v now = .ok (none, cm1) ∧
      cm1.Keys "b" = (after twoLibsOps).Keys "b" ∧
      (∀ k2, cm1.Get "b" k2 = (after twoLibsOps).Get "b" k2) ∧
      cm1.libexp.lookup "b" = (after twoLibsOps).libexp.lookup "b" ∧
      cm1.clibs.lookup "b" = (after twoLibsOps).clibs.lookup "b") ∧
    (∃ cm1, (after twoLibsOps).Clear "a" = .ok cm1 ∧
      cm1.Keys "b" = (after twoLibsOps).Keys "b" ∧
      (∀ k2, cm1.Get "b" k2 = (after twoLibsOps).Get "b" k2) ∧
      cm1.libexp.lookup "b" = (after twoLibsOps).libexp.lookup "b" ∧
      cm1.clibs.lookup "b" = (after twoLibsOps).clibs.lookup "b") ∧
    (∀ k v1 v2 now1 now2, ∃ cm1 cm2,
      (after twoLibsOps).Set "a" k v1 now1 = .ok (none, cm1) ∧
      cm1.Set "b" k v2 now2 = .ok (none, cm2) ∧
      cm2.Get "a" k = .ok (v1, true) ∧ cm2.Get "b" k = .ok (v2, true)) :=
  ⟨⟨twoLibsOps, rfl⟩, by decide, by decide, by decide, rfl,
    library_isolation (after twoLibsOps) ⟨twoLibsOps, rfl⟩ "a" "b" (by decide) (by decide)
      (by decide)⟩

/-! ## Facts about the token store -/

theorem keys_refreshEntry {V : Type} (k : String) (now : Int) (l : List (String × Entry V)) :
    (refreshEntry k now l).map Prod.fst = l.map Prod.fst := by
  induction l with
  | nil => rfl
  | cons p rest ih =>
    obtain ⟨k0, e0⟩ := p
    by_cases h0 : k0 = k
    · simp [refreshEntry, h0]
    · simp [refreshEntry, h0, ih]

theorem keys_putEntry_of_mem {V : Type} {k : String} (e : Entry V)
    {l : List (String × Entry V)} (h : k ∈ l.map Prod.fst) :
    (putEntry k e l).map Prod.fst = l.map Prod.fst := by
  induction l with
  | nil => simp at h
  | cons p rest ih =>
    obtain ⟨k0, e0⟩ := p
    by_cases h0 : k0 = k
    · simp [putEntry, h0]
    · have h1 : k ∈ rest.map Prod.fst := by
        simp only [List.map_cons, List.mem_cons] at h
        rcases h with h | h
        · exact absurd h.symm h0
        · exact h
      simp [putEntry, h0, ih h1]

theorem keys_putEntry_of_not_mem {V : Type} {k : String} (e : Entry V)
    {l : List (String × Entry V)} (h : k ∉ l.map Prod.fst) :
    (putEntry k e l).map Prod.fst = l.map Prod.fst ++ [k] := by
  induction l with
  | nil => simp [putEntry]
  | cons p rest ih =>
    obtain ⟨k0, e0⟩ := p
    simp only [List.map_cons, List.mem_cons, not_or] at h
    have h0 : ¬ k0 = k := fun e => h.1 e.symm
    simp [putEntry, h0, ih h.2]

theorem findEntry_eq_none_iff {V : Type} (k : String) (l : List (String × Entry V)) :
    findEntry k l = none ↔ k ∉ l.map Prod.fst := by
  induction l with
  | nil => simp [findEntry]
  | cons p rest ih =>
    obtain ⟨k0, e0⟩ := p
    by_cases h0 : k0 = k
    · simp [findEntry, h0]
    · have h1 : ¬ k = k0 := fun e => h0 e.symm
      simp [findEntry, h0, h1, ih]

theorem findEntry_mem {V : Type} {k : String} {e : Entry V} {l : List (String × Entry V)}
    (h : findEntry k l = some e) : (k, e) ∈ l := by
  induction l with
  | nil => simp [findEntry] at h
  | cons p rest ih =>
    obtain ⟨k0, e0⟩ := p
    by_cases h0 : k0 = k
    · simp [findEntry, h0] at h
      simp [h0, h]
    · simp only [findEntry, h0, if_false] at h
      exact List.mem_cons_of_mem _ (ih h)

theorem findEntry_of_mem {V : Type} {k : String} {e : Entry V} {l : List (String × Entry V)}
    (hnd : (l.map Prod.fst).Nodup) (h : (k, e) ∈ l) : findEntry k l = some e := by
  induction l with
  | nil => cases h
  | cons p rest ih =>
    obtain ⟨k0, e0⟩ := p
    simp only [List.map_cons, List.nodup_cons] at hnd
    rcases List.mem_cons.mp h with h | h
    · cases h
      simp [findEntry]
    · have h0 : ¬ k0 = k := by
        rintro rfl
        exact hnd.1 (List.mem_map.mpr ⟨(k0, e), h, rfl⟩)
      simp only [findEntry, h0, if_false]
      exact ih hnd.2 h

theorem findEntry_refreshEntry_ne {V : Type} {k k' : String} (hne : k ≠ k') (now : Int)
    (l : List (String × Entry V)) : findEntry k (refreshEntry k' now l) = findEntry k l := by
  induction l with
  | nil => rfl
  | cons p rest ih =>
    obtain ⟨k0, e0⟩ := p
    by_cases h0 : k0 = k'
    · subst h0
      simp [refreshEntry, findEntry, Ne.symm hne]
    · by_cases h1 : k0 = k
      · subst h1
        simp [refreshEntry, findEntry, h0]
      · simp [refreshEntry, findEntry, h0, h1, ih]

theorem findEntry_refreshEntry_self {V : Type} (k : String) (now : Int)
    (l : List (String × Entry V)) :
    findEntry k (refreshEntry k now l) =
      (findEntry k l).map (fun e => { e with expiresAt := expiry e.ttl now }) := by
  induction l with
  | nil => rfl
  | cons p rest ih =>
    obtain ⟨k0, e0⟩ := p
    by_cases h0 : k0 = k
    · simp [refreshEntry, findEntry, h0]
    · simp [refreshEntry, findEntry, h0, ih]

theorem findEntry_filter_kept {V : Type} {k : String} {e : Entry V}
    (p : String × Entry V → Bool) {l : List (String × Entry V)}
    (h : findEntry k l = some e) (hp : p (k, e) = true) :
    findEntry k (l.filter p) = some e := by
  induction l with
  | nil => simp [findEntry] at h
  | cons q rest ih =>
    obtain ⟨k0, e0⟩ := q
    by_cases h0 : k0 = k
    · subst h0
      simp [findEntry] at h
      subst h
      simp [List.filter, hp, findEntry]
    · simp only [findEntry, h0, if_false] at h
      by_cases hq : p (k0, e0) = true
      · simp [List.filter, hq, findEntry, h0, ih h]
      · simp [List.filter, hq, ih h]

theorem findEntry_filter_dropped {V : Type} {k : String} {e : Entry V}
    (p : String × Entry V → Bool) {l : List (String × Entry V)}
    (hnd : (l.map Prod.fst).Nodup) (h : findEntry k l = some e) (hp : p (k, e) = false) :
    findEntry k (l.filter p) = none := by
  induction l with
  | nil => simp [findEntry] at h
  | cons q rest ih =>
    obtain ⟨k0, e0⟩ := q
    simp only [List.map_cons, List.nodup_cons] at hnd
    by_cases h0 : k0 = k
    · subst h0
      simp [findEntry] at h
      subst h
      have hrest : findEntry k0 rest = none := (findEntry_eq_none_iff k0 rest).mpr hnd.1
      simp [List.filter, hp, findEntry_filter_none p hrest]
    · simp only [findEntry, h0, if_false] at h
      by_cases hq : p (k0, e0) = true
      · simp [List.filter, hq, findEntry, h0, ih hnd.2 h]
      · simp [List.filter, hq, ih hnd.2 h]

theorem WF_init {V : Type} : (TokenManager.zero.Init : TokenManager V).WF := by
  simp [TokenManager.WF, TokenManager.Init, TokenManager.zero]

theorem WF_put {V : Type} {tm : TokenManager V} (h : tm.WF) (k : String) (b : Option V)
    (s n : Int) : (tm.PutTokenBody k b s n).2.WF := by
  unfold TokenManager.WF TokenManager.PutTokenBody
  by_cases hk : k ∈ tm.tokens.map Prod.fst
  · simpa [keys_putEntry_of_mem _ hk] using h
  · simp only [keys_putEntry_of_not_mem _ hk]
    exact List.Nodup.append h (List.nodup_singleton k) (by
      intro a ha hb
      simp only [List.mem_singleton] at hb
      exact hk (hb ▸ ha))

theorem WF_apply {V : Type} {tm : TokenManager V} (h : tm.WF) (op : TOp V) :
    (tm.apply op).WF := by
  cases op with
  | put k b s n => exact WF_put h k b s n
  | get k => exact h
  | refresh k now =>
    simp only [TokenManager.apply, TokenManager.RefreshToken]
    cases hf : findEntry k tm.tokens with
    | none => exact h
    | some e =>
      by_cases he : e.expired now = true
      · simpa [he] using h
      · simp only [he]
        simpa [TokenManager.WF, keys_refreshEntry] using h
  | list => exact h
  | clear => simp [TokenManager.apply, TokenManager.Clear, TokenManager.WF]
  | sweep now =>
    simp only [TokenManager.apply, TokenManager.sweep, TokenManager.WF]
    exact List.Nodup.sublist (List.Sublist.map _ (List.filter_sublist _)) h

theorem WF_runOps {V : Type} (ops : List (TOp V)) {tm : TokenManager V} (h : tm.WF) :
    (tm.runOps ops).WF := by
  induction ops generalizing tm with
  | nil => exact h
  | cons op ops ih => exact ih (WF_apply h op)
/-- An event that is neither a Put nor a Refresh of `k`, nor a Clear, nor a sweep at or
after the deadline, leaves the entry of `k` as it is. -/
theorem apply_keeps {V : Type} {k : String} {e : Entry V} {tm : TokenManager V}
    (h : findEntry k tm.tokens = some e) (op : TOp V)
    (hput : ∀ b s n, op ≠ TOp.put k b s n) (href : ∀ n, op ≠ TOp.refresh k n)
    (hclear : op ≠ TOp.clear) (hsweep : ∀ n, op = TOp.sweep n → e.expired n = false) :
    findEntry k (tm.apply op).tokens = some e := by
  cases op with
  | put k' b s n =>
    have hne : k ≠ k' := by
      rintro rfl
      exact hput b s n rfl
    simp [TokenManager.apply, TokenManager.PutTokenBody, findEntry_putEntry_ne hne, h]
  | get k' => exact h
  | refresh k' now =>
    have hne : k ≠ k' := by
      rintro rfl
      exact href now rfl
    simp only [TokenManager.apply, TokenManager.RefreshToken]
    cases hf : findEntry k' tm.tokens with
    | none => exact h
    | some e' =>
      by_cases he : e'.expired now = true
      · simpa [he] using h
      · simp [he, findEntry_refreshEntry_ne hne, h]
  | list => exact h
  | clear => exact absurd rfl hclear
  | sweep now =>
    have hx := hsweep now rfl
    simp only [TokenManager.apply, TokenManager.sweep]
    refine findEntry_filter_kept _ h ?_
    cases hd : e.expiresAt with
    | none => simp [hd]
    | some t =>
      simp only [Entry.expired, hd, decide_eq_false_iff_not, not_le] at hx
      simp [hd, hx]

/-- A key absent from the store stays absent under every event that is not a Put of it. -/
theorem apply_absent {V : Type} {k : String} {tm : TokenManager V}
    (h : findEntry k tm.tokens = none) (op : TOp V) (hput : ∀ b s n, op ≠ TOp.put k b s n) :
    findEntry k (tm.apply op).tokens = none := by
  cases op with
  | put k' b s n =>
    have hne : k ≠ k' := by
      rintro rfl
      exact hput b s n rfl
    simp [TokenManager.apply, TokenManager.PutTokenBody, findEntry_putEntry_ne hne, h]
  | get k' => exact h
  | refresh k' now =>
    simp only [TokenManager.apply, TokenManager.RefreshToken]
    cases hf : findEntry k' tm.tokens with
    | none => exact h
    | some e' =>
      by_cases he : e'.expired now = true
      · simpa [he] using h
      · have hne : k ≠ k' := by
          rintro rfl
          rw [h] at hf
          cases hf
        simp [he, findEntry_refreshEntry_ne hne, h]
  | list => exact h
  | clear => simp [TokenManager.apply, TokenManager.Clear, findEntry]
  | sweep now =>
    simp only [TokenManager.apply, TokenManager.sweep]
    exact findEntry_filter_none _ h

theorem runOps_absent {V : Type} {k : String} (ops : List (TOp V)) {tm : TokenManager V}
    (h : findEntry k tm.tokens = none) (hput : ∀ b s n, TOp.put k b s n ∉ ops) :
    findEntry k (tm.runOps ops).tokens = none := by
  induction ops generalizing tm with
  | nil => exact h
  | cons op ops ih =>
    refine ih (apply_absent h op ?_) ?_
    · intro b s n e
      exact hput b s n (by simp [e])
    · intro b s n hm
      exact hput b s n (List.mem_cons_of_mem _ hm)

/-- In a store with one entry per key, an entry of `k` that is neither re-set nor refreshed
is, after any event, either still the same or gone. -/
theorem apply_fades {V : Type} {k : String} {e : Entry V} {tm : TokenManager V}
    (hwf : tm.WF) (h : findEntry k tm.tokens = none ∨ findEntry k tm.tokens = some e)
    (op : TOp V) (hput : ∀ b s n, op ≠ TOp.put k b s n) (href : ∀ n, op ≠ TOp.refresh k n) :
    findEntry k (tm.apply op).tokens = none ∨ findEntry k (tm.apply op).tokens = some e := by
  rcases h with h | h
  · exact Or.inl (apply_absent h op hput)
  · cases op with
    | clear => exact Or.inl (by simp [TokenManager.apply, TokenManager.Clear, findEntry])
    | sweep now =>
      by_cases hx : e.expired now = true
      · left
        simp only [TokenManager.apply, TokenManager.sweep]
        refine findEntry_filter_dropped _ hwf h ?_
        cases hd : e.expiresAt with
        | none => simp [Entry.expired, hd] at hx
        | some t =>
          simp only [Entry.expired, hd, decide_eq_true_eq] at hx
          simp [hd, not_lt.mpr hx]
      · exact Or.inr (apply_keeps h _ hput href (by simp)
          (fun n hn => by cases hn; simpa using hx))
    | put k' b s n =>
      exact Or.inr (apply_keeps h _ hput href (by simp) (fun n hn => by cases hn))
    | get k' => exact Or.inr h
    | list => exact Or.inr h
    | refresh k' n =>
      exact Or.inr (apply_keeps h _ hput href (by simp) (fun n hn => by cases hn))

theorem runOps_fades {V : Type} {k : String} {e : Entry V} (ops : List (TOp V))
    {tm : TokenManager V} (hwf : tm.WF)
    (h : findEntry k tm.tokens = none ∨ findEntry k tm.tokens = some e)
    (hput : ∀ b s n, TOp.put k b s n ∉ ops) (href : ∀ n, TOp.refresh k n ∉ ops) :
    findEntry k (tm.runOps ops).tokens = none ∨
      findEntry k (tm.runOps ops).tokens = some e := by
  induction ops generalizing tm with
  | nil => exact h
  | cons op ops ih =>
    refine ih (WF_apply hwf op) (apply_fades hwf h op ?_ ?_) ?_ ?_
    · intro b s n e
      exact hput b s n (by simp [e])
    · intro n e
      exact href n (by simp [e])
    · intro b s n hm
      exact hput b s n (List.mem_cons_of_mem _ hm)
    · intro n hm
      exact href n (List.mem_cons_of_mem _ hm)

/-- A schedule that keeps the entry of `k` alive leaves it in the store, with its value and
TTL, whatever the length of the schedule. -/
theorem keepsAlive_find {V : Type} {k : String} {v : Option V} {t : Int} (ht : 0 ≤ t)
    (ops : List (TOp V)) :
    ∀ (d : Int) (tm : TokenManager V), findEntry k tm.tokens = some ⟨v, t, some d⟩ →
      keepsAlive k t d ops = true →
      ∃ d', findEntry k (tm.runOps ops).tokens = some ⟨v, t, some d'⟩ := by
  induction ops with
  | nil => intro d tm h _; exact ⟨d, h⟩
  | cons op ops ih =>
    intro d tm h hk
    cases op with
    | put k' b s n =>
      simp only [keepsAlive, Bool.and_eq_true, decide_eq_true_eq] at hk
      refine ih d _ (apply_keeps h _ ?_ (by simp) (by simp) (fun n hn => by cases hn)) hk.2
      intro b' s' n' e
      cases e
      exact hk.1 rfl
    | get k' =>
      simp only [keepsAlive] at hk
      exact ih d _ h hk
    | list =>
      simp only [keepsAlive] at hk
      exact ih d _ h hk
    | clear => simp [keepsAlive] at hk
    | sweep s =>
      simp only [keepsAlive, Bool.and_eq_true, decide_eq_true_eq] at hk
      refine ih d _ (apply_keeps h _ (by simp) (by simp) (by simp) ?_) hk.2
      intro n hn
      cases hn
      simp [Entry.expired, not_le.mpr hk.1]
    | refresh k' r =>
      by_cases h0 : k' = k
      · subst h0
        simp only [keepsAlive, if_true, Bool.and_eq_true, decide_eq_true_eq] at hk
        refine ih (r + t) _ ?_ hk.2
        have hx : (⟨v, t, some d⟩ : Entry V).expired r = false := by
          simp [Entry.expired, not_le.mpr hk.1]
        simp [TokenManager.apply, TokenManager.RefreshToken, h, hx,
          findEntry_refreshEntry_self, expiry, not_lt.mpr ht]
      · simp only [keepsAlive, h0, if_false] at hk
        refine ih d _ (apply_keeps h _ (by simp) ?_ (by simp) (fun n hn => by cases hn)) hk
        intro n e
        cases e
        exact h0 rfl

/-- An entry that is left alone (not re-set, not refreshed, not cleared) while every sweep
tick comes before its deadline is on a schedule that keeps it alive. -/
theorem keepsAlive_of_untouched {V : Type} {k : String} (t d : Int) (ops : List (TOp V))
    (hput : ∀ b s n, TOp.put k b s n ∉ ops) (href : ∀ n, TOp.refresh k n ∉ ops)
    (hclear : TOp.clear ∉ ops) (hsweep : ∀ n, TOp.sweep n ∈ ops → n < d) :
    keepsAlive k t d ops = true := by
  induction ops with
  | nil => rfl
  | cons op ops ih =>
    have ih' := ih (fun b s n hm => hput b s n (List.mem_cons_of_mem _ hm))
      (fun n hm => href n (List.mem_cons_of_mem _ hm))
      (fun hm => hclear (List.mem_cons_of_mem _ hm))
      (fun n hm => hsweep n (List.mem_cons_of_mem _ hm))
    cases op with
    | put k' b s n =>
      have hne : k' ≠ k := by
        rintro rfl
        exact hput b s n (by simp)
      simp [keepsAlive, hne, ih']
    | get k' => simpa [keepsAlive] using ih'
    | list => simpa [keepsAlive] using ih'
    | clear => exact absurd (by simp) hclear
    | sweep s => simp [keepsAlive, hsweep s (by simp), ih']
    | refresh k' r =>
      have hne : k' ≠ k := by
        rintro rfl
        exact href r (by simp)
      simp [keepsAlive, hne, ih']

/-- An entry that never expires stays in the store under every history without a Put of its
key and without Clear: sweeps and refreshes do not touch it. -/
theorem runOps_never {V : Type} {k : String} {v : Option V} {t : Int} (ht : t < 0)
    (ops : List (TOp V)) {tm : TokenManager V}
    (h : findEntry k tm.tokens = some ⟨v, t, none⟩)
    (hput : ∀ b s n, TOp.put k b s n ∉ ops) (hclear : TOp.clear ∉ ops) :
    findEntry k (tm.runOps ops).tokens = some ⟨v, t, none⟩ := by
  induction ops generalizing tm with
  | nil => exact h
  | cons op ops ih =>
    have hput' : ∀ b s n, TOp.put k b s n ∉ ops :=
      fun b s n hm => hput b s n (List.mem_cons_of_mem _ hm)
    have hclear' : TOp.clear ∉ ops := fun hm => hclear (List.mem_cons_of_mem _ hm)
    refine ih ?_ hput' hclear'
    by_cases hr : ∃ n, op = TOp.refresh k n
    · obtain ⟨n, rfl⟩ := hr
      simp [TokenManager.apply, TokenManager.RefreshToken, h, Entry.expired,
        findEntry_refreshEntry_self, expiry, ht]
    · refine apply_keeps h op ?_ ?_ ?_ ?_
      · intro b s n e
        exact hput b s n (by simp [e])
      · intro n e
        exact hr ⟨n, e⟩
      · intro e
        exact hclear (by simp [e])
      · intro n _
        simp [Entry.expired]

/-- The store of a library after manager events is the store after the store events they
amount to. -/
theorem storeTrace_eq_runOps {V : Type} (lib : String) (ttl : Int) (ops : List (Op V))
    (tm : TokenManager V) :
    storeTrace lib ttl ops tm = tm.runOps (storeOps lib ttl ops) := by
  induction ops generalizing tm with
  | nil => rfl
  | cons op ops ih =>
    cases op with
    | set l key tb now =>
      by_cases h0 : l = lib
      · simp [storeTrace, storeStep, storeOps, h0, TokenManager.runOps, TokenManager.apply, ih]
      · simp [storeTrace, storeStep, storeOps, h0, ih]
    | clear l =>
      by_cases h0 : l = lib
      · simp [storeTrace, storeStep, storeOps, h0, TokenManager.runOps, TokenManager.apply, ih]
      · simp [storeTrace, storeStep, storeOps, h0, ih]
    | tick l now =>
      by_cases h0 : l = lib
      · simp [storeTrace, storeStep, storeOps, h0, TokenManager.runOps, TokenManager.apply, ih]
      · simp [storeTrace, storeStep, storeOps, h0, ih]
    | init => simp [storeTrace, storeStep, storeOps, ih]
    | regLib l s => simp [storeTrace, storeStep, storeOps, ih]
    | get l key => simp [storeTrace, storeStep, storeOps, ih]
    | keys l => simp [storeTrace, storeStep, storeOps, ih]

theorem storeOps_put {V : Type} {lib : String} {ttl : Int} {ops : List (Op V)} {k : String}
    {b : Option V} {s n : Int} (h : TOp.put k b s n ∈ storeOps lib ttl ops) :
    Op.set lib k b n ∈ ops := by
  induction ops with
  | nil => simp [storeOps] at h
  | cons op ops ih =>
    cases op with
    | set l key tb now =>
      by_cases h0 : l = lib
      · simp only [storeOps, h0, if_true, List.mem_cons] at h
        rcases h with h | h
        · cases h
          simp [h0]
        · exact List.mem_cons_of_mem _ (ih h)
      · simp only [storeOps, h0, if_false] at h
        exact List.mem_cons_of_mem _ (ih h)
    | clear l =>
      by_cases h0 : l = lib
      · simp only [storeOps, h0, if_true, List.mem_cons] at h
        rcases h with h | h
        · cases h
        · exact List.mem_cons_of_mem _ (ih h)
      · simp only [storeOps, h0, if_false] at h
        exact List.mem_cons_of_mem _ (ih h)
    | tick l now =>
      by_cases h0 : l = lib
      · simp only [storeOps, h0, if_true, List.mem_cons] at h
        rcases h with h | h
        · cases h
        · exact List.mem_cons_of_mem _ (ih h)
      · simp only [storeOps, h0, if_false] at h
        exact List.mem_cons_of_mem _ (ih h)
    | init => exact List.mem_cons_of_mem _ (ih (by simpa [storeOps] using h))
    | regLib l s => exact List.mem_cons_of_mem _ (ih (by simpa [storeOps] using h))
    | get l key => exact List.mem_cons_of_mem _ (ih (by simpa [storeOps] using h))
    | keys l => exact List.mem_cons_of_mem _ (ih (by simpa [storeOps] using h))

theorem storeOps_clear {V : Type} {lib : String} {ttl : Int} {ops : List (Op V)}
    (h : TOp.clear ∈ storeOps lib ttl ops) : Op.clear lib ∈ ops := by
  induction ops with
  | nil => simp [storeOps] at h
  | cons op ops ih =>
    cases op with
    | set l key tb now =>
      by_cases h0 : l = lib
      · simp only [storeOps, h0, if_true, List.mem_cons] at h
        rcases h with h | h
        · cases h
        · exact List.mem_cons_of_mem _ (ih h)
      · simp only [storeOps, h0, if_false] at h
        exact List.mem_cons_of_mem _ (ih h)
    | clear l =>
      by_cases h0 : l = lib
      · simp [h0]
      · simp only [storeOps, h0, if_false] at h
        exact List.mem_cons_of_mem _ (ih h)
    | tick l now =>
      by_cases h0 : l = lib
      · simp only [storeOps, h0, if_true, List.mem_cons] at h
        rcases h with h | h
        · cases h
        · exact List.mem_cons_of_mem _ (ih h)
      · simp only [storeOps, h0, if_false] at h
        exact List.mem_cons_of_mem _ (ih h)
    | init => exact List.mem_cons_of_mem _ (ih (by simpa [storeOps] using h))
    | regLib l s => exact List.mem_cons_of_mem _ (ih (by simpa [storeOps] using h))
    | get l key => exact List.mem_cons_of_mem _ (ih (by simpa [storeOps] using h))
    | keys l => exact List.mem_cons_of_mem _ (ih (by simpa [storeOps] using h))

theorem storeOps_sweep {V : Type} {lib : String} {ttl : Int} {ops : List (Op V)} {n : Int}
    (h : TOp.sweep n ∈ storeOps lib ttl ops) : Op.tick lib n ∈ ops := by
  induction ops with
  | nil => simp [storeOps] at h
  | cons op ops ih =>
    cases op with
    | set l key tb now =>
      by_cases h0 : l = lib
      · simp only [storeOps, h0, if_true, List.mem_cons] at h
        rcases h with h | h
        · cases h
        · exact List.mem_cons_of_mem _ (ih h)
      · simp only [storeOps, h0, if_false] at h
        exact List.mem_cons_of_mem _ (ih h)
    | clear l =>
      by_cases h0 : l = lib
      · simp only [storeOps, h0, if_true, List.mem_cons] at h
        rcases h with h | h
        · cases h
        · exact List.mem_cons_of_mem _ (ih h)
      · simp only [storeOps, h0, if_false] at h
        exact List.mem_cons_of_mem _ (ih h)
    | tick l now =>
      by_cases h0 : l = lib
      · simp only [storeOps, h0, if_true, List.mem_cons] at h
        rcases h with h | h
        · cases h
          simp [h0]
        · exact List.mem_cons_of_mem _ (ih h)
      · simp only [storeOps, h0, if_false] at h
        exact List.mem_cons_of_mem _ (ih h)
    | init => exact List.mem_cons_of_mem _ (ih (by simpa [storeOps] using h))
    | regLib l s => exact List.mem_cons_of_mem _ (ih (by simpa [storeOps] using h))
    | get l key => exact List.mem_cons_of_mem _ (ih (by simpa [storeOps] using h))
    | keys l => exact List.mem_cons_of_mem _ (ih (by simpa [storeOps] using h))

theorem storeOps_no_refresh {V : Type} (lib : String) (ttl : Int) (ops : List (Op V))
    (k : String) (n : Int) : TOp.refresh k n ∉ storeOps lib ttl ops := by
  induction ops with
  | nil => simp [storeOps]
  | cons op ops ih =>
    cases op with
    | set l key tb now =>
      by_cases h0 : l = lib
      · simp [storeOps, h0, ih]
      · simpa [storeOps, h0] using ih
    | clear l =>
      by_cases h0 : l = lib
      · simp [storeOps, h0, ih]
      · simpa [storeOps, h0] using ih
    | tick l now =>
      by_cases h0 : l = lib
      · simp [storeOps, h0, ih]
      · simpa [storeOps, h0] using ih
    | init => simpa [storeOps] using ih
    | regLib l s => simpa [storeOps] using ih
    | get l key => simpa [storeOps] using ih
    | keys l => simpa [storeOps] using ih
theorem runOps_append {V : Type} (tm : TokenManager V) (xs ys : List (TOp V)) :
    tm.runOps (xs ++ ys) = (tm.runOps xs).runOps ys := by
  induction xs generalizing tm with
  | nil => rfl
  | cons x xs ih => simp [TokenManager.runOps, ih]

theorem storeOps_append {V : Type} (lib : String) (ttl : Int) (xs ys : List (Op V)) :
    storeOps lib ttl (xs ++ ys) = storeOps lib ttl xs ++ storeOps lib ttl ys := by
  induction xs with
  | nil => rfl
  | cons x xs ih =>
    cases x with
    | set l key tb now =>
      by_cases h0 : l = lib <;> simp [storeOps, h0, ih]
    | clear l =>
      by_cases h0 : l = lib <;> simp [storeOps, h0, ih]
    | tick l now =>
      by_cases h0 : l = lib <;> simp [storeOps, h0, ih]
    | init => simp [storeOps, ih]
    | regLib l s => simp [storeOps, ih]
    | get l key => simp [storeOps, ih]
    | keys l => simp [storeOps, ih]

/-- An entry put with a finite TTL and then left alone is found as long as every sweep
tick comes before `now0 + t`. -/
theorem put_then_alive {V : Type} (tm0 : TokenManager V) (k : String) (v : Option V)
    (t now0 : Int) (ht : 0 ≤ t) (ops : List (TOp V))
    (hput : ∀ b s n, TOp.put k b s n ∉ ops) (href : ∀ n, TOp.refresh k n ∉ ops)
    (hclear : TOp.clear ∉ ops) (hsweep : ∀ n, TOp.sweep n ∈ ops → n < now0 + t) :
    ((tm0.PutTokenBody k v t now0).2.runOps ops).GetTokenBody k = (v, true) := by
  have h0 : findEntry k (tm0.PutTokenBody k v t now0).2.tokens = some ⟨v, t, some (now0 + t)⟩ := by
    simp [TokenManager.PutTokenBody, findEntry_putEntry_self, expiry, not_lt.mpr ht]
  obtain ⟨d', hd⟩ := keepsAlive_find ht ops (now0 + t) _ h0
    (keepsAlive_of_untouched t (now0 + t) ops hput href hclear hsweep)
  simp [TokenManager.GetTokenBody, hd]

/-- An entry put with a finite TTL and neither re-set nor refreshed is gone after a sweep
tick at or after `now0 + t`, and stays gone until its key is put again. -/
theorem put_then_gone {V : Type} (tm0 : TokenManager V) (hwf : tm0.WF) (k : String)
    (v : Option V) (t now0 : Int) (ht : 0 ≤ t) (ops1 ops2 : List (TOp V)) (now1 : Int)
    (hput1 : ∀ b s n, TOp.put k b s n ∉ ops1) (href1 : ∀ n, TOp.refresh k n ∉ ops1)
    (hnow : now0 + t ≤ now1) (hput2 : ∀ b s n, TOp.put k b s n ∉ ops2) :
    ((((tm0.PutTokenBody k v t now0).2.runOps ops1).sweep now1).runOps ops2).GetTokenBody k =
      (none, false) := by
  have h0 : findEntry k (tm0.PutTokenBody k v t now0).2.tokens = some ⟨v, t, some (now0 + t)⟩ := by
    simp [TokenManager.PutTokenBody, findEntry_putEntry_self, expiry, not_lt.mpr ht]
  have hwf1 := WF_put hwf k v t now0
  have hwf2 := WF_runOps ops1 hwf1
  have h2 := runOps_fades ops1 hwf1 (Or.inr h0) hput1 href1
  have h3 : findEntry k (((tm0.PutTokenBody k v t now0).2.runOps ops1).sweep now1).tokens
      = none := by
    rcases h2 with h2 | h2
    · simp only [TokenManager.sweep]
      exact findEntry_filter_none _ h2
    · simp only [TokenManager.sweep]
      refine findEntry_filter_dropped _ hwf2 h2 ?_
      simp [not_lt.mpr hnow]
  have h4 := runOps_absent ops2 h3 hput2
  simp [TokenManager.GetTokenBody, h4]

/-! ## Expiry, sweep, listing, clearing, refreshing -/

/-- C14 fails as stated: `u1` is stored with TTL 5 at clock reading 100 and is neither
refreshed nor set again, but the store (the library) is cleared; at 102, less than 5
seconds after insertion, Get reports not-found, in the store and through the manager. -/
theorem expiry_cleared_counterexample :
    (∀ b s n, TOp.put "u1" b s n ∉ [(TOp.clear : TOp String), TOp.sweep 102]) ∧
    (∀ n, TOp.refresh "u1" n ∉ [(TOp.clear : TOp String), TOp.sweep 102]) ∧
    (∀ n, TOp.sweep n ∈ [(TOp.clear : TOp String), TOp.sweep 102] → n < 100 + 5) ∧
    (TokenManager.zero.Init.PutTokenBody "u1" (some "Alice") 5 100).2.GetTokenBody "u1" =
      (some "Alice", true) ∧
    ((TokenManager.zero.Init.PutTokenBody "u1" (some "Alice") 5 100).2.runOps
      [TOp.clear, TOp.sweep 102]).GetTokenBody "u1" = (none, false) ∧
    (∀ b n, Op.set "sessions" "u1" b n ∉ clearedOps.tail) ∧
    (after (sessionsOps ++ clearedOps.take 1)).Get "sessions" "u1" =
      .ok (some "Alice", true) ∧
    (after (sessionsOps ++ clearedOps)).Get "sessions" "u1" = .ok (none, false) := by
  refine ⟨?_, ?_, ?_, rfl, rfl, ?_, rfl, rfl⟩
  · intro b s n hm
    simp at hm
  · intro n hm
    simp at hm
  · intro n hm
    simp at hm
    omega
  · intro b n hm
    simp [clearedOps] at hm

/-- C14 as the store has it: an entry stored at clock reading `now0` with a finite TTL `t`
(by PutTokenBody, by AskToken, or by Set in a library registered with TTL `t`) and then
left alone (not re-set, not refreshed, not cleared) is found by Get as long as every sweep
tick so far came before `now0 + t`; and once a sweep tick has come at or after `now0 + t`,
Get reports not-found from then on, until the key is set again. -/
theorem expiry_by_time {V : Type} (v : Option V) (t now0 : Int) (ht : 0 ≤ t) :
    (∀ (ops0 ops1 : List (TOp V)) (k : String),
      (∀ b s n, TOp.put k b s n ∉ ops1) → (∀ n, TOp.refresh k n ∉ ops1) →
      TOp.clear ∉ ops1 → (∀ n, TOp.sweep n ∈ ops1 → n < now0 + t) →
      (((TokenManager.zero.Init.runOps ops0).PutTokenBody k v t now0).2.runOps
        ops1).GetTokenBody k = (v, true)) ∧
    (∀ (ops0 ops1 ops2 : List (TOp V)) (k : String) (now1 : Int),
      (∀ b s n, TOp.put k b s n ∉ ops1) → (∀ n, TOp.refresh k n ∉ ops1) →
      now0 + t ≤ now1 → (∀ b s n, TOp.put k b s n ∉ ops2) →
      (((((TokenManager.zero.Init.runOps ops0).PutTokenBody k v t now0).2.runOps
        ops1).sweep now1).runOps ops2).GetTokenBody k = (none, false)) ∧
    (∀ (minted : String) (ops0 ops1 : List (TOp V)) (tok : String) (tm : TokenManager V),
      (TokenManager.zero.Init.runOps ops0).AskToken minted v t now0 = (tok, tm) →
      (∀ b s n, TOp.put tok b s n ∉ ops1) → (∀ n, TOp.refresh tok n ∉ ops1) →
      TOp.clear ∉ ops1 → (∀ n, TOp.sweep n ∈ ops1 → n < now0 + t) →
      (tm.runOps ops1).GetTokenBody tok = (v, true)) ∧
    (∀ (minted : String) (ops0 ops1 ops2 : List (TOp V)) (tok : String)
      (tm : TokenManager V) (now1 : Int),
      (TokenManager.zero.Init.runOps ops0).AskToken minted v t now0 = (tok, tm) →
      (∀ b s n, TOp.put tok b s n ∉ ops1) → (∀ n, TOp.refresh tok n ∉ ops1) →
      now0 + t ≤ now1 → (∀ b s n, TOp.put tok b s n ∉ ops2) →
      (((tm.runOps ops1).sweep now1).runOps ops2).GetTokenBody tok = (none, false)) ∧
    (∀ (cm cm1 cm2 : CacheManager V) (lib k : String) (opsA opsB : List (Op V)),
      Reachable cm → cm.RegLib lib t = .ok (none, cm1) →
      run (opsA ++ Op.set lib k v now0 :: opsB) cm1 = .ok cm2 →
      (∀ b n, Op.set lib k b n ∉ opsB) → Op.clear lib ∉ opsB →
      (∀ n, Op.tick lib n ∈ opsB → n < now0 + t) →
      cm2.Get lib k = .ok (v, true)) ∧
    (∀ (cm cm1 cm2 : CacheManager V) (lib k : String) (opsA opsB opsC : List (Op V))
      (now1 : Int),
      Reachable cm → cm.RegLib lib t = .ok (none, cm1) →
      run (opsA ++ Op.set lib k v now0 :: (opsB ++ Op.tick lib now1 :: opsC)) cm1 = .ok cm2 →
      (∀ b n, Op.set lib k b n ∉ opsB) → now0 + t ≤ now1 →
      (∀ b n, Op.set lib k b n ∉ opsC) →
      cm2.Get lib k = .ok (none, false)) := by
  refine ⟨?_, ?_, ?_, ?_, ?_, ?_⟩
  · intro ops0 ops1 k hput href hclear hsweep
    exact put_then_alive _ k v t now0 ht ops1 hput href hclear hsweep
  · intro ops0 ops1 ops2 k now1 hput1 href1 hnow hput2
    exact put_then_gone _ (WF_runOps ops0 WF_init) k v t now0 ht ops1 ops2 now1 hput1 href1
      hnow hput2
  · intro minted ops0 ops1 tok tm hask hput href hclear hsweep
    simp only [TokenManager.AskToken, TokenManager.PutTokenBody, Prod.mk.injEq] at hask
    obtain ⟨rfl, rfl⟩ := hask
    exact put_then_alive (TokenManager.zero.Init.runOps ops0) _ v t now0 ht ops1 hput href
      hclear hsweep
  · intro minted ops0 ops1 ops2 tok tm now1 hask hput1 href1 hnow hput2
    simp only [TokenManager.AskToken, TokenManager.PutTokenBody, Prod.mk.injEq] at hask
    obtain ⟨rfl, rfl⟩ := hask
    exact put_then_gone (TokenManager.zero.Init.runOps ops0) (WF_runOps ops0 WF_init) _ v t
      now0 ht ops1 ops2 now1 hput1 href1 hnow hput2
  · intro cm cm1 cm2 lib k opsA opsB hreach hreg hrun hset hclear htick
    obtain ⟨hc1, -, hs1, ht1⟩ := RegLib_success hreach.consistent hreg
    obtain ⟨hs2, -⟩ := run_tracks _ hc1 hs1 ht1 hrun
    rw [Get_registered (consistent_run _ hc1 hrun) hs2, storeTrace_eq_runOps,
      storeOps_append, runOps_append]
    simp only [storeOps, if_true, TokenManager.runOps, TokenManager.apply]
    rw [put_then_alive _ k v t now0 ht (storeOps lib t opsB)
      (fun b s n hm => hset b n (storeOps_put hm))
      (fun n => storeOps_no_refresh lib t opsB k n)
      (fun hm => hclear (storeOps_clear hm))
      (fun n hm => htick n (storeOps_sweep hm))]
  · intro cm cm1 cm2 lib k opsA opsB opsC now1 hreach hreg hrun hsetB hnow hsetC
    obtain ⟨hc1, -, hs1, ht1⟩ := RegLib_success hreach.consistent hreg
    obtain ⟨hs2, -⟩ := run_tracks _ hc1 hs1 ht1 hrun
    rw [Get_registered (consistent_run _ hc1 hrun) hs2, storeTrace_eq_runOps,
      storeOps_append, runOps_append]
    simp only [storeOps, if_true, TokenManager.runOps, TokenManager.apply]
    rw [storeOps_append, runOps_append]
    simp only [storeOps, if_true, TokenManager.runOps, TokenManager.apply]
    rw [put_then_gone _ (WF_runOps _ WF_init) k v t now0 ht (storeOps lib t opsB)
      (storeOps lib t opsC) now1
      (fun b s n hm => hsetB b n (storeOps_put hm))
      (fun n => storeOps_no_refresh lib t opsB k n) hnow
      (fun b s n hm => hsetC b n (storeOps_put hm))]
/-- Witness of C14 as amended: TTL 5 and insertion at clock reading 100, with sweep ticks
at 104 and at 105, in a store (by Put and by AskToken) and in the library `sessions`. -/
theorem expiry_by_time_witness :
    (0 : Int) ≤ 5 ∧
    ((TokenManager.zero.Init.PutTokenBody "u1" (some "Alice") 5 100).2.runOps
      [TOp.sweep 104, TOp.get "u1"]).GetTokenBody "u1" = (some "Alice", true) ∧
    ((((TokenManager.zero.Init.PutTokenBody "u1" (some "Alice") 5 100).2.runOps
      [TOp.sweep 104]).sweep 105).runOps [TOp.get "u1"]).GetTokenBody "u1" = (none, false) ∧
    (TokenManager.zero.Init.AskToken "t" (some "Alice") 5 100).1 = "t" ∧
    ((TokenManager.zero.Init.AskToken "t" (some "Alice") 5 100).2.runOps
      [TOp.sweep 104]).GetTokenBody "t" = (some "Alice", true) ∧
    ((((TokenManager.zero.Init.AskToken "t" (some "Alice") 5 100).2.runOps
      [TOp.sweep 104]).sweep 105).runOps []).GetTokenBody "t" = (none, false) ∧
    (after (sessionsOps ++ aliveOps)).Get "sessions" "u1" = .ok (some "Alice", true) ∧
    (after (sessionsOps ++ goneOps)).Get "sessions" "u1" = .ok (none, false) :=
  ⟨by decide,
    (expiry_by_time (some "Alice") 5 100 (by decide)).1 [] [TOp.sweep 104, TOp.get "u1"] "u1"
      (by intro b s n hm; simp at hm) (by intro n hm; simp at hm) (by simp)
      (by intro n hm; simp at hm; omega),
    (expiry_by_time (some "Alice") 5 100 (by decide)).2.1 [] [TOp.sweep 104] [TOp.get "u1"]
      "u1" 105 (by intro b s n hm; simp at hm) (by intro n hm; simp at hm) (by decide)
      (by intro b s n hm; simp at hm),
    rfl,
    (expiry_by_time (some "Alice") 5 100 (by decide)).2.2.1 "t" [] [TOp.sweep 104] "t"
      (TokenManager.zero.Init.AskToken "t" (some "Alice") 5 100).2 (by rfl)
      (by intro b s n hm; simp at hm) (by intro n hm; simp at hm) (by simp)
      (by intro n hm; simp at hm; omega),
    (expiry_by_time (some "Alice") 5 100 (by decide)).2.2.2.1 "t" [] [TOp.sweep 104] []
      "t" (TokenManager.zero.Init.AskToken "t" (some "Alice") 5 100).2 105 (by rfl)
      (by intro b s n hm; simp at hm) (by intro n hm; simp at hm) (by decide)
      (by intro b s n hm; simp at hm),
    (expiry_by_time (some "Alice") 5 100 (by decide)).2.2.2.2.1 (after [])
      (after sessionsOps) (after (sessionsOps ++ aliveOps)) "sessions" "u1" []
      [Op.tick "sessions" 104] ⟨[], rfl⟩ (by rfl) (by rfl)
      (by intro b n hm; simp at hm) (by simp)
      (by intro n hm; simp at hm; omega),
    (expiry_by_time (some "Alice") 5 100 (by decide)).2.2.2.2.2 (after [])
      (after sessionsOps) (after (sessionsOps ++ goneOps)) "sessions" "u1" []
      [Op.tick "sessions" 104] [] 105 ⟨[], rfl⟩ (by rfl) (by rfl)
      (by intro b n hm; simp at hm) (by decide) (by intro b n hm; simp at hm)⟩

/-- C15: one sweep tick at `now` removes exactly the entries whose expiry is finite and
`<= now`: the entries left are the others, unchanged and in their order. An entry put with
a negative TTL is still found after any sequence of events without a Put of its key and
without Clear (any number of sweep ticks and refreshes included); Clear and Destroy do
remove it. -/
theorem sweep_exact {V : Type} (tm : TokenManager V) (now : Int) :
    (∀ p, p ∈ (tm.sweep now).tokens ↔
      p ∈ tm.tokens ∧ ¬ ∃ t, p.2.expiresAt = some t ∧ t ≤ now) ∧
    List.Sublist (tm.sweep now).tokens tm.tokens ∧
    (tm.WF → ∀ k e, findEntry k tm.tokens = some e →
      ((∃ t, e.expiresAt = some t ∧ t ≤ now) →
        (tm.sweep now).GetTokenBody k = (none, false)) ∧
      ((¬ ∃ t, e.expiresAt = some t ∧ t ≤ now) →
        findEntry k (tm.sweep now).tokens = some e ∧
        (tm.sweep now).GetTokenBody k = (e.value, true))) ∧
    (∀ k, findEntry k tm.tokens = none → findEntry k (tm.sweep now).tokens = none) ∧
    (∀ k v t now0 (ops : List (TOp V)), t < 0 →
      (∀ b s n, TOp.put k b s n ∉ ops) → TOp.clear ∉ ops →
      ((tm.PutTokenBody k v t now0).2.runOps ops).GetTokenBody k = (v, true)) ∧
    (∀ k, tm.Clear.GetTokenBody k = (none, false) ∧
      tm.Destroy.GetTokenBody k = (none, false)) := by
  refine ⟨?_, ?_, ?_, ?_, ?_, ?_⟩
  · intro p
    simp only [TokenManager.sweep, List.mem_filter, and_congr_right_iff]
    intro _
    cases hd : p.2.expiresAt with
    | none => simp
    | some t => simp
  · exact List.filter_sublist _
  · intro hwf k e hf
    constructor
    · rintro ⟨t, hd, hle⟩
      have h1 : findEntry k (tm.sweep now).tokens = none := by
        simp only [TokenManager.sweep]
        refine findEntry_filter_dropped _ hwf hf ?_
        simp [hd, not_lt.mpr hle]
      simp [TokenManager.GetTokenBody, h1]
    · intro hno
      have h1 : findEntry k (tm.sweep now).tokens = some e := by
        simp only [TokenManager.sweep]
        refine findEntry_filter_kept _ hf ?_
        cases hd : e.expiresAt with
        | none => simp [hd]
        | some t =>
          have : now < t := by
            by_contra hc
            exact hno ⟨t, hd, not_lt.mp hc⟩
          simp [hd, this]
      exact ⟨h1, by simp [TokenManager.GetTokenBody, h1]⟩
  · intro k hf
    simp only [TokenManager.sweep]
    exact findEntry_filter_none _ hf
  · intro k v t now0 ops ht hput hclear
    have h0 : findEntry k (tm.PutTokenBody k v t now0).2.tokens = some ⟨v, t, none⟩ := by
      simp [TokenManager.PutTokenBody, findEntry_putEntry_self, expiry, ht]
    simp [TokenManager.GetTokenBody, runOps_never ht ops h0 hput hclear]
  · intro k
    simp [TokenManager.GetTokenBody, TokenManager.Clear, TokenManager.Destroy, findEntry]

/-- Witness of C15: a sweep at 105 of the store holding `k` (due at 105) and `pin` (never
due); `pin` also survives sweeps and a refresh, and only Clear removes it. -/
theorem sweep_exact_witness :
    pinStore.WF ∧
    (pinStore.sweep 105).tokens = [("pin", ⟨some "w", -1, none⟩)] ∧
    (pinStore.sweep 105).GetTokenBody "k" = (none, false) ∧
    (findEntry "pin" (pinStore.sweep 105).tokens = some ⟨some "w", -1, none⟩ ∧
      (pinStore.sweep 105).GetTokenBody "pin" = (some "w", true)) ∧
    ((dueStore.PutTokenBody "pin" (some "w") (-1) 100).2.runOps
      [TOp.sweep 105, TOp.refresh "pin" 106, TOp.sweep 1000000]).GetTokenBody "pin" =
        (some "w", true) ∧
    pinStore.Clear.GetTokenBody "pin" = (none, false) :=
  ⟨by decide, rfl,
    ((sweep_exact pinStore 105).2.2.1 (by decide) "k" ⟨some "v", 5, some 105⟩ rfl).1
      ⟨105, rfl, by decide⟩,
    ((sweep_exact pinStore 105).2.2.1 (by decide) "pin" ⟨some "w", -1, none⟩ rfl).2
      (by rintro ⟨t, ht, -⟩; cases ht),
    (sweep_exact dueStore 0).2.2.2.2.1 "pin" (some "w") (-1) 100
      [TOp.sweep 105, TOp.refresh "pin" 106, TOp.sweep 1000000] (by decide)
      (by intro b s n hm; simp at hm) (by simp),
    ((sweep_exact pinStore 0).2.2.2.2.2 "pin").1⟩
theorem putAll_keys {V : Type} (puts : List (String × Option V × Int × Int)) :
    ∀ tm : TokenManager V, (tm.tokens.map Prod.fst ++ puts.map Prod.fst).Nodup →
      (putAll tm puts).tokens.map Prod.fst = tm.tokens.map Prod.fst ++ puts.map Prod.fst := by
  induction puts with
  | nil => intro tm _; simp [putAll]
  | cons p rest ih =>
    obtain ⟨k, b, s, n⟩ := p
    intro tm hnd
    have hk : k ∉ tm.tokens.map Prod.fst := by
      intro hm
      have := List.disjoint_of_nodup_append hnd hm
      exact this (by simp)
    have hkeys : (tm.PutTokenBody k b s n).2.tokens.map Prod.fst =
        tm.tokens.map Prod.fst ++ [k] := by
      simp only [TokenManager.PutTokenBody]
      exact keys_putEntry_of_not_mem _ hk
    have hnd' : ((tm.PutTokenBody k b s n).2.tokens.map Prod.fst ++ rest.map Prod.fst).Nodup := by
      rw [hkeys]
      simpa [List.append_assoc] using hnd
    simp only [putAll]
    rw [ih _ hnd', hkeys]
    simp [List.append_assoc]

theorem askAll_eq_putAll {V : Type} (asks : List (String × Option V × Int × Int)) :
    ∀ tm : TokenManager V,
      (askAll tm asks).1 = asks.map Prod.fst ∧ (askAll tm asks).2 = putAll tm asks := by
  induction asks with
  | nil => intro tm; simp [askAll, putAll]
  | cons a rest ih =>
    obtain ⟨k, b, s, n⟩ := a
    intro tm
    obtain ⟨h1, h2⟩ := ih (tm.PutTokenBody k b s n).2
    simp only [askAll, putAll, TokenManager.AskToken, List.map_cons]
    exact ⟨by rw [h1]; rfl, h2⟩

theorem WF_putAll {V : Type} (puts : List (String × Option V × Int × Int)) :
    ∀ tm : TokenManager V, tm.WF → (putAll tm puts).WF := by
  induction puts with
  | nil => intro tm h; exact h
  | cons a rest ih =>
    obtain ⟨k, b, s, n⟩ := a
    intro tm h
    simp only [putAll]
    exact ih _ (WF_put h _ b s n)

theorem mem_keys_putAll {V : Type} (puts : List (String × Option V × Int × Int)) :
    ∀ (tm : TokenManager V) (k : String),
      k ∈ (putAll tm puts).tokens.map Prod.fst ↔
        k ∈ tm.tokens.map Prod.fst ∨ k ∈ puts.map Prod.fst := by
  induction puts with
  | nil => intro tm k; simp [putAll]
  | cons a rest ih =>
    obtain ⟨k0, b, s, n⟩ := a
    intro tm k
    have hstep : k ∈ (tm.PutTokenBody k0 b s n).2.tokens.map Prod.fst ↔
        k ∈ tm.tokens.map Prod.fst ∨ k = k0 := by
      simp only [TokenManager.PutTokenBody]
      by_cases hk : k0 ∈ tm.tokens.map Prod.fst
      · rw [keys_putEntry_of_mem _ hk]
        constructor
        · exact fun h => Or.inl h
        · rintro (h | rfl)
          · exact h
          · exact hk
      · rw [keys_putEntry_of_not_mem _ hk]
        simp
    simp only [putAll]
    rw [ih, hstep]
    simp only [List.map_cons, List.mem_cons]
    tauto

theorem found_of_key {V : Type} {tm : TokenManager V} {k : String}
    (h : k ∈ tm.tokens.map Prod.fst) : (tm.GetTokenBody k).2 = true := by
  cases hf : findEntry k tm.tokens with
  | none => exact absurd h ((findEntry_eq_none_iff k tm.tokens).mp hf)
  | some e => simp [TokenManager.GetTokenBody, hf]

/-- A list without repetition that has the members of `l` is as long as `l` exactly when
`l` has no repetition, and never longer. -/
theorem length_of_same_members {ks l : List String} (hks : ks.Nodup)
    (hmem : ∀ k, k ∈ ks ↔ k ∈ l) :
    ks.length ≤ l.length ∧ (ks.length = l.length ↔ l.Nodup) := by
  have hperm : ks.Perm l.dedup :=
    (List.perm_ext_iff_of_nodup hks (List.nodup_dedup l)).mpr
      (fun k => by rw [hmem k, List.mem_dedup])
  have hlen : ks.length = l.dedup.length := hperm.length_eq
  have hsub : l.dedup.Sublist l := List.dedup_sublist l
  refine ⟨hlen ▸ hsub.length_le, ?_⟩
  constructor
  · intro h
    have heq : l.dedup = l := hsub.eq_of_length (hlen ▸ h)
    rw [← heq]
    exact List.nodup_dedup l
  · intro h
    rw [hlen, h.dedup]

/-- C16 fails as stated: two AskToken calls on a new store for which the generator of the
repository, `GetUUID`, is read at the same clock reading and with the same random draw
hand out the same token twice; the second call overwrites the entry of the first, and
ListTokens returns one token, not two. -/
theorem AskToken_repeat_counterexample :
    strtool.GetUUID 0x0a0b0c0d 1700000000000000000 0x12345678 =
      "0a0b0c0d-1797-9cfe-362a-000012345678" ∧
    (askAll (TokenManager.zero.Init : TokenManager String)
      [(strtool.GetUUID 0x0a0b0c0d 1700000000000000000 0x12345678, some "x", -1, 0),
       (strtool.GetUUID 0x0a0b0c0d 1700000000000000000 0x12345678, some "y", -1, 0)]).1 =
      ["0a0b0c0d-1797-9cfe-362a-000012345678", "0a0b0c0d-1797-9cfe-362a-000012345678"] ∧
    (askAll (TokenManager.zero.Init : TokenManager String)
      [(strtool.GetUUID 0x0a0b0c0d 1700000000000000000 0x12345678, some "x", -1, 0),
       (strtool.GetUUID 0x0a0b0c0d 1700000000000000000 0x12345678, some "y", -1, 0)]
      ).2.ListTokens = some ["0a0b0c0d-1797-9cfe-362a-000012345678"] ∧
    (askAll (TokenManager.zero.Init : TokenManager String)
      [(strtool.GetUUID 0x0a0b0c0d 1700000000000000000 0x12345678, some "x", -1, 0),
       (strtool.GetUUID 0x0a0b0c0d 1700000000000000000 0x12345678, some "y", -1, 0)]
      ).2.GetTokenBody "0a0b0c0d-1797-9cfe-362a-000012345678" = (some "y", true) :=
  ⟨rfl, rfl, rfl, rfl⟩

/-- C16 as the store has it: after N Put calls with pairwise distinct keys on a newly
initialised store, with no sweep in between, ListTokens returns exactly N keys, pairwise
distinct, which are the keys put, and each is found by GetTokenBody. After N AskToken
calls the tokens handed out are the identifiers minted; ListTokens returns them without
repetition, each is found by GetTokenBody, and they are exactly N when, and only when, the
identifiers minted were pairwise distinct (fewer otherwise). The token AskToken just
issued is found with the body stored. -/
theorem distinct_tokens {V : Type} :
    (∀ puts : List (String × Option V × Int × Int), (puts.map Prod.fst).Nodup →
      ∃ ks, (putAll TokenManager.zero.Init puts).ListTokens = some ks ∧
        ks.length = puts.length ∧ ks.Nodup ∧ (∀ k, k ∈ ks ↔ k ∈ puts.map Prod.fst) ∧
        ∀ k ∈ ks, ((putAll TokenManager.zero.Init puts).GetTokenBody k).2 = true) ∧
    (∀ asks : List (String × Option V × Int × Int),
      (askAll TokenManager.zero.Init asks).1 = asks.map Prod.fst ∧
      ∃ ks, (askAll TokenManager.zero.Init asks).2.ListTokens = some ks ∧ ks.Nodup ∧
        (∀ k, k ∈ ks ↔ k ∈ (askAll TokenManager.zero.Init asks).1) ∧
        (∀ k ∈ ks, ((askAll TokenManager.zero.Init asks).2.GetTokenBody k).2 = true) ∧
        ks.length ≤ asks.length ∧
        (ks.length = asks.length ↔ (askAll TokenManager.zero.Init asks).1.Nodup)) ∧
    (∀ (tm : TokenManager V) (minted : String) (body : Option V) (second now : Int),
      (tm.AskToken minted body second now).1 = minted ∧
      (tm.AskToken minted body second now).2.GetTokenBody minted = (body, true)) := by
  refine ⟨?_, ?_, ?_⟩
  · intro puts hnd
    have hk := putAll_keys puts (TokenManager.zero.Init : TokenManager V)
      (by simpa [TokenManager.Init, TokenManager.zero] using hnd)
    have hk' : (putAll (TokenManager.zero.Init : TokenManager V) puts).tokens.map Prod.fst =
        puts.map Prod.fst := by
      simpa [TokenManager.Init, TokenManager.zero] using hk
    refine ⟨puts.map Prod.fst, by simp [TokenManager.ListTokens, hk'], by simp, hnd,
      fun k => Iff.rfl, ?_⟩
    intro k hm
    exact found_of_key (by rw [hk']; exact hm)
  · intro asks
    obtain ⟨h1, h2⟩ := askAll_eq_putAll asks (TokenManager.zero.Init : TokenManager V)
    have hwf := WF_putAll asks (TokenManager.zero.Init : TokenManager V) WF_init
    have hmem : ∀ k, k ∈ (putAll (TokenManager.zero.Init : TokenManager V) asks).tokens.map
        Prod.fst ↔ k ∈ asks.map Prod.fst := by
      intro k
      rw [mem_keys_putAll]
      simp [TokenManager.Init, TokenManager.zero]
    obtain ⟨hle, hiff⟩ := length_of_same_members hwf hmem
    rw [h1, h2]
    refine ⟨rfl, (putAll (TokenManager.zero.Init : TokenManager V) asks).tokens.map Prod.fst,
      rfl, hwf, hmem, fun k hm => found_of_key hm, by simpa using hle, by simpa using hiff⟩
  · intro tm minted body second now
    constructor
    · rfl
    · simp [TokenManager.AskToken, TokenManager.PutTokenBody, TokenManager.GetTokenBody,
        findEntry_putEntry_self]

/-- Witness of C16 as amended: three Put calls with keys `a`, `b`, `c`, and three AskToken
calls for which `t1`, `t2`, `t3` are minted. -/
theorem distinct_tokens_witness :
    (threePuts.map Prod.fst).Nodup ∧
    (putAll TokenManager.zero.Init threePuts).ListTokens = some ["a", "b", "c"] ∧
    (∃ ks, (putAll TokenManager.zero.Init threePuts).ListTokens = some ks ∧
      ks.length = threePuts.length ∧ ks.Nodup ∧ (∀ k, k ∈ ks ↔ k ∈ threePuts.map Prod.fst) ∧
      ∀ k ∈ ks, ((putAll TokenManager.zero.Init threePuts).GetTokenBody k).2 = true) ∧
    (askAll TokenManager.zero.Init threeAsks).2.ListTokens = some ["t1", "t2", "t3"] ∧
    ((askAll TokenManager.zero.Init threeAsks).1 = threeAsks.map Prod.fst ∧
      ∃ ks, (askAll TokenManager.zero.Init threeAsks).2.ListTokens = some ks ∧ ks.Nodup ∧
        (∀ k, k ∈ ks ↔ k ∈ (askAll TokenManager.zero.Init threeAsks).1) ∧
        (∀ k ∈ ks, ((askAll TokenManager.zero.Init threeAsks).2.GetTokenBody k).2 = true) ∧
        ks.length ≤ threeAsks.length ∧
        (ks.length = threeAsks.length ↔ (askAll TokenManager.zero.Init threeAsks).1.Nodup)) :=
  ⟨by decide, rfl, distinct_tokens.1 threePuts (by decide), rfl,
    distinct_tokens.2.1 threeAsks⟩

/-- C17: whatever a store holds, after Clear the token list is the empty sequence and
GetTokenBody reports not-found for every token (those present before included). -/
theorem Clear_empties {V : Type} (tm : TokenManager V) :
    tm.Clear.ListTokens = some [] ∧
    (∀ token, tm.Clear.GetTokenBody token = (none, false)) ∧
    tm.Clear.started = tm.started := by
  refine ⟨?_, ?_, rfl⟩
  · simp [TokenManager.ListTokens, TokenManager.Clear]
  · intro token
    simp [TokenManager.GetTokenBody, TokenManager.Clear, findEntry]

/-- C18: Refresh at `now` of a present entry, one that is in the store and not already
expired (expiry never, or later than `now`), with original TTL `t` reports found and sets
its expiry to `now + t` (a never-expiring entry, `t < 0`, stays never-expiring), leaving
its value, the token list and every other entry unchanged, so Get finds it right after;
Refresh of an absent key, and of an entry already expired, changes nothing and reports
not-found; and an entry refreshed each time before its deadline in force, with every sweep
tick before the deadline in force, is still found after any number of such steps. -/
theorem Refresh_semantics {V : Type} (tm : TokenManager V) (key : String) (now : Int) :
    (∀ e, findEntry key tm.tokens = some e → (¬ ∃ d, e.expiresAt = some d ∧ d ≤ now) →
      ∃ tm2, tm.RefreshToken key now = (true, tm2) ∧
        findEntry key tm2.tokens =
          some ⟨e.value, e.ttl, if e.ttl < 0 then none else some (now + e.ttl)⟩ ∧
        (∀ k2, k2 ≠ key → findEntry k2 tm2.tokens = findEntry k2 tm.tokens) ∧
        tm2.ListTokens = tm.ListTokens ∧
        tm2.GetTokenBody key = (e.value, true)) ∧
    (findEntry key tm.tokens = none → tm.RefreshToken key now = (false, tm)) ∧
    (∀ e d, findEntry key tm.tokens = some e → e.expiresAt = some d → d ≤ now →
      tm.RefreshToken key now = (false, tm)) ∧
    (∀ v t d (ops : List (TOp V)), 0 ≤ t → findEntry key tm.tokens = some ⟨v, t, some d⟩ →
      keepsAlive key t d ops = true → (tm.runOps ops).GetTokenBody key = (v, true)) := by
  refine ⟨?_, ?_, ?_, ?_⟩
  · intro e hf hlive
    have hx : e.expired now = false := by
      cases hd : e.expiresAt with
      | none => simp [Entry.expired, hd]
      | some d =>
        have : ¬ d ≤ now := fun hle => hlive ⟨d, hd, hle⟩
        simp [Entry.expired, hd, this]
    have hfind : findEntry key (refreshEntry key now tm.tokens) =
        some ⟨e.value, e.ttl, if e.ttl < 0 then none else some (now + e.ttl)⟩ := by
      simp [findEntry_refreshEntry_self, hf, expiry]
    refine ⟨{ tm with tokens := refreshEntry key now tm.tokens },
      by simp [TokenManager.RefreshToken, hf, hx], hfind, ?_, ?_, ?_⟩
    · intro k2 hne
      exact findEntry_refreshEntry_ne hne now tm.tokens
    · simp [TokenManager.ListTokens, keys_refreshEntry]
    · simp [TokenManager.GetTokenBody, hfind]
  · intro hf
    simp [TokenManager.RefreshToken, hf]
  · intro e d hf hd hle
    simp [TokenManager.RefreshToken, hf, Entry.expired, hd, hle]
  · intro v t d ops ht hf hk
    obtain ⟨d', hd'⟩ := keepsAlive_find ht ops d tm hf hk
    simp [TokenManager.GetTokenBody, hd']

/-- Witness of C18: in the store holding `k` (TTL 5, due at 105) and `pin` (never due),
Refresh of `k` at 103 moves its deadline to 108, Refresh of `pin` leaves it never due,
Refresh of the absent `zz` and of `k` at 105 report false, and the schedule `refreshOps`
keeps `k` alive. -/
theorem Refresh_semantics_witness :
    (∃ tm2, pinStore.RefreshToken "k" 103 = (true, tm2) ∧
      findEntry "k" tm2.tokens = some ⟨some "v", 5, some 108⟩ ∧
      (∀ k2, k2 ≠ "k" → findEntry k2 tm2.tokens = findEntry k2 pinStore.tokens) ∧
      tm2.ListTokens = pinStore.ListTokens ∧
      tm2.GetTokenBody "k" = (some "v", true)) ∧
    (∃ tm2, pinStore.RefreshToken "pin" 103 = (true, tm2) ∧
      findEntry "pin" tm2.tokens = some ⟨some "w", -1, none⟩ ∧
      (∀ k2, k2 ≠ "pin" → findEntry k2 tm2.tokens = findEntry k2 pinStore.tokens) ∧
      tm2.ListTokens = pinStore.ListTokens ∧
      tm2.GetTokenBody "pin" = (some "w", true)) ∧
    pinStore.RefreshToken "zz" 103 = (false, pinStore) ∧
    pinStore.RefreshToken "k" 105 = (false, pinStore) ∧
    keepsAlive "k" 5 105 refreshOps = true ∧
    (pinStore.runOps refreshOps).GetTokenBody "k" = (some "v", true) :=
  ⟨(Refresh_semantics pinStore "k" 103).1 ⟨some "v", 5, some 105⟩ rfl
      (by rintro ⟨d, hd, hle⟩; cases hd; omega),
    (Refresh_semantics pinStore "pin" 103).1 ⟨some "w", -1, none⟩ rfl
      (by rintro ⟨d, hd, -⟩; cases hd),
    (Refresh_semantics pinStore "zz" 103).2.1 rfl,
    (Refresh_semantics pinStore "k" 105).2.2.1 ⟨some "v", 5, some 105⟩ 105 rfl rfl
      (by decide),
    by decide,
    (Refresh_semantics pinStore "k" 0).2.2.2 (some "v") 5 105 refreshOps (by decide) rfl
      (by decide)⟩

end tokentool

namespace hstool

/-! ## Facts about the router -/

theorem splitColon_some {l a b : List Char} (h : splitColon l = some (a, b)) :
    l = a ++ ':' :: b ∧ ':' ∉ a := by
  induction l generalizing a b with
  | nil => simp [splitColon] at h
  | cons c cs ih =>
    by_cases hc : c = ':'
    · simp [splitColon, hc] at h
      obtain ⟨rfl, rfl⟩ := h
      simp [hc]
    · simp only [splitColon, hc, if_false] at h
      cases hs : splitColon cs with
      | none => simp [hs] at h
      | some q =>
        obtain ⟨a1, b1⟩ := q
        simp [hs] at h
        obtain ⟨rfl, rfl⟩ := h
        obtain ⟨h1, h2⟩ := ih hs
        refine ⟨by simp [h1], ?_⟩
        simp only [List.mem_cons, not_or]
        exact ⟨fun e => hc e.symm, h2⟩

theorem splitColon_none {l : List Char} (h : splitColon l = none) : ':' ∉ l := by
  induction l with
  | nil => simp
  | cons c cs ih =>
    by_cases hc : c = ':'
    · simp [splitColon, hc] at h
    · simp only [splitColon, hc, if_false] at h
      cases hs : splitColon cs with
      | none =>
        simp only [List.mem_cons, not_or]
        exact ⟨fun e => hc e.symm, ih hs⟩
      | some q =>
        obtain ⟨a1, b1⟩ := q
        simp [hs] at h

theorem splitColon_of_eq {a b : List Char} (ha : ':' ∉ a) :
    splitColon (a ++ ':' :: b) = some (a, b) := by
  induction a with
  | nil => simp [splitColon]
  | cons c cs ih =>
    simp only [List.mem_cons, not_or] at ha
    have hc : ¬ c = ':' := fun e => ha.1 e.symm
    simp [splitColon, hc, ih ha.2]

/-- The test of the loops is the rule in words. -/
theorem keyMatches_iff (matchString : String → String → Bool) (key p : String) :
    keyMatches matchString key p = true ↔ RouteMatches matchString key p := by
  constructor
  · intro h
    unfold keyMatches at h
    cases hs : splitColon key.data with
    | none => simp [hs] at h
    | some q =>
      obtain ⟨a, b⟩ := q
      simp only [hs] at h
      obtain ⟨h1, h2⟩ := splitColon_some hs
      by_cases hp : a.isPrefixOf p.data = true
      · simp only [hp, if_true] at h
        exact ⟨a, b, h1, h2, List.isPrefixOf_iff_prefix.mp hp, h⟩
      · simp [hp] at h
  · rintro ⟨a, b, h1, h2, h3, h4⟩
    unfold keyMatches
    rw [h1, splitColon_of_eq h2]
    simp [List.isPrefixOf_iff_prefix.mpr h3, h4]

theorem firstMatch_split (matchString : String → String → Bool) (p : String)
    {l pre post : List String} {key : String} (hl : l = pre ++ key :: post)
    (hpre : ∀ k ∈ pre, ¬ RouteMatches matchString k p)
    (hkey : RouteMatches matchString key p) : firstMatch matchString p l = some key := by
  subst hl
  induction pre with
  | nil => simp [firstMatch, (keyMatches_iff matchString key p).mpr hkey]
  | cons k ks ih =>
    have hk : ¬ keyMatches matchString k p = true :=
      fun h => hpre k (by simp) ((keyMatches_iff matchString k p).mp h)
    simp only [List.cons_append, firstMatch, hk, if_false]
    exact ih (fun k2 hm => hpre k2 (List.mem_cons_of_mem _ hm))

theorem firstMatch_none (matchString : String → String → Bool) (p : String)
    {l : List String} (hl : ∀ k ∈ l, ¬ RouteMatches matchString k p) :
    firstMatch matchString p l = none := by
  induction l with
  | nil => rfl
  | cons k ks ih =>
    have hk : ¬ keyMatches matchString k p = true :=
      fun h => hl k (by simp) ((keyMatches_iff matchString k p).mp h)
    simp only [firstMatch, hk, if_false]
    exact ih (fun k2 hm => hl k2 (List.mem_cons_of_mem _ hm))

/-! ## Dispatch and filter priority -/

/-- Order of selection in `doHandle`: for every router state and request path `p` the
func value selected is found in this order: the call of the entry of `p` in the exact table; otherwise
the call of the regexp-table entry of the first key of the regexp index that has a colon,
whose text before the colon is a prefix of `p` and whose pattern matches `p`; otherwise
the call of the default handler when one is set; otherwise the 404 status and no call. -/
theorem doHandle_priority {H F : Type} (matchString : String → String → Bool)
    (sr : ServiceRouter H F) (p : String) :
    (∀ h, sr.urlHandlersMap.lookup p = some h →
      sr.doHandle matchString p = .urlHandler h) ∧
    (sr.urlHandlersMap.lookup p = none →
      (∀ pre key post, sr.regexpHandlersIndex.getD [] = pre ++ key :: post →
        (∀ k ∈ pre, ¬ RouteMatches matchString k p) → RouteMatches matchString key p →
        sr.doHandle matchString p =
          .regexpHandler key ((sr.regexpHandlersMap.lookup key).getD none)) ∧
      ((∀ k ∈ sr.regexpHandlersIndex.getD [], ¬ RouteMatches matchString k p) →
        (∀ h, sr.defaultHandler = some h →
          sr.doHandle matchString p = .defaultHandler h) ∧
        (sr.defaultHandler = none → sr.doHandle matchString p = .notFound))) ∧
    (∀ url handler, url ≠ "" →
      ((splitColon url.data).isSome = true →
        (sr.AddHandler url handler).regexpHandlersMap.lookup url = some handler ∧
        (sr.AddHandler url handler).regexpHandlersIndex =
          some ((if sr.regexpHandlersMap.isNone then [] else sr.regexpHandlersIndex.getD [])
            ++ [url])) ∧
      ((splitColon url.data).isSome = false →
        (sr.AddHandler url handler).urlHandlersMap.lookup url = some handler)) := by
  refine ⟨?_, ?_, ?_⟩
  · intro h hu
    simp [ServiceRouter.doHandle, hu]
  rotate_left
  · intro url handler hne
    have hlen : ¬ url.length = 0 := fun h => hne ((tokentool.length_eq_zero_iff url).mp h)
    constructor
    · intro hc
      cases hm : sr.regexpHandlersMap <;> cases hu : sr.urlHandlersMap <;>
        simp [ServiceRouter.AddHandler, hlen, hc, hm, hu, tokentool.GoMap.lookup,
          tokentool.GoMap.store]
    · intro hc
      cases hm : sr.regexpHandlersMap <;> cases hu : sr.urlHandlersMap <;>
        simp [ServiceRouter.AddHandler, hlen, hc, hm, hu, tokentool.GoMap.lookup,
          tokentool.GoMap.store]
  · intro hu
    refine ⟨?_, ?_⟩
    · intro pre key post hl hpre hkey
      simp [ServiceRouter.doHandle, hu, firstMatch_split matchString p hl hpre hkey]
    · intro hno
      refine ⟨?_, ?_⟩
      · intro h hd
        simp [ServiceRouter.doHandle, hu, firstMatch_none matchString p hno, hd]
      · intro hd
        simp [ServiceRouter.doHandle, hu, firstMatch_none matchString p hno, hd]

/-- Examples of the order of selection in `doHandle`: the four cases on the sample routers,
and the registration of a regexp route and of an exact route. -/
theorem doHandle_priority_witness :
    (plainRouter.AddHandler "/up/:x" (some "up")).regexpHandlersIndex =
      some ["/api/:v", "/api/:v2", "/up/:x"] ∧
    (plainRouter.AddHandler "/up" (some "up")).urlHandlersMap.lookup "/up" =
      some (some "up") ∧
    plainRouter.doHandle literalMatch "/home" = .urlHandler (some "home") ∧
    plainRouter.doHandle literalMatch "/api/v2/x" = .regexpHandler "/api/:v" (some "api") ∧
    guardedRouter.doHandle literalMatch "/other" = .defaultHandler "static" ∧
    plainRouter.doHandle literalMatch "/other" = .notFound :=
  ⟨(((doHandle_priority literalMatch plainRouter "/").2.2 "/up/:x" (some "up")
      (by decide)).1 rfl).2,
    ((doHandle_priority literalMatch plainRouter "/").2.2 "/up" (some "up")
      (by decide)).2 rfl,
    (doHandle_priority literalMatch plainRouter "/home").1 (some "home") rfl,
    ((doHandle_priority literalMatch plainRouter "/api/v2/x").2.1 rfl).1 [] "/api/:v"
      ["/api/:v2"] rfl (by intro k hk; cases hk)
      ⟨"/api/".data, "v".data, rfl, by decide, by decide, rfl⟩,
    (((doHandle_priority literalMatch guardedRouter "/other").2.1 rfl).2
      (by
        intro k hk
        rw [← keyMatches_iff]
        have hk1 : k ∈ ["/api/:v", "/api/:v2"] := hk
        have hk2 : k = "/api/:v" ∨ k = "/api/:v2" := by simpa using hk1
        rcases hk2 with rfl | rfl <;> decide)).1 "static" rfl,
    (((doHandle_priority literalMatch plainRouter "/other").2.1 rfl).2
      (by
        intro k hk
        rw [← keyMatches_iff]
        have hk1 : k ∈ ["/api/:v", "/api/:v2"] := hk
        have hk2 : k = "/api/:v" ∨ k = "/api/:v2" := by simpa using hk1
        rcases hk2 with rfl | rfl <;> decide)).2 rfl⟩
theorem runScript_map {H F : Type} (d : Dispatch H) (s : List FilterAct)
    (h : d.panics = false ∨ FilterAct.next ∉ s) :
    (runScript d s : List (Event H F)) = s.map (toEvent d) := by
  induction s with
  | nil => rfl
  | cons a rest ih =>
    cases a with
    | work note =>
      have h2 : d.panics = false ∨ FilterAct.next ∉ rest := by
        rcases h with h | h
        · exact Or.inl h
        · exact Or.inr (fun hm => h (List.mem_cons_of_mem _ hm))
      simp [runScript, toEvent, ih h2]
    | next =>
      rcases h with h | h
      · simp [runScript, toEvent, h, ih (Or.inl h)]
      · exact absurd (List.mem_cons_self _ _) h

theorem runScript_no_filter {H F : Type} (d : Dispatch H) (s : List FilterAct) :
    ∀ e ∈ (runScript d s : List (Event H F)), ∀ c, e ≠ Event.filter c := by
  induction s with
  | nil => intro e he; cases he
  | cons a rest ih =>
    intro e he c
    cases a with
    | work note =>
      simp only [runScript, List.mem_cons] at he
      rcases he with rfl | he
      · simp
      · exact ih e he c
    | next =>
      cases hp : d.panics with
      | true =>
        simp only [runScript, hp, if_true, List.mem_cons, List.mem_singleton] at he
        rcases he with he | he | he
        · simp [he]
        · simp [he]
        · cases he
      | false =>
        have he2 : e = Event.handle d ∨ e ∈ (runScript d rest : List (Event H F)) := by
          simpa [runScript, hp] using he
        rcases he2 with he2 | he2
        · simp [he2]
        · exact ih e he2 c

/-- Order of selection in `ServeHTTP`: for every router state and request the filter value
selected is found in the order exact filter of the path, first matching key of the regexp
filter index, global filter; the route handling runs once for each call the filter makes
of its `next`, in the order of those calls, and not otherwise, so a filter that never calls
`next` lets no handler run; and with no filter at all the request is handled directly. -/
theorem ServeHTTP_priority {H F : Type} (matchString : String → String → Bool)
    (behave : F → String → List FilterAct) (sr : ServiceRouter H F) (p : String) :
    (∀ f, sr.urlFiltersMap.lookup p = some f →
      sr.ServeHTTP matchString behave p =
        callFilter behave (sr.doHandle matchString p) p (.urlFilter f) f) ∧
    (sr.urlFiltersMap.lookup p = none →
      (∀ pre key post, sr.regexpFiltersIndex.getD [] = pre ++ key :: post →
        (∀ k ∈ pre, ¬ RouteMatches matchString k p) → RouteMatches matchString key p →
        sr.ServeHTTP matchString behave p =
          callFilter behave (sr.doHandle matchString p) p
            (.regexpFilter key ((sr.regexpFiltersMap.lookup key).getD none))
            ((sr.regexpFiltersMap.lookup key).getD none)) ∧
      ((∀ k ∈ sr.regexpFiltersIndex.getD [], ¬ RouteMatches matchString k p) →
        (∀ f, sr.globalFileter = some f →
          sr.ServeHTTP matchString behave p =
            callFilter behave (sr.doHandle matchString p) p (.globalFilter f) (some f)) ∧
        (sr.globalFileter = none →
          sr.ServeHTTP matchString behave p = handleEvents (sr.doHandle matchString p) ∧
          ∀ e ∈ sr.ServeHTTP matchString behave p, ∀ c, e ≠ Event.filter c))) ∧
    (∀ (d : Dispatch H) (c : Choice F) (f : F),
      ∃ rest : List (Event H F), callFilter behave d p c (some f) = .filter c :: rest ∧
        (∀ e ∈ rest, ∀ c2, e ≠ Event.filter c2) ∧
        (d.panics = false → rest = (behave f p).map (toEvent d)) ∧
        (FilterAct.next ∉ behave f p →
          rest = (behave f p).map (toEvent d) ∧ ∀ e ∈ rest, ∀ d2, e ≠ Event.handle d2)) ∧
    (∀ url filter, url ≠ "" → (splitColon url.data).isSome = true →
      (sr.AddURLFilter url filter).regexpFiltersMap.lookup url = some filter ∧
      (sr.AddURLFilter url filter).regexpFiltersIndex =
        some (sr.regexpFiltersIndex.getD [] ++ [url])) := by
  refine ⟨?_, ?_, ?_, ?_⟩
  rotate_right
  · intro url filter hne hc
    have hlen : ¬ url.length = 0 := fun h => hne ((tokentool.length_eq_zero_iff url).mp h)
    cases hm : sr.regexpFiltersMap <;> cases hu : sr.urlFiltersMap <;>
      cases hi : sr.regexpFiltersIndex <;>
      simp [ServiceRouter.AddURLFilter, hlen, hc, hm, hu, hi, tokentool.GoMap.lookup,
        tokentool.GoMap.store]
  · intro f hu
    simp [ServiceRouter.ServeHTTP, ServiceRouter.doFilter, hu]
  · intro hu
    refine ⟨?_, ?_⟩
    · intro pre key post hl hpre hkey
      simp [ServiceRouter.ServeHTTP, ServiceRouter.doFilter, hu,
        firstMatch_split matchString p hl hpre hkey]
    · intro hno
      refine ⟨?_, ?_⟩
      · intro f hg
        simp [ServiceRouter.ServeHTTP, ServiceRouter.doFilter, hu,
          firstMatch_none matchString p hno, hg]
      · intro hg
        have heq : sr.ServeHTTP matchString behave p =
            handleEvents (sr.doHandle matchString p) := by
          simp [ServiceRouter.ServeHTTP, ServiceRouter.doFilter, hu,
            firstMatch_none matchString p hno, hg]
        refine ⟨heq, ?_⟩
        intro e he c
        rw [heq] at he
        unfold handleEvents at he
        cases hp : (sr.doHandle matchString p).panics with
        | true =>
          simp only [hp, if_true, List.mem_cons, List.mem_singleton] at he
          rcases he with he | he | he
          · simp [he]
          · simp [he]
          · cases he
        | false =>
          have he2 : e = Event.handle (sr.doHandle matchString p) := by
            simpa [hp] using he
          simp [he2]
  · intro d c f
    refine ⟨runScript d (behave f p), rfl, runScript_no_filter d _, ?_, ?_⟩
    · intro hp
      exact runScript_map d _ (Or.inl hp)
    · intro hn
      have hmap := @runScript_map H F d (behave f p) (Or.inr hn)
      refine ⟨hmap, ?_⟩
      intro e he d2
      rw [hmap] at he
      obtain ⟨a, ha, rfl⟩ := List.mem_map.mp he
      cases a with
      | work note => simp [toEvent]
      | next => exact absurd ha hn

/-- Examples of the order of selection in `ServeHTTP`: on the sample router `/home` goes to the exact filter `auth`, which
calls `next` once; `/api/v2/x` goes to the regexp filter `deny`, which never calls `next`,
so no handler runs; `/other` goes to the global filter `twice`, which calls `next` two
times; and on the router without filters the request is handled directly. -/
theorem ServeHTTP_priority_witness :
    (guardedRouter.AddURLFilter "/up/:x" (some "auth")).regexpFiltersIndex =
      some ["/api/:v2", "/up/:x"] ∧
    guardedRouter.ServeHTTP literalMatch sampleBehave "/home" =
      [.filter (.urlFilter (some "auth")), .work "check",
        .handle (.urlHandler (some "home"))] ∧
    guardedRouter.ServeHTTP literalMatch sampleBehave "/api/v2/x" =
      [.filter (.regexpFilter "/api/:v2" (some "deny")), .work "403"] ∧
    guardedRouter.ServeHTTP literalMatch sampleBehave "/other" =
      [.filter (.globalFilter "twice"), .handle (.defaultHandler "static"),
        .work "between", .handle (.defaultHandler "static")] ∧
    (plainRouter.ServeHTTP literalMatch sampleBehave "/home" =
        [.handle (.urlHandler (some "home"))] ∧
      ∀ e ∈ plainRouter.ServeHTTP literalMatch sampleBehave "/home", ∀ c,
        e ≠ Event.filter c) ∧
    (∃ rest : List (Event String String),
      callFilter sampleBehave (guardedRouter.doHandle literalMatch "/api/v2/x") "/api/v2/x"
        (.regexpFilter "/api/:v2" (some "deny")) (some "deny") =
          .filter (.regexpFilter "/api/:v2" (some "deny")) :: rest ∧
      (∀ e ∈ rest, ∀ c2, e ≠ Event.filter c2) ∧
      ((guardedRouter.doHandle literalMatch "/api/v2/x").panics = false →
        rest = (sampleBehave "deny" "/api/v2/x").map
          (toEvent (guardedRouter.doHandle literalMatch "/api/v2/x"))) ∧
      (FilterAct.next ∉ sampleBehave "deny" "/api/v2/x" →
        rest = (sampleBehave "deny" "/api/v2/x").map
          (toEvent (guardedRouter.doHandle literalMatch "/api/v2/x")) ∧
        ∀ e ∈ rest, ∀ d2, e ≠ Event.handle d2)) :=
  ⟨((ServeHTTP_priority literalMatch sampleBehave guardedRouter "/").2.2.2 "/up/:x"
      (some "auth") (by decide) rfl).2,
    (ServeHTTP_priority literalMatch sampleBehave guardedRouter "/home").1 (some "auth") rfl,
    ((ServeHTTP_priority literalMatch sampleBehave guardedRouter "/api/v2/x").2.1 rfl).1 []
      "/api/:v2" [] rfl (by intro k hk; cases hk)
      ⟨"/api/".data, "v2".data, rfl, by decide, by decide, rfl⟩,
    (((ServeHTTP_priority literalMatch sampleBehave guardedRouter "/other").2.1 rfl).2
      (by
        intro k hk
        rw [← keyMatches_iff]
        have hk1 : k ∈ ["/api/:v2"] := hk
        have hk2 : k = "/api/:v2" := by simpa using hk1
        subst hk2
        decide)).1 "twice" rfl,
    (((ServeHTTP_priority literalMatch sampleBehave plainRouter "/home").2.1 rfl).2
      (by intro k hk; cases hk)).2 rfl,
    (ServeHTTP_priority literalMatch sampleBehave guardedRouter "/api/v2/x").2.2.1
      (guardedRouter.doHandle literalMatch "/api/v2/x")
      (.regexpFilter "/api/:v2" (some "deny")) "deny"⟩

end hstool

namespace tokentool

/-! ## Registry consistency -/

/-- C28: in every state reached from Init by RegLib, Set, Get, Keys and Clear calls (and
sweep ticks) the store map and the TTL map hold the same library names; so a library with
a store has a TTL record, and the branch of Set that deletes the store of a library
without TTL record is never taken: every Set returns, leaves every name with a store or
without one as before, and leaves the whole state as it was when it returns an error. -/
theorem registry_names_agree {V : Type} (cm : CacheManager V) (h : Reachable cm) :
    (∀ name, (cm.clibs.lookup name).isSome = (cm.libexp.lookup name).isSome) ∧
    (∀ lib tm, cm.clibs.lookup lib = some tm → ∃ lx, cm.libexp.lookup lib = some lx) ∧
    (∀ lib key tb now, ∃ e cm2, cm.Set lib key tb now = .ok (e, cm2) ∧
      (∀ name, (cm2.clibs.lookup name).isSome = (cm.clibs.lookup name).isSome) ∧
      (e ≠ none → cm2 = cm)) := by
  obtain ⟨hl, libs, exps, hc, he, hsame, _⟩ := Reachable.consistent h
  obtain ⟨x, c, l⟩ := cm
  simp only at hl hc he
  subst hl hc he
  have h2 : ∀ lib tm, libs lib = some tm → ∃ lx, exps lib = some lx := by
    intro lib tm hs
    have hk := hsame lib
    rw [hs] at hk
    exact Option.isSome_iff_exists.mp hk.symm
  refine ⟨fun name => hsame name, fun lib tm hs => h2 lib tm hs, ?_⟩
  intro lib key tb now
  rw [Set_alloc]
  by_cases h1 : lib = ""
  · exact ⟨some "lib is empty", ⟨some exps, some libs, true⟩, by simp [h1], fun _ => rfl,
      fun _ => rfl⟩
  · cases hs : libs lib with
    | none =>
      exact ⟨some "lib not exist", ⟨some exps, some libs, true⟩, by simp [h1],
        fun _ => rfl, fun _ => rfl⟩
    | some tm =>
      obtain ⟨lx, hx⟩ := h2 lib tm hs
      refine ⟨none, ⟨some exps,
        some (GoMap.store libs lib (tm.PutTokenBody key tb lx now).2), true⟩,
        by simp [h1, hx], ?_, fun hne => absurd rfl hne⟩
      intro name
      by_cases hn : name = lib
      · simp [GoMap.lookup, GoMap.store, hn, hs]
      · simp [GoMap.lookup, GoMap.store, hn]

/-- Witness of C28: the sample history with libraries `a` and `b`; next to it the sample
state outside the reachable ones, where Set does take the deleting branch. -/
theorem registry_names_agree_witness :
    Reachable (after twoLibsOps) ∧
    (orphanCm.clibs.lookup "orphan").isSome = true ∧
    ((orphanCm.Set "orphan" "k" (some "v") 0).map
      (fun r => (r.2.clibs.lookup "orphan").isSome)) = .ok false ∧
    ((∀ name, ((after twoLibsOps).clibs.lookup name).isSome =
        ((after twoLibsOps).libexp.lookup name).isSome) ∧
      (∀ lib tm, (after twoLibsOps).clibs.lookup lib = some tm →
        ∃ lx, (after twoLibsOps).libexp.lookup lib = some lx) ∧
      (∀ lib key tb now, ∃ e cm2, (after twoLibsOps).Set lib key tb now = .ok (e, cm2) ∧
        (∀ name, (cm2.clibs.lookup name).isSome =
          ((after twoLibsOps).clibs.lookup name).isSome) ∧
        (e ≠ none → cm2 = after twoLibsOps))) :=
  ⟨⟨twoLibsOps, rfl⟩, rfl, rfl, registry_names_agree (after twoLibsOps) ⟨twoLibsOps, rfl⟩⟩

end tokentool

namespace hstool

/-! ## Removal of routes and filters -/

/-- C19 evaluated: the route `/a/:x` is added, a default handler is set, and the route is
removed again. The removal leaves the key in the regexp index (the slip of
`removeHandlerIndex`), so for the request `/a/x` `doHandle` selects the entry of that key
in the regexp table, which is gone: it calls a nil func and panics; no handler is invoked
and the default handler is passed over. Where the removal does take the key out of the
index (position 1), the request goes to the default handler. -/
theorem doHandle_stale_route :
    (oneRoute.SetDefaultHandler (some "static")).doHandle literalMatch "/a/x" =
      .regexpHandler "/a/:x" (some "a") ∧
    ((oneRoute.SetDefaultHandler (some "static")).RemoveHandler "/a/:x").map
      (fun sr => sr.regexpHandlersMap.lookup "/a/:x") = .ok none ∧
    ((oneRoute.SetDefaultHandler (some "static")).RemoveHandler "/a/:x").map
      (fun sr => sr.urlHandlersMap.lookup "/a/x") = .ok none ∧
    ((oneRoute.SetDefaultHandler (some "static")).RemoveHandler "/a/:x").map
      (fun sr => sr.defaultHandler) = .ok (some "static") ∧
    ((oneRoute.SetDefaultHandler (some "static")).RemoveHandler "/a/:x").map
      (fun sr => sr.doHandle literalMatch "/a/x") = .ok (.regexpHandler "/a/:x" none) ∧
    ((oneRoute.SetDefaultHandler (some "static")).RemoveHandler "/a/:x").map
      (fun sr => (sr.doHandle literalMatch "/a/x").panics) = .ok true ∧
    ((threeRoutes.SetDefaultHandler (some "static")).RemoveHandler "/b/:x").map
      (fun sr => sr.doHandle literalMatch "/b/x") = .ok (.defaultHandler "static") :=
  ⟨rfl, rfl, rfl, rfl, rfl, rfl, rfl⟩

/-- C20 evaluated: on the sample router with handlers, the regexp filter `/api/:v2` and a
global filter, the regexp filter is removed. The removal leaves the key in the regexp
filter index (the slip of `removeFilterIndex`), so for the request `/api/v2/x` `ServeHTTP`
selects the entry of that key in the regexp filter table, which is gone: it calls a nil
func and panics; no filter runs, the global filter is not reached and no handler runs.
Where the removal does take the key out of the index (position 1), the request goes to
the global filter. -/
theorem ServeHTTP_stale_filter :
    guardedRouter.ServeHTTP literalMatch sampleBehave "/api/v2/x" =
      [.filter (.regexpFilter "/api/:v2" (some "deny")), .work "403"] ∧
    (guardedRouter.RemoveFilter "/api/:v2").map
      (fun sr => sr.regexpFiltersMap.lookup "/api/:v2") = .ok none ∧
    (guardedRouter.RemoveFilter "/api/:v2").map
      (fun sr => sr.urlFiltersMap.lookup "/api/v2/x") = .ok none ∧
    (guardedRouter.RemoveFilter "/api/:v2").map (fun sr => sr.globalFileter) =
      .ok (some "twice") ∧
    (guardedRouter.RemoveFilter "/api/:v2").map
      (fun sr => sr.ServeHTTP literalMatch sampleBehave "/api/v2/x") =
      .ok [.filter (.regexpFilter "/api/:v2" none), .panic] ∧
    ((((plainRouter.AddURLFilter "/x/:a" (some "auth")).AddURLFilter "/api/:v2"
      (some "deny")).SetGlobalFilter (some "twice")).RemoveFilter "/api/:v2").map
      (fun sr => sr.ServeHTTP literalMatch sampleBehave "/api/v2/x") =
      .ok [.filter (.globalFilter "twice"), .handle (.regexpHandler "/api/:v" (some "api")),
        .work "between", .handle (.regexpHandler "/api/:v" (some "api"))] :=
  ⟨rfl, rfl, rfl, rfl, rfl, rfl⟩

/-- C21 evaluated: `RemoveHandler` of the first regexp url (position 0) leaves the index as
it was while the table entry is gone, so a matching request is dispatched to a nil func;
at position 1 the url is removed as claimed; at position 2 of four urls the url at
position 3 goes too, and its route is lost; at position 2 of three urls the call panics. -/
theorem RemoveHandler_slip :
    (oneRoute.RemoveHandler "/a/:x").map (fun sr => sr.regexpHandlersIndex) =
      .ok (some ["/a/:x"]) ∧
    (oneRoute.RemoveHandler "/a/:x").map (fun sr => sr.regexpHandlersMap.lookup "/a/:x") =
      .ok none ∧
    (oneRoute.RemoveHandler "/a/:x").map (fun sr => sr.doHandle literalMatch "/a/x") =
      .ok (.regexpHandler "/a/:x" none) ∧
    (threeRoutes.RemoveHandler "/b/:x").map (fun sr => sr.regexpHandlersIndex) =
      .ok (some ["/a/:x", "/c/:x"]) ∧
    (fourRoutes.RemoveHandler "/c/:x").map (fun sr => sr.regexpHandlersIndex) =
      .ok (some ["/a/:x", "/b/:x"]) ∧
    (fourRoutes.RemoveHandler "/c/:x").map (fun sr => sr.regexpHandlersMap.lookup "/d/:x") =
      .ok (some (some "d")) ∧
    fourRoutes.doHandle literalMatch "/d/x" = .regexpHandler "/d/:x" (some "d") ∧
    (fourRoutes.RemoveHandler "/c/:x").map (fun sr => sr.doHandle literalMatch "/d/x") =
      .ok .notFound ∧
    (threeRoutes.RemoveHandler "/c/:x").map (fun sr => sr.regexpHandlersIndex) =
      .error .sliceBounds :=
  ⟨rfl, rfl, rfl, rfl, rfl, rfl, rfl, rfl, rfl⟩

/-- C22 evaluated: on a router to which no handler was ever added `RemoveFilter` leaves a
regexp filter in the filter table and in the filter index, and requests still go to it;
on a router with handlers the table entry of the first regexp filter url is deleted but
the url stays in the index, so a matching request goes to a nil filter. -/
theorem RemoveFilter_slip :
    filterOnly.regexpHandlersMap = none ∧
    (filterOnly.RemoveFilter "/a/:x").map
      (fun sr => sr.regexpFiltersMap.lookup "/a/:x") = .ok (some (some "auth")) ∧
    (filterOnly.RemoveFilter "/a/:x").map (fun sr => sr.regexpFiltersIndex) =
      .ok (some ["/a/:x"]) ∧
    (filterOnly.RemoveFilter "/a/:x").map
      (fun sr => sr.ServeHTTP literalMatch sampleBehave "/a/x") =
      .ok [.filter (.regexpFilter "/a/:x" (some "auth")), .work "check", .handle .notFound] ∧
    (guardedRouter.RemoveFilter "/api/:v2").map
      (fun sr => sr.regexpFiltersMap.lookup "/api/:v2") = .ok none ∧
    (guardedRouter.RemoveFilter "/api/:v2").map (fun sr => sr.regexpFiltersIndex) =
      .ok (some ["/api/:v2"]) ∧
    (guardedRouter.RemoveFilter "/api/:v2").map
      (fun sr => sr.ServeHTTP literalMatch sampleBehave "/api/v2/x") =
      .ok [.filter (.regexpFilter "/api/:v2" none), .panic] ∧
    (guardedRouter.RemoveFilter "/home").map (fun sr => sr.urlFiltersMap.lookup "/home") =
      .ok none :=
  ⟨rfl, rfl, rfl, rfl, rfl, rfl, rfl, rfl⟩

end hstool

namespace conftool

/-! ## Configuration round trip -/

/-- C23 evaluated: with the content `{"a": null}`, `SetConfig("a.b", "v")` returns nil and
stores nothing, so `GetConfig("a.b")` holds no value and `ToString("")` is empty; with
`{"a": {"b": null}}`, `SetConfig("a.b.c", "v")` returns nil and stores the value under
`a.c`; where no null lies on the way the value is read back. -/
theorem SetConfig_null_slip :
    (nullCfg.SetConfig none "a.b" "v").map Prod.fst = .ok none ∧
    (nullCfg.SetConfig none "a.b" "v").map (fun r => r.2.GetConfig "a.b") =
      .ok (.ok .null) ∧
    (afterSet nullCfg "a.b" "v").GetConfig "a.b" = .ok .null ∧
    GetValue (afterSet nullCfg "a.b" "v") "a.b" = .ok "" ∧
    (deepNullCfg.SetConfig none "a.b.c" "v").map Prod.fst = .ok none ∧
    GetValue (afterSet deepNullCfg "a.b.c" "v") "a.b.c" = .ok "" ∧
    GetValue (afterSet deepNullCfg "a.b.c" "v") "a.c" = .ok "v" ∧
    (plainCfg.SetConfig none "m.SetupVer" "2.00").map Prod.fst = .ok none ∧
    GetValue (afterSet plainCfg "m.SetupVer" "2.00") "m.SetupVer" = .ok "2.00" ∧
    GetValue (afterSet plainCfg "n.SetupVer" "1.00") "n.SetupVer" = .ok "1.00" :=
  ⟨rfl, rfl, rfl, rfl, rfl, rfl, rfl, rfl, rfl, rfl⟩

end conftool

namespace hctool

/-! ## URL building -/

/-- C24 evaluated: a short entry at the end leaves a trailing `&`, only short entries leave
a dangling `?`; with entries of two elements each the pairs are joined as claimed, and nil
or empty params return the url. -/
theorem BuildURLWithArray_slip :
    BuildURLWithArray "/u" (some [["a", "1"], ["b"]]) = "/u?a=1&" ∧
    BuildURLWithArray "/u" (some [["x"]]) = "/u?" ∧
    BuildURLWithArray "/u" (some [["a", "1"], ["b"], ["c", "3"]]) = "/u?a=1&c=3" ∧
    BuildURLWithArray "/u" (some [["a", "1"], ["b", "2", "z"]]) = "/u?a=1&b=2" ∧
    BuildURLWithArray "/u" (some []) = "/u" ∧
    BuildURLWithArray "/u" none = "/u" := by
  refine ⟨?_, ?_, ?_, ?_, ?_, ?_⟩ <;> decide

end hctool

namespace strtool

/-! ## Path helpers -/

theorem lastIndexOf_split (c : Char) (pre post : List Char) (hpost : c ∉ post) :
    lastIndexOf c (pre ++ c :: post) = some pre.length := by
  have hnone : ∀ l : List Char, c ∉ l → lastIndexOf c l = none := by
    intro l
    induction l with
    | nil => intro _; rfl
    | cons x xs ih =>
      intro h
      simp only [List.mem_cons, not_or] at h
      have hx : ¬ x = c := fun e => h.1 e.symm
      simp [lastIndexOf, ih h.2, hx]
  induction pre with
  | nil => simp [lastIndexOf, hnone post hpost]
  | cons x xs ih => simp [lastIndexOf, ih]

/-- C25 evaluated: the path `a/b\c` has a last `/`, with `a` before it and `b\c` after
it, but `GetPathParent` returns `a/b` and `GetPathName` returns `c`; for `a\b/c`, with
`a\b` before the last `/` and `c` after it, they return `a` and `b/c`; for `modules.json`,
which has no separator, `GetPathParent` panics on the slice `path[:-1]`; for a path with
`/` and without backslash both return what is claimed. -/
theorem GetPathParent_slip :
    ("a/b\\c" : String).data = "a".data ++ '/' :: "b\\c".data ∧ '/' ∉ "b\\c".data ∧
    GetPathParent "a/b\\c" = .ok "a/b" ∧ GetPathParent "a/b\\c" ≠ .ok "a" ∧
    GetPathName "a/b\\c" = "c" ∧ GetPathName "a/b\\c" ≠ "b\\c" ∧
    ("a\\b/c" : String).data = "a\\b".data ++ '/' :: "c".data ∧ '/' ∉ "c".data ∧
    GetPathParent "a\\b/c" = .ok "a" ∧ GetPathName "a\\b/c" = "b/c" ∧
    GetPathParent "modules.json" = .error .sliceBounds ∧
    GetPathParent "/etc/app/conf.json" = .ok "/etc/app" ∧
    GetPathName "/etc/app/conf.json" = "conf.json" :=
  ⟨by decide, by decide, rfl,
    fun h => absurd (Except.ok.inj ((rfl : GetPathParent "a/b\\c" = .ok "a/b").symm.trans h))
      (by decide),
    by decide, by decide, by decide, by decide, rfl, by decide, rfl, rfl, by decide⟩

/-- Where the two path functions cut: for a path without backslash that contains a `/`,
`GetPathParent` returns the text before the last `/` and `GetPathName` the text after it;
for a path that contains a backslash both cut at the last backslash instead. -/
theorem GetPathParent_split (path : String) (pre post : List Char) :
    ('\\' ∉ path.data → path.data = pre ++ '/' :: post → '/' ∉ post →
      GetPathParent path = .ok (String.mk pre) ∧ GetPathName path = String.mk post) ∧
    (path.data = pre ++ '\\' :: post → '\\' ∉ post →
      GetPathParent path = .ok (String.mk pre) ∧ GetPathName path = String.mk post) := by
  constructor
  · intro hb h hpost
    have hl := lastIndexOf_split '/' pre post hpost
    rw [← h] at hl
    have h1 : path.data.take pre.length = pre := by rw [h]; simp
    have h2 : path.data.drop (pre.length + 1) = post := by
      rw [h, List.drop_append_eq_append_drop]
      simp
    simp [GetPathParent, GetPathName, hb, hl, h1, h2]
  · intro h hpost
    have hb : '\\' ∈ path.data := by rw [h]; simp
    have hl := lastIndexOf_split '\\' pre post hpost
    rw [← h] at hl
    have h1 : path.data.take pre.length = pre := by rw [h]; simp
    have h2 : path.data.drop (pre.length + 1) = post := by
      rw [h, List.drop_append_eq_append_drop]
      simp
    simp [GetPathParent, GetPathName, hb, hl, h1, h2]

/-- Examples of the cut: the paths `/etc/app/conf.json` and `C:\app\conf.json`. -/
theorem GetPathParent_split_witness :
    (GetPathParent "/etc/app/conf.json" = .ok (String.mk "/etc/app".data) ∧
      GetPathName "/etc/app/conf.json" = String.mk "conf.json".data) ∧
    (GetPathParent "C:\\app\\conf.json" = .ok (String.mk "C:\\app".data) ∧
      GetPathName "C:\\app\\conf.json" = String.mk "conf.json".data) :=
  ⟨(GetPathParent_split "/etc/app/conf.json" "/etc/app".data "conf.json".data).1
      (by decide) rfl (by decide),
    (GetPathParent_split "C:\\app\\conf.json" "C:\\app".data "conf.json".data).2
      rfl (by decide)⟩

end strtool

namespace mloader

/-! ## Module loader -/

theorem key_ne (name : String) : name ++ ".SetupVer" ≠ name ++ ".SetupDate" := by
  intro h
  have h1 : (name ++ ".SetupVer").data = (name ++ ".SetupDate").data := by rw [h]
  simp only [String.data_append, List.append_cancel_left_eq] at h1
  exact absurd h1 (by decide)

/-- After `setVersion` a faithful recorder returns the formatted version. -/
theorem setVersion_get {Ver σ : Type} (deps : Deps Ver σ) (hf : Faithful deps)
    (ld : Loader Ver σ) (opts : Opts Ver) (stamp : String) :
    (ld.setVersion deps opts stamp).getInstalledVersion deps opts =
      deps.formatFloat opts.Version := by
  simp only [Loader.setVersion, Loader.getInstalledVersion]
  rw [hf.2 _ _ _ _ (key_ne opts.Name), hf.1]

theorem setVersion_modules {Ver σ : Type} (deps : Deps Ver σ) (ld : Loader Ver σ)
    (opts : Opts Ver) (stamp : String) :
    (ld.setVersion deps opts stamp).modules = ld.modules := rfl

/-- Load of a module whose recorded version is the current formatted version. -/
theorem Load_current {Ver σ : Type} (deps : Deps Ver σ) (hfmt : ∀ v, deps.formatFloat v ≠ "")
    (ld : Loader Ver σ) (mt : Opts Ver) (s1 s2 : String)
    (hcur : ld.getInstalledVersion deps mt = deps.formatFloat mt.Version) :
    ld.Load deps mt s1 s2 =
      .ok (Loader.doReady mt ++ Loader.doInit mt, ld.doEnd mt mt) := by
  have hlen : ¬ (deps.formatFloat mt.Version).length = 0 :=
    fun h => hfmt mt.Version ((tokentool.length_eq_zero_iff _).mp h)
  simp [Loader.Load, Loader.doSetup, Loader.doCheckVersion, hcur, hlen]

/-- C26: with a faithful recorder, the first Load of a module without recorded version
calls OnReady, OnSetup and OnInit, in that order and once each (each one when the module
has it), never OnUpdate, and records the module's formatted version; a second Load of the
same module calls OnReady and OnInit once each and neither OnSetup nor OnUpdate; after each
Load `GetModuleByName` returns the module with ok = true. -/
theorem Load_sets_up_once {Ver σ : Type} (deps : Deps Ver σ) (hf : Faithful deps)
    (hfmt : ∀ v, deps.formatFloat v ≠ "") (ld : Loader Ver σ) (mt : Opts Ver)
    (s1 s2 s3 s4 : String)
    (hnew : deps.GetValue ld.mrecord (mt.Name ++ ".SetupVer") = "") :
    ∃ ld1 ld2,
      ld.Load deps mt s1 s2 =
        .ok ((if mt.OnReady then [Call.OnReady] else []) ++
          (if mt.OnSetup then [Call.OnSetup] else []) ++
          (if mt.OnInit then [Call.OnInit] else []), ld1) ∧
      deps.GetValue ld1.mrecord (mt.Name ++ ".SetupVer") = deps.formatFloat mt.Version ∧
      ld1.GetModuleByName mt.Name = (some mt, true) ∧
      ld1.Load deps mt s3 s4 =
        .ok ((if mt.OnReady then [Call.OnReady] else []) ++
          (if mt.OnInit then [Call.OnInit] else []), ld2) ∧
      deps.GetValue ld2.mrecord (mt.Name ++ ".SetupVer") = deps.formatFloat mt.Version ∧
      ld2.GetModuleByName mt.Name = (some mt, true) := by
  have hget := setVersion_get deps hf ld mt s1
  have hcur1 : ((ld.setVersion deps mt s1).doEnd mt mt).getInstalledVersion deps mt =
      deps.formatFloat mt.Version := hget
  refine ⟨(ld.setVersion deps mt s1).doEnd mt mt,
    ((ld.setVersion deps mt s1).doEnd mt mt).doEnd mt mt, ?_, hget, ?_, ?_, hget, ?_⟩
  · have h0 : (ld.getInstalledVersion deps mt).length = 0 := by
      simp [Loader.getInstalledVersion, hnew]
    simp [Loader.Load, Loader.doSetup, Loader.doCheckVersion, h0, hget, Loader.doReady,
      Loader.doInit]
  · simp [Loader.GetModuleByName, Loader.doEnd]
  · rw [Load_current deps hfmt _ mt s3 s4 hcur1]
    simp [Loader.doReady, Loader.doInit]
  · simp [Loader.GetModuleByName, Loader.doEnd]

/-- Witness of C26: the module `m` in version 1.00 on the loader with nothing recorded. -/
theorem Load_sets_up_once_witness :
    Faithful tableDeps ∧ (∀ v, tableDeps.formatFloat v ≠ "") ∧
    tableDeps.GetValue emptyLoader.mrecord (moduleV1.Name ++ ".SetupVer") = "" ∧
    (emptyLoader.Load tableDeps moduleV1 "t1" "t2").map Prod.fst =
      .ok [Call.OnReady, Call.OnSetup, Call.OnInit] ∧
    ((afterLoad emptyLoader moduleV1 "t1").Load tableDeps moduleV1 "t3" "t4").map Prod.fst =
      .ok [Call.OnReady, Call.OnInit] ∧
    ∃ ld1 ld2,
      emptyLoader.Load tableDeps moduleV1 "t1" "t2" =
        .ok ((if moduleV1.OnReady then [Call.OnReady] else []) ++
          (if moduleV1.OnSetup then [Call.OnSetup] else []) ++
          (if moduleV1.OnInit then [Call.OnInit] else []), ld1) ∧
      tableDeps.GetValue ld1.mrecord (moduleV1.Name ++ ".SetupVer") =
        tableDeps.formatFloat moduleV1.Version ∧
      ld1.GetModuleByName moduleV1.Name = (some moduleV1, true) ∧
      ld1.Load tableDeps moduleV1 "t3" "t4" =
        .ok ((if moduleV1.OnReady then [Call.OnReady] else []) ++
          (if moduleV1.OnInit then [Call.OnInit] else []), ld2) ∧
      tableDeps.GetValue ld2.mrecord (moduleV1.Name ++ ".SetupVer") =
        tableDeps.formatFloat moduleV1.Version ∧
      ld2.GetModuleByName moduleV1.Name = (some moduleV1, true) :=
  have hf : Faithful tableDeps :=
    ⟨fun s k v => by simp [tableDeps], fun s k k2 v hne => by simp [tableDeps, hne]⟩
  have hfmt : ∀ v, tableDeps.formatFloat v ≠ "" := by
    intro v
    simp only [tableDeps]
    split_ifs <;> decide
  ⟨hf, hfmt, rfl, rfl, rfl,
    Load_sets_up_once tableDeps hf hfmt emptyLoader moduleV1 "t1" "t2" "t3" "t4" rfl⟩

/-- C27: with a faithful recorder, when the recorded version of a module is non-empty,
parses as the number `cv` and differs from the current formatted version, Load calls
OnUpdate once, with `cv`, and does not call OnSetup; afterwards the recorded version is
the current formatted version and a further Load calls neither OnUpdate nor OnSetup; and
when the recorded version already is the current formatted version, Load calls neither. -/
theorem Load_upgrades_once {Ver σ : Type} (deps : Deps Ver σ) (hf : Faithful deps)
    (hfmt : ∀ v, deps.formatFloat v ≠ "") (ld : Loader Ver σ) (mt : Opts Ver)
    (s1 s2 s3 s4 : String) :
    (∀ hv cv, deps.GetValue ld.mrecord (mt.Name ++ ".SetupVer") = hv → hv ≠ "" →
      deps.parseFloat hv = some cv → hv ≠ deps.formatFloat mt.Version →
      ∃ ld1 ld2,
        ld.Load deps mt s1 s2 =
          .ok ((if mt.OnReady then [Call.OnReady] else []) ++
            (if mt.OnUpdate then [Call.OnUpdate cv] else []) ++
            (if mt.OnInit then [Call.OnInit] else []), ld1) ∧
        deps.GetValue ld1.mrecord (mt.Name ++ ".SetupVer") = deps.formatFloat mt.Version ∧
        ld1.Load deps mt s3 s4 =
          .ok ((if mt.OnReady then [Call.OnReady] else []) ++
            (if mt.OnInit then [Call.OnInit] else []), ld2)) ∧
    (deps.GetValue ld.mrecord (mt.Name ++ ".SetupVer") = deps.formatFloat mt.Version →
      ∃ ld1, ld.Load deps mt s1 s2 =
        .ok ((if mt.OnReady then [Call.OnReady] else []) ++
          (if mt.OnInit then [Call.OnInit] else []), ld1)) := by
  constructor
  · intro hv cv hrec hne hparse hdiff
    have hget := setVersion_get deps hf ld mt s2
    have hcur1 : ((ld.setVersion deps mt s2).doEnd mt mt).getInstalledVersion deps mt =
        deps.formatFloat mt.Version := hget
    have hlen : ¬ (ld.getInstalledVersion deps mt).length = 0 := by
      intro h
      have := (tokentool.length_eq_zero_iff _).mp h
      exact hne (hrec ▸ this)
    have hd : ld.getInstalledVersion deps mt ≠ deps.formatFloat mt.Version := by
      intro h
      exact hdiff (hrec ▸ h)
    have hp : deps.parseFloat (ld.getInstalledVersion deps mt) = some cv := by
      simpa [Loader.getInstalledVersion, hrec] using hparse
    refine ⟨(ld.setVersion deps mt s2).doEnd mt mt,
      ((ld.setVersion deps mt s2).doEnd mt mt).doEnd mt mt, ?_, hget, ?_⟩
    · cases hu : mt.OnUpdate <;>
        simp [Loader.Load, Loader.doSetup, Loader.doCheckVersion, hlen, hd, hp, hu,
          Loader.doReady, Loader.doInit]
    · rw [Load_current deps hfmt _ mt s3 s4 hcur1]
      simp [Loader.doReady, Loader.doInit]
  · intro hcur
    refine ⟨ld.doEnd mt mt, ?_⟩
    rw [Load_current deps hfmt ld mt s1 s2 hcur]
    simp [Loader.doReady, Loader.doInit]

/-- Witness of C27: the module `m` recorded in version 1.00 and loaded in version 2.00. -/
theorem Load_upgrades_once_witness :
    Faithful tableDeps ∧ (∀ v, tableDeps.formatFloat v ≠ "") ∧
    tableDeps.GetValue (afterLoad emptyLoader moduleV1 "t0").mrecord
      (moduleV2.Name ++ ".SetupVer") = "1.00" ∧
    tableDeps.parseFloat "1.00" = some 100 ∧
    ("1.00" : String) ≠ tableDeps.formatFloat moduleV2.Version ∧
    ((afterLoad emptyLoader moduleV1 "t0").Load tableDeps moduleV2 "t1" "t2").map Prod.fst =
      .ok [Call.OnReady, Call.OnUpdate 100, Call.OnInit] ∧
    (∃ ld1 ld2,
      (afterLoad emptyLoader moduleV1 "t0").Load tableDeps moduleV2 "t1" "t2" =
        .ok ((if moduleV2.OnReady then [Call.OnReady] else []) ++
          (if moduleV2.OnUpdate then [Call.OnUpdate 100] else []) ++
          (if moduleV2.OnInit then [Call.OnInit] else []), ld1) ∧
      tableDeps.GetValue ld1.mrecord (moduleV2.Name ++ ".SetupVer") =
        tableDeps.formatFloat moduleV2.Version ∧
      ld1.Load tableDeps moduleV2 "t3" "t4" =
        .ok ((if moduleV2.OnReady then [Call.OnReady] else []) ++
          (if moduleV2.OnInit then [Call.OnInit] else []), ld2)) ∧
    (∃ ld1, (afterLoad emptyLoader moduleV1 "t0").Load tableDeps moduleV1 "t1" "t2" =
      .ok ((if moduleV1.OnReady then [Call.OnReady] else []) ++
        (if moduleV1.OnInit then [Call.OnInit] else []), ld1)) :=
  have hf : Faithful tableDeps :=
    ⟨fun s k v => by simp [tableDeps], fun s k k2 v hne => by simp [tableDeps, hne]⟩
  have hfmt : ∀ v, tableDeps.formatFloat v ≠ "" := by
    intro v
    simp only [tableDeps]
    split_ifs <;> decide
  ⟨hf, hfmt, rfl, rfl, by decide, rfl,
    (Load_upgrades_once tableDeps hf hfmt (afterLoad emptyLoader moduleV1 "t0") moduleV2
      "t1" "t2" "t3" "t4").1 "1.00" 100 rfl (by decide) rfl (by decide),
    (Load_upgrades_once tableDeps hf hfmt (afterLoad emptyLoader moduleV1 "t0") moduleV1
      "t1" "t2" "t3" "t4").2 rfl⟩

end mloader

end Gutils
